import Mathlib

/-!
# A shallow embedding of the `toosoon-ecs` World

This file embeds the data model and the operations of the ECS library
(`src/entity.ts`, `src/component.ts`, `src/system.ts`, `src/world.ts`) as
executable Lean definitions and proves properties of them.

Modelling conventions:
* JS numbers that hold wall-clock or game-clock instants are rationals (`ℚ`);
  the ambient time `now()` is threaded as an explicit argument `t` into every
  operation that reads the clock.
* A JS timestamp that has become `NaN` (which happens when a pair that was
  never stamped is updated, since `time - undefined` is `NaN`) is `none`;
  dually a missing key in a timestamp table reads as `none`.
* JS objects keyed by numbers are association lists in insertion order;
  assignment overwrites in place, `delete` removes the key.
* Callbacks (`enter`, `exit`, `change`, `update`, …) are modelled as emitted
  events; a `System`/`Entity` carries boolean flags saying which optional
  hooks are defined, and an event is emitted exactly when the code would
  invoke the corresponding hook.
* A thrown `TypeError` (spreading `undefined` in `Entity.getComponents`) is
  `Option.none` of the whole operation: the JS exception aborts the call
  before any mutation of the world has happened.
-/

/-- Component type identifiers (`-1` is the wildcard). -/
abbrev CompType := Int

/-- A component instance: an identity plus its registered type id
(`src/component.ts`; the payload is irrelevant to the world's behaviour). -/
structure Comp where
  cid : Nat
  type : CompType
deriving DecidableEq, Repr

/-- An entity: unique id, attached component instances, `active` flag and
the optional `onAdded`/`onRemoved` hooks (`src/entity.ts`).  The JS per-type
bucket map is recovered from the flat list by filtering on the type; the
"empty buckets are deleted immediately" invariant makes the two views
equivalent. -/
structure Entity where
  id : Nat
  components : List Comp
  active : Bool := true
  hasOnAdded : Bool := false
  hasOnRemoved : Bool := false
deriving DecidableEq, Repr

/-- `type in entity.components` (a bucket for `type` exists). -/
def Entity.hasType (e : Entity) (ty : CompType) : Bool :=
  e.components.any (fun c => c.type == ty)

/-- The raw list of type keys of the entity (with duplicates). -/
def Entity.typeIds (e : Entity) : List CompType :=
  e.components.map (fun c => c.type)

/-- `Entity.add` (src/entity.ts): create the bucket if missing, no-op if this
very instance is already attached, else push it.  Returns the new entity and
whether the subscribers were notified. -/
def Entity.addComponent (e : Entity) (c : Comp) : Entity × Bool :=
  if e.components.contains c then (e, false)
  else ({ e with components := e.components ++ [c] }, true)

/-- `Entity.remove` (src/entity.ts): remove the first occurrence of the
instance; subscribers notified iff it was attached. -/
def Entity.removeComponent (e : Entity) (c : Comp) : Entity × Bool :=
  if e.components.contains c then ({ e with components := e.components.erase c }, true)
  else (e, false)

/-- `Entity.getComponents` (src/entity.ts): `[...this.components[type]]`.
When the bucket is missing this spreads `undefined` and throws, which is the
`none` result. -/
def Entity.getComponents (e : Entity) (ty : CompType) : Option (List Comp) :=
  if e.hasType ty then some (e.components.filter (fun c => c.type == ty)) else none

/-- A system (`src/system.ts`): id, required component types, admissible
states, frequency cap, flags for the optional hooks, and whether
`system.world` currently points at the world under study (set by `_inject`,
cleared by `removeSystem`). -/
structure System where
  id : Nat
  componentTypes : List CompType
  states : List String := ["Any"]
  frequency : ℚ := 0
  hasEnter : Bool := false
  hasExit : Bool := false
  hasChange : Bool := false
  hasUpdate : Bool := false
  hasBefore : Bool := false
  hasAfter : Bool := false
  hasOnAdded : Bool := false
  hasOnRemoved : Bool := false
  injected : Bool := false
deriving DecidableEq, Repr

/-- `ECSState.Any` (src/types.ts). -/
def anyState : String := "Any"

/-- Observable hook invocations, in invocation order. -/
inductive Event where
  | enter (sid eid : Nat)
  | exit (sid eid : Nat)
  | change (sid eid : Nat) (added removed : Option Comp)
  | entityAdded (eid : Nat)
  | entityRemoved (eid : Nat)
  | systemAdded (sid : Nat)
  | systemRemoved (sid : Nat)
  | systemDestroyed (sid : Nat)
  | beforeAll (sid : Nat) (t : ℚ) (delta : Option ℚ) (eids : List Nat)
  | upd (sid eid : Nat) (t : ℚ) (delta : Option ℚ)
  | afterAll (sid : Nat) (t : ℚ) (delta : Option ℚ) (eids : List Nat)
  | stateChange (sid : Nat) (next prev : String)
deriving DecidableEq, Repr

/-- Association-list lookup (JS `obj[k]`, `undefined` as `none`). -/
def lookupA {α β : Type} [DecidableEq α] : List (α × β) → α → Option β
  | [], _ => none
  | p :: rest, k => if p.1 == k then some p.2 else lookupA rest k

/-- Association-list assignment (JS `obj[k] = v`): overwrite in place, or
append in insertion order. -/
def setA {α β : Type} [DecidableEq α] (l : List (α × β)) (k : α) (v : β) : List (α × β) :=
  if l.any (fun p => p.1 == k) then
    l.map (fun p => if p.1 == k then (k, v) else p)
  else l ++ [(k, v)]

/-- Association-list deletion (JS `delete obj[k]`). -/
def eraseA {α β : Type} [DecidableEq α] (l : List (α × β)) (k : α) : List (α × β) :=
  l.filter (fun p => !(p.1 == k))

/-- The per-entity-per-system timestamp tables
(`_entitySystemLastUpdate`, `_entitySystemLastUpdateGame`). -/
abbrev StampTable := List (Nat × List (Nat × Option ℚ))

/-- Read `table[eid][sid]`; anything missing (or stored `NaN`) is `none`. -/
def stampOf (tbl : StampTable) (eid sid : Nat) : Option ℚ :=
  match lookupA tbl eid with
  | none => none
  | some inner =>
    match lookupA inner sid with
    | none => none
    | some v => v

/-- Write `table[eid][sid] = v`. -/
def setStamp (tbl : StampTable) (eid sid : Nat) (v : Option ℚ) : StampTable :=
  match lookupA tbl eid with
  | some inner => setA tbl eid (setA inner sid v)
  | none => setA tbl eid [(sid, v)]

/-- `delete table[eid][sid]`. -/
def eraseStamp (tbl : StampTable) (eid sid : Nat) : StampTable :=
  match lookupA tbl eid with
  | some inner => setA tbl eid (eraseA inner sid)
  | none => tbl

/-- The World state (`src/world.ts`).  The entity→systems index stores the
`System` values themselves, exactly as the JS index stores references. -/
structure World where
  systems : List System
  entities : List Entity
  entitySystems : List (Nat × List System)
  lastUpdate : StampTable
  lastUpdateGame : StampTable
  queryCache : List (CompType × List Nat)
  state : String
  timeScale : ℚ
  lastUpdateTime : ℚ
  gameTime : ℚ
deriving DecidableEq, Repr

/-- A world freshly constructed at wall-clock instant `t`
(`_lastUpdate = now()` in the constructor). -/
def World.init (t : ℚ) : World :=
  { systems := [], entities := [], entitySystems := [], lastUpdate := [],
    lastUpdateGame := [], queryCache := [], state := "", timeScale := 1,
    lastUpdateTime := t, gameTime := 0 }

/-- The test `_indexEntitySystem` runs for one required type:
`[-1].concat(Object.keys(entity.components)).includes(ct)`. -/
def typeSatisfied (e : Entity) (ct : CompType) : Bool :=
  ct == -1 || e.hasType ct

/-- All required types of the system are satisfied by the entity (the loop in
`_indexEntitySystem` finds no missing type; vacuously true for `[]`). -/
def sysMatches (s : System) (e : Entity) : Bool :=
  s.componentTypes.all (fun ct => typeSatisfied e ct)

/-- `_indexEntitySystem(entity, system)` (world.ts:385).  Assumes (like the
code's callers guarantee) that `entitySystems[entity.id]` exists; a missing
entry reads as `[]`. -/
def World.indexEntitySystem (w : World) (t : ℚ) (e : Entity) (s : System) :
    World × List Event :=
  let lst := (lookupA w.entitySystems e.id).getD []
  let present := lst.any (fun s0 => s0.id == s.id)
  if !(w.systems.any (fun s0 => s0.id == s.id)) then
    if present then
      ({ w with
          entitySystems := setA w.entitySystems e.id
            (lst.filter (fun s0 => !(s0.id == s.id))),
          lastUpdate := eraseStamp w.lastUpdate e.id s.id,
          lastUpdateGame := eraseStamp w.lastUpdateGame e.id s.id }, [])
    else (w, [])
  else if sysMatches s e then
    if present then (w, [])
    else
      ({ w with
          entitySystems := setA w.entitySystems e.id (lst ++ [s]),
          lastUpdate := setStamp w.lastUpdate e.id s.id (some t),
          lastUpdateGame := setStamp w.lastUpdateGame e.id s.id (some w.gameTime) },
        if s.hasEnter then [Event.enter s.id e.id] else [])
  else
    if present then
      ({ w with
          entitySystems := setA w.entitySystems e.id
            (lst.filter (fun s0 => !(s0.id == s.id))),
          lastUpdate := eraseStamp w.lastUpdate e.id s.id,
          lastUpdateGame := eraseStamp w.lastUpdateGame e.id s.id },
        if s.hasExit then [Event.exit s.id e.id] else [])
    else (w, [])

/-- Fold a world/event-producing step over a list, concatenating events. -/
def foldWE {α : Type} (f : World → α → World × List Event) (w : World) (l : List α) :
    World × List Event :=
  l.foldl (fun acc a =>
    let r := f acc.1 a
    (r.1, acc.2 ++ r.2)) (w, [])

/-- `_indexEntity(entity)` with no specific system: ensure the index entry
exists, then run `_indexEntitySystem` for every registered system. -/
def World.indexEntityAll (w : World) (t : ℚ) (e : Entity) : World × List Event :=
  let w :=
    if (lookupA w.entitySystems e.id).isSome then w
    else { w with entitySystems := setA w.entitySystems e.id [] }
  foldWE (fun w1 s => w1.indexEntitySystem t e s) w w.systems

/-- `_indexEntity(entity, system)` for one specific system. -/
def World.indexEntityOne (w : World) (t : ℚ) (e : Entity) (s : System) :
    World × List Event :=
  let w :=
    if (lookupA w.entitySystems e.id).isSome then w
    else { w with entitySystems := setA w.entitySystems e.id [] }
  w.indexEntitySystem t e s

/-- `addEntity(entity)` (world.ts:143) at wall-clock instant `t`. -/
def World.addEntity (w : World) (t : ℚ) (e : Entity) : World × List Event :=
  if w.entities.any (fun e0 => e0.id == e.id) then (w, [])
  else
    let w := { w with
      entities := w.entities ++ [e],
      lastUpdate := setA w.lastUpdate e.id [],
      lastUpdateGame := setA w.lastUpdateGame e.id [] }
    let evs0 := if e.hasOnAdded then [Event.entityAdded e.id] else []
    let r := w.indexEntityAll t e
    (r.1, evs0 ++ r.2)

/-- The `_queryCache` sweep at the top of `removeEntity` (world.ts:183-194):
collect every cached component type the entity holds; throws (= `none`) as
soon as `entity.getComponents(type)` is evaluated on a type the entity does
not hold. -/
def cacheSweep (e : Entity) : List (CompType × List Nat) → Option (List CompType)
  | [] => some []
  | (ty, _) :: rest =>
    match e.getComponents ty with
    | none => none
    | some found =>
      match cacheSweep e rest with
      | none => none
      | some r => some (if found.length > 0 then ty :: r else r)

/-- `removeEntity(entity)` (world.ts:175) with the argument already resolved
to an entity.  `none` is the uncaught `TypeError` from the cache sweep. -/
def World.removeEntityObj (w : World) (e : Entity) : Option (World × List Event) :=
  match cacheSweep e w.queryCache with
  | none => none
  | some removeCached =>
    let w := { w with
      queryCache := removeCached.foldl (fun qc ty => eraseA qc ty) w.queryCache }
    let w :=
      match w.entities.findIdx? (fun e0 => e0.id == e.id) with
      | some i => { w with entities := w.entities.eraseIdx i }
      | none => w
    let indexed := (lookupA w.entitySystems e.id).getD []
    let exitEvs := indexed.foldl (fun acc s =>
      if s.hasExit then acc ++ [Event.exit s.id e.id] else acc) []
    let removedEvs := if e.hasOnRemoved then [Event.entityRemoved e.id] else []
    let w := { w with
      entitySystems := eraseA w.entitySystems e.id,
      lastUpdate := eraseA w.lastUpdate e.id,
      lastUpdateGame := eraseA w.lastUpdateGame e.id }
    some (w, exitEvs ++ removedEvs)

/-- `removeEntity(id)` with a numeric id: resolved through `getEntity`;
an unknown id is a no-op. -/
def World.removeEntityById (w : World) (i : Nat) : Option (World × List Event) :=
  match w.entities.find? (fun e0 => e0.id == i) with
  | none => some (w, [])
  | some e => w.removeEntityObj e

/-- `addSystem(system)` (world.ts:232) at wall-clock instant `t`.  The stored
copy has `injected := true` because `_inject` runs before `onAdded` and
`system.world` then stays on this world until `removeSystem`. -/
def World.addSystem (w : World) (t : ℚ) (s0 : System) : World × List Event :=
  if w.systems.any (fun s1 => s1.id == s0.id) then (w, [])
  else
    let s := { s0 with injected := true }
    let w := { w with systems := w.systems ++ [s] }
    let r1 := foldWE (fun w1 e => w1.indexEntityOne t e s) w w.entities
    let w := r1.1
    let enterEvs := w.entities.foldl (fun acc e =>
      if e.active then
        match lookupA w.entitySystems e.id with
        | some l =>
          if l.any (fun s1 => s1.id == s.id) && s.hasEnter then
            acc ++ [Event.enter s.id e.id]
          else acc
        | none => acc
      else acc) []
    let addedEvs := if s.hasOnAdded then [Event.systemAdded s.id] else []
    (w, r1.2 ++ enterEvs ++ addedEvs)

/-- `removeSystem(system)` (world.ts:266) with the argument already resolved.
Note `this._systems.splice(this._systems.indexOf(system), 1)`: when the
system is absent, `indexOf` is `-1` and `splice(-1, 1)` removes the *last*
element of the list. -/
def World.removeSystemObj (w : World) (s : System) : World × List Event :=
  let exitEvs := w.entities.foldl (fun acc e =>
    if e.active then
      match lookupA w.entitySystems e.id with
      | some l =>
        if l.any (fun s1 => s1.id == s.id) && s.hasExit then
          acc ++ [Event.exit s.id e.id]
        else acc
      | none => acc
    else acc) []
  let w := { w with systems :=
    match w.systems.findIdx? (fun s1 => s1.id == s.id) with
    | some i => w.systems.eraseIdx i
    | none => w.systems.dropLast }
  let lifeEvs :=
    if s.injected then
      [Event.systemDestroyed s.id] ++
        (if s.hasOnRemoved then [Event.systemRemoved s.id] else [])
    else []
  let r := foldWE (fun w1 e => w1.indexEntityOne 0 e s) w w.entities
  (r.1, exitEvs ++ lifeEvs ++ r.2)

/-- `removeSystem(id)` with a numeric id: unknown ids are a no-op. -/
def World.removeSystemById (w : World) (i : Nat) : World × List Event :=
  match w.systems.find? (fun s0 => s0.id == i) with
  | none => (w, [])
  | some s => w.removeSystemObj s

/-- `_onEntityUpdate(entity, added, removed)` (world.ts:461): the `change`
notifications, with the payload filtered to the system's own types. -/
def World.onEntityUpdate (w : World) (e : Entity) (added removed : Option Comp) :
    List Event :=
  match lookupA w.entitySystems e.id with
  | none => []
  | some l =>
    let toNotify := l.filter (fun s =>
      s.hasChange &&
        (s.componentTypes.contains (-1) ||
          (match added with
           | some a => s.componentTypes.contains a.type
           | none => false) ||
          (match removed with
           | some r => s.componentTypes.contains r.type
           | none => false)))
    toNotify.map (fun s =>
      let all := s.componentTypes.contains (-1)
      Event.change s.id e.id
        (if all then added else
          match added with
          | some a => if s.componentTypes.contains a.type then some a else none
          | none => none)
        (if all then removed else
          match removed with
          | some r => if s.componentTypes.contains r.type then some r else none
          | none => none))

/-- Replace the stored copy of an entity by its mutated value. -/
def World.storeEntity (w : World) (e : Entity) : World :=
  { w with entities := w.entities.map (fun e0 => if e0.id == e.id then e else e0) }

/-- `entity.add(component)` on an entity that is in world `w` (routed through
the world's subscription, world.ts:159-162).  Unknown ids are a no-op (the
entity is not subscribed). -/
def World.compAdd (w : World) (t : ℚ) (eid : Nat) (c : Comp) : World × List Event :=
  match w.entities.find? (fun e0 => e0.id == eid) with
  | none => (w, [])
  | some e =>
    let r := e.addComponent c
    if r.2 then
      let w1 := w.storeEntity r.1
      let changeEvs := w1.onEntityUpdate r.1 (some c) none
      let r2 := w1.indexEntityAll t r.1
      (r2.1, changeEvs ++ r2.2)
    else (w.storeEntity r.1, [])

/-- `entity.remove(component)` on an entity that is in world `w`. -/
def World.compRemove (w : World) (t : ℚ) (eid : Nat) (c : Comp) : World × List Event :=
  match w.entities.find? (fun e0 => e0.id == eid) with
  | none => (w, [])
  | some e =>
    let r := e.removeComponent c
    if r.2 then
      let w1 := w.storeEntity r.1
      let changeEvs := w1.onEntityUpdate r.1 none (some c)
      let r2 := w1.indexEntityAll t r.1
      (r2.1, changeEvs ++ r2.2)
    else (w.storeEntity r.1, [])

/-- The single-pass scan behind `query` (world.ts:307): drain of the returned
iterator.  The wildcard check happens per pulled entity, before the superset
test. -/
def queryScan (types : List CompType) : List Entity → List Entity
  | [] => []
  | e :: rest =>
    if types.contains (-1) then e :: queryScan types rest
    else if types.all (fun ty => typeSatisfied e ty) then e :: queryScan types rest
    else queryScan types rest

/-- `query(componentTypes)`, fully drained. -/
def World.query (w : World) (types : List CompType) : List Entity :=
  queryScan types w.entities

/-- `queryEntitiesByComponent(componentType)` (world.ts:342): returns the
(possibly stale) cached list, else materializes and caches iff non-empty. -/
def World.queryEntitiesByComponent (w : World) (ty : CompType) :
    World × List Nat :=
  match lookupA w.queryCache ty with
  | some cached => (w, cached)
  | none =>
    let ents := (w.entities.filter (fun e => typeSatisfied e ty)).map (fun e => e.id)
    if ents.length > 0 then
      ({ w with queryCache := setA w.queryCache ty ents }, ents)
    else (w, ents)

/-- Truncation toward zero of a rational, as JS `Math.trunc` /
the implicit truncation in the `%` operator. -/
def ratTrunc (q : ℚ) : ℤ := q.num.tdiv (q.den : ℤ)

/-- The JS remainder operator on (non-`NaN`) numbers:
`x % y = x - y * trunc(x / y)`. -/
def jsMod (x y : ℚ) : ℚ := x - y * ((ratTrunc (x / y) : ℤ) : ℚ)

/-- One per-system batch accumulated during `update()`
(`updated[id] = { system, delta, entities }`). -/
structure Batch where
  sys : System
  delta : Option ℚ
  eids : List Nat
deriving DecidableEq, Repr

/-- Insert a batch keyed by system id in ascending id order: `updated` is a
JS object with integer-like string keys, so `Object.values` enumerates it in
ascending numeric order. -/
def insertBatch (sid : Nat) (b : Batch) : List (Nat × Batch) → List (Nat × Batch)
  | [] => [(sid, b)]
  | p :: rest =>
    if sid < p.1 then (sid, b) :: p :: rest else p :: insertBatch sid b rest

/-- The inner `getActiveSystems().forEach(...)` of `update()` for one entity
(world.ts:521-552), threading the batch table. -/
def sysScan (t : ℚ) (e : Entity) (w : World) (acts : List System)
    (batches : List (Nat × Batch)) : World × List (Nat × Batch) :=
  acts.foldl (fun acc s =>
    let w := acc.1
    let b := acc.2
    if s.hasUpdate then
      match lookupA b s.id with
      | some batch =>
        (w, setA b s.id { batch with eids := batch.eids ++ [e.id] })
      | none =>
        let stampW := stampOf w.lastUpdate e.id s.id
        let stampG := stampOf w.lastUpdateGame e.id s.id
        let elapsed := stampW.map (fun x => t - x)
        let elapsedScaled := stampG.map (fun x => w.gameTime - x)
        if s.frequency > 0 then
          let interval := 1000 / s.frequency
          if (match elapsed with
              | some el => decide (el < interval)
              | none => false) then
            (w, b)
          else
            let w := { w with
              lastUpdate := setStamp w.lastUpdate e.id s.id
                (elapsed.map (fun el => t - jsMod el interval)),
              lastUpdateGame := setStamp w.lastUpdateGame e.id s.id (some w.gameTime) }
            (w, insertBatch s.id
              { sys := s, delta := elapsedScaled.map (fun x => x / 1000),
                eids := [e.id] } b)
        else
          let w := { w with
            lastUpdate := setStamp w.lastUpdate e.id s.id (some t),
            lastUpdateGame := setStamp w.lastUpdateGame e.id s.id (some w.gameTime) }
          (w, insertBatch s.id
            { sys := s, delta := elapsedScaled.map (fun x => x / 1000),
              eids := [e.id] } b)
    else (w, b)) (w, batches)

/-- The `this._entities.forEach(...)` of `update()`: JS `forEach` fixes the
iteration bound to the initial length but reads the live array, so an index
beyond the current (shrunk) length is skipped.  `fuel` counts the remaining
originally-scheduled indices. -/
def entityScan (t : ℚ) : Nat → Nat → World → List (Nat × Batch) → List Event →
    Option (World × List (Nat × Batch) × List Event)
  | 0, _, w, batches, evs => some (w, batches, evs)
  | fuel + 1, k, w, batches, evs =>
    if h : k < w.entities.length then
      let e := w.entities.get ⟨k, h⟩
      if e.active then
        match lookupA w.entitySystems e.id with
        | none => entityScan t fuel (k + 1) w batches evs
        | some _ =>
          let acts := w.systems.filter (fun s =>
            s.states.contains anyState || s.states.contains w.state)
          let r := sysScan t e w acts batches
          entityScan t fuel (k + 1) r.1 r.2 evs
      else
        match w.removeEntityObj e with
        | none => none
        | some r => entityScan t fuel (k + 1) r.1 batches (evs ++ r.2)
    else entityScan t fuel (k + 1) w batches evs

/-- The final `Object.values(updated).forEach(...)` of `update()`:
`beforeUpdateAll`, per-entity `update`, `afterUpdateAll` per batch. -/
def batchEvents (g : ℚ) (batches : List (Nat × Batch)) : List Event :=
  batches.flatMap (fun p =>
    let b := p.2
    (if b.sys.hasBefore then [Event.beforeAll b.sys.id g b.delta b.eids] else []) ++
      (if b.sys.hasUpdate then b.eids.map (fun eid => Event.upd b.sys.id eid g b.delta)
       else []) ++
      (if b.sys.hasAfter then [Event.afterAll b.sys.id g b.delta b.eids] else []))

/-- `update()` (world.ts:497) at wall-clock instant `t`. -/
def World.update (w : World) (t : ℚ) : Option (World × List Event) :=
  let w := { w with
    gameTime := w.gameTime + (t - w.lastUpdateTime) * w.timeScale,
    lastUpdateTime := t }
  match entityScan t w.entities.length 0 w [] [] with
  | none => none
  | some (w1, batches, evs) =>
    some (w1, evs ++ batchEvents w1.gameTime batches)

/-- `setState(state)` (world.ts:132). -/
def World.setState (w : World) (st : String) : World × List Event :=
  ({ w with state := st },
    w.systems.map (fun s => Event.stateChange s.id st w.state))

/-- `getActiveSystems()` (world.ts:598). -/
def World.getActiveSystems (w : World) : List System :=
  w.systems.filter (fun s => s.states.contains anyState || s.states.contains w.state)

/-! ## Concrete fixtures used by counterexamples and witnesses -/

/-- A component instance of type `1`. -/
def compA : Comp := { cid := 10, type := 1 }

/-- A component instance of type `2`. -/
def compB : Comp := { cid := 11, type := 2 }

/-- An entity holding one component of type `1`. -/
def entA : Entity := { id := 1, components := [compA] }

/-- An entity holding no components. -/
def entB : Entity := { id := 2, components := [] }

/-- A system requiring component type `1`, with all lifecycle hooks. -/
def sysA : System :=
  { id := 1, componentTypes := [1], hasEnter := true, hasExit := true, hasUpdate := true }

/-- A wildcard system with frequency 1 and an `update` hook. -/
def sysWild : System :=
  { id := 2, componentTypes := [-1], frequency := 1,
    hasEnter := true, hasExit := true, hasUpdate := true }

/-- A system declaring an empty component-type list. -/
def sysEmpty : System := { id := 3, componentTypes := [], hasEnter := true }

/-- An unthrottled wildcard system with an `update` hook. -/
def sysZero : System :=
  { id := 4, componentTypes := [-1], frequency := 0, hasUpdate := true }

/-- A system never added to any world here. -/
def sysForeign : System := { id := 99, componentTypes := [5] }

/-- An entity never added to any world here, holding a component of type `1`. -/
def entForeign : Entity :=
  { id := 7, components := [{ cid := 70, type := 1 }], hasOnRemoved := true }

/-- The effect of one `_indexEntitySystem` call on the indexed-systems list
of the entity, as a function of whether the system is registered (`inSys`)
and the current list. -/
def stepEntry (inSys : Bool) (l : List System) (e : Entity) (s : System) : List System :=
  if inSys && sysMatches s e then
    (if l.any (fun x => x.id == s.id) then l else l ++ [s])
  else l.filter (fun x => !(x.id == s.id))

/-- The hook events one `_indexEntitySystem` call fires, as a function of
whether the system is registered and whether the pair was indexed. -/
def stepEvents (inSys present : Bool) (e : Entity) (s : System) : List Event :=
  if inSys then
    (if sysMatches s e then
      (if present then [] else (if s.hasEnter then [Event.enter s.id e.id] else []))
     else (if present then (if s.hasExit then [Event.exit s.id e.id] else []) else []))
  else []

/-- The indexing fold of `_indexEntity` over a list of systems. -/
def indexFoldWE (t : ℚ) (e : Entity) (w : World) (ss : List System) : World × List Event :=
  foldWE (fun w1 s => w1.indexEntitySystem t e s) w ss

/-- The index invariant: entity and system ids are duplicate-free, index
entries exist only for entities in the world, and every entity's entry is
exactly the duplicate-free list of registered systems whose required types
it satisfies. -/
def WorldInv (w : World) : Prop :=
  (w.entities.map (fun e => e.id)).Nodup ∧
  (w.systems.map (fun s => s.id)).Nodup ∧
  (∀ k, (lookupA w.entitySystems k).isSome = true → k ∈ w.entities.map (fun e => e.id)) ∧
  (∀ e ∈ w.entities, ∃ l, lookupA w.entitySystems e.id = some l ∧
    (l.map (fun s => s.id)).Nodup ∧
    (∀ s : System, s ∈ l ↔ (s ∈ w.systems ∧ sysMatches s e = true)))

/-- The public mutating operations of the world, as a trace alphabet.
`remEnt`/`remSys` take ids (the `removeEntity(id)`/`removeSystem(id)`
forms); `cAdd`/`cRem` are `entity.add`/`entity.remove` on the entity with
the given id while it is in the world. -/
inductive Op where
  | addEnt (t : ℚ) (e : Entity)
  | remEnt (i : Nat)
  | addSys (t : ℚ) (s : System)
  | remSys (i : Nat)
  | cAdd (t : ℚ) (eid : Nat) (c : Comp)
  | cRem (t : ℚ) (eid : Nat) (c : Comp)
  | tick (t : ℚ)
deriving DecidableEq, Repr

/-- Execute one operation; `none` is an uncaught exception. -/
def execOp (w : World) : Op → Option (World × List Event)
  | Op.addEnt t e => some (w.addEntity t e)
  | Op.remEnt i => w.removeEntityById i
  | Op.addSys t s => some (w.addSystem t s)
  | Op.remSys i => some (w.removeSystemById i)
  | Op.cAdd t eid c => some (w.compAdd t eid c)
  | Op.cRem t eid c => some (w.compRemove t eid c)
  | Op.tick t => w.update t

/-- Run a list of operations, accumulating events. -/
def runOps (w : World) : List Op → Option (World × List Event)
  | [] => some (w, [])
  | op :: rest =>
    match execOp w op with
    | none => none
    | some (w1, evs1) =>
      match runOps w1 rest with
      | none => none
      | some (w2, evs2) => some (w2, evs1 ++ evs2)

/-! ## General lemmas -/

/-- A world holding just `entA`, built at time 0. -/
def wEntA : World := ((World.init 0).addEntity 0 entA).1

/-- A world holding just `sysA`, built at time 0. -/
def wSysA : World := ((World.init 0).addSystem 0 sysA).1

/-- A world holding `entA` and a populated query cache for component type 1
(the result of `queryEntitiesByComponent(1)`). -/
def wCached : World := (wEntA.queryEntitiesByComponent 1).1

/-- A world holding `entA` and `entB` and a populated query cache for
component type 1. -/
def wCachedB : World :=
  (((wEntA.addEntity 0 entB).1).queryEntitiesByComponent 1).1

/-- World for the C3 counterexample: wildcard frequency-1 system `sysWild`
added at t=0, `entA` added at t=0, `entB` added at t=600. -/
def wRider : World :=
  ((((World.init 0).addSystem 0 sysWild).1.addEntity 0 entA).1.addEntity 600 entB).1

/-- World for the C9 counterexample: unthrottled wildcard system `sysZero`
with `entA`, `entB` added at t=0, after one `update()` at t=1000 (which
refreshed only `entA`'s timestamps, `entA` being the batch creator). -/
def wDeltaBase : World :=
  ((((World.init 0).addSystem 0 sysZero).1.addEntity 0 entA).1.addEntity 0 entB).1

/-- `wDeltaBase` after the tick at t=1000. -/
def wDelta1 : World := ((wDeltaBase.update 1000).getD (wDeltaBase, [])).1

/-- A system requiring component type 2. -/
def sysB : System := { id := 5, componentTypes := [2] }

/-- An entity holding only the type-2 component `compB`. -/
def entC : Entity := { id := 3, components := [compB] }

/-- A short operation trace: register `sysA`, then add `entA`. -/
def opsC2 : List Op := [Op.addSys 0 sysA, Op.addEnt 0 entA]

/-- The world the trace `opsC2` settles into. -/
def wC2 : World := ((runOps (World.init 0) opsC2).getD (World.init 0, [])).1

/-- The events the trace `opsC2` fires. -/
def evsC2 : List Event := ((runOps (World.init 0) opsC2).getD (World.init 0, [])).2

/-- A world with only the empty-requirement system `sysEmpty` registered. -/
def wSysEmpty : World := ((World.init 0).addSystem 0 sysEmpty).1

/-- A world with the throttled wildcard system `sysWild` (frequency 1) and
`entB`, both added at t=0. -/
def wFreq : World := (((World.init 0).addSystem 0 sysWild).1.addEntity 0 entB).1

/-- `wFreq` after a tick at t=1100 (the pair runs; its wall stamp becomes
1000 = 1100 − 1100 mod 1000). -/
def wFreqT1 : World := ((wFreq.update 1100).getD (wFreq, [])).1

/-- The events of the tick at t=1100. -/
def evsFreq1 : List Event := ((wFreq.update 1100).getD (wFreq, [])).2

/-- The events of the following tick at t=1600 (elapsed 600 < 1000: skipped). -/
def evsFreq2 : List Event := ((wFreqT1.update 1600).getD (wFreqT1, [])).2

/-- Multiply an optional game-clock quantity by `k` (`none` is `NaN`). -/
def scaleOpt (k : ℚ) (o : Option ℚ) : Option ℚ := o.map (fun v => k * v)

/-- Multiply every stamp of one entity's game-stamp row by `k`. -/
def scaleRow (k : ℚ) (row : List (Nat × Option ℚ)) : List (Nat × Option ℚ) :=
  row.map (fun q => (q.1, scaleOpt k q.2))

/-- Multiply every stamp of a game-stamp table by `k`. -/
def scaleTable (k : ℚ) (tb : StampTable) : StampTable :=
  tb.map (fun p => (p.1, scaleRow k p.2))

/-- Scale the game-clock side of a world by `k`: `timeScale`, `gameTime`
and every recorded game stamp are multiplied; the wall-clock side
(`lastUpdate`, `lastUpdateTime`) and all structure are untouched. -/
def scaleWorld (k : ℚ) (w : World) : World :=
  { w with
    timeScale := k * w.timeScale,
    gameTime := k * w.gameTime,
    lastUpdateGame := scaleTable k w.lastUpdateGame }

/-- Scale a batch's shared delta by `k`. -/
def scaleBatch (k : ℚ) (b : Batch) : Batch :=
  { b with delta := scaleOpt k b.delta }

/-- Scale a batch table by `k`. -/
def scaleBatches (k : ℚ) (l : List (Nat × Batch)) : List (Nat × Batch) :=
  l.map (fun p => (p.1, scaleBatch k p.2))

/-- Scale the game-clock payloads of a hook event by `k` (the game instant
and the delta of the update-phase hooks); all other events are untouched. -/
def scaleEvent (k : ℚ) : Event → Event
  | Event.beforeAll sid g d eids =>
    Event.beforeAll sid (k * g) (scaleOpt k d) eids
  | Event.upd sid eid g d => Event.upd sid eid (k * g) (scaleOpt k d)
  | Event.afterAll sid g d eids =>
    Event.afterAll sid (k * g) (scaleOpt k d) eids
  | ev => ev

/-- A world reached by registering `sysB`, adding `entC` (indexed for
`sysB`), then calling `removeSystem` with the never-registered object
`sysForeign` (whose `indexOf` is `-1`, so `splice(-1, 1)` evicts `sysB`
from the system list without touching the index), and finally removing
`entC`'s only component. -/
def wOrphan : World :=
  (((((World.init 0).addSystem 0 sysB).1.addEntity 0 entC).1.removeSystemObj
      sysForeign).1.compRemove 0 3 compB).1

/-- `hasType` is membership in the raw type-key list. -/
theorem Entity.hasType_iff (e : Entity) (ty : CompType) :
    e.hasType ty = true ↔ ty ∈ e.typeIds := by
  simp only [Entity.hasType, Entity.typeIds, List.any_eq_true, List.mem_map, beq_iff_eq]

/-- `find?` by a key function returns the sought element when the keys are
duplicate-free. -/
theorem find_by_key {α β : Type} [DecidableEq β] (f : α → β) {l : List α} {a : α}
    (hn : (l.map f).Nodup) (ha : a ∈ l) :
    l.find? (fun x => f x == f a) = some a := by
  induction l with
  | nil => cases ha
  | cons b l ih =>
    rcases List.mem_cons.mp ha with rfl | ha
    · simp [List.find?]
    · have hb : f b ≠ f a := by
        intro hEq
        have : f a ∈ l.map f := List.mem_map.mpr ⟨a, ha, rfl⟩
        rw [List.map_cons, List.nodup_cons] at hn
        exact hn.1 (hEq ▸ this)
      rw [List.find?]
      rw [show (f b == f a) = false by simpa using hb]
      exact ih (by rw [List.map_cons, List.nodup_cons] at hn; exact hn.2) ha

/-- When the requested types contain the wildcard, the scan keeps every
entity. -/
theorem queryScan_wildcard {types : List CompType} (h : (-1 : Int) ∈ types) :
    ∀ l : List Entity, queryScan types l = l := by
  intro l
  induction l with
  | nil => rfl
  | cons e rest ih => rw [queryScan, if_pos (by simpa using h), ih]

/-- Without the wildcard, the scan is a filter by the per-entity superset
test. -/
theorem queryScan_filter {types : List CompType} (h : (-1 : Int) ∉ types) :
    ∀ l : List Entity,
      queryScan types l = l.filter (fun e => types.all (fun ty => typeSatisfied e ty)) := by
  intro l
  induction l with
  | nil => rfl
  | cons e rest ih =>
    rw [queryScan, if_neg (by simpa using h), List.filter_cons]
    by_cases he : types.all (fun ty => typeSatisfied e ty) = true
    · rw [if_pos (by simpa using he), ih]
      simp [he]
    · rw [if_neg (by simpa using he), ih]
      simp [Bool.eq_false_iff.mpr he]

/-- The boolean superset test agrees with the spec-side proposition
"the entity component-type set, extended with the implicit wildcard `-1`,
is a superset of `types`". -/
theorem all_typeSatisfied_iff (e : Entity) (types : List CompType) :
    (types.all (fun ty => typeSatisfied e ty) = true) ↔
      (∀ ty ∈ types, ty ∈ ((-1 : Int) :: e.typeIds)) := by
  simp only [List.all_eq_true, typeSatisfied, Bool.or_eq_true, beq_iff_eq,
    List.mem_cons, Entity.hasType_iff]

/-- The boolean superset test as a `decide`. -/
theorem all_typeSatisfied_decide (e : Entity) (types : List CompType) :
    types.all (fun ty => typeSatisfied e ty) =
      decide (∀ ty ∈ types, ty ∈ ((-1 : Int) :: e.typeIds)) := by
  by_cases h : ∀ ty ∈ types, ty ∈ ((-1 : Int) :: e.typeIds)
  · rw [decide_eq_true h, (all_typeSatisfied_iff e types).mpr h]
  · rw [decide_eq_false h]
    rcases Bool.eq_false_or_eq_true (types.all fun ty => typeSatisfied e ty) with hb | hb
    · exact absurd ((all_typeSatisfied_iff e types).mp hb) h
    · exact hb

/-- C7: `query(types)` yields, in world registration order, exactly the
entities whose component-type set extended with the implicit wildcard `-1`
is a superset of `types`; and when `types` itself contains the wildcard it
yields every entity in the world, unfiltered. -/
theorem query_characterization (w : World) (types : List CompType) :
    w.query types =
      if (-1 : Int) ∈ types then w.entities
      else w.entities.filter
        (fun e => decide (∀ ty ∈ types, ty ∈ ((-1 : Int) :: e.typeIds))) := by
  by_cases h : (-1 : Int) ∈ types
  · rw [if_pos h]
    exact queryScan_wildcard h w.entities
  · rw [if_neg h, World.query, queryScan_filter h w.entities]
    apply List.filter_congr
    intro e _
    exact all_typeSatisfied_decide e types

/-- `Entity.add` of an already-attached instance returns early. -/
theorem Entity.addComponent_of_mem {e : Entity} {c : Comp} (h : c ∈ e.components) :
    e.addComponent c = (e, false) := by
  rw [Entity.addComponent, if_pos (by simpa using h)]

/-- Adding the same instance twice is the same as adding it once. -/
theorem Entity.addComponent_addComponent (e : Entity) (c : Comp) :
    ((e.addComponent c).1).addComponent c = ((e.addComponent c).1, false) := by
  by_cases h : c ∈ e.components
  · rw [Entity.addComponent_of_mem h]
    exact Entity.addComponent_of_mem h
  · have h1 : (e.addComponent c).1 = { e with components := e.components ++ [c] } := by
      rw [Entity.addComponent, if_neg (by simpa using h)]
    rw [h1]
    exact Entity.addComponent_of_mem (by simp)

/-- Re-storing an entity value that is already in the world is the
identity, provided entity ids are duplicate-free. -/
theorem World.storeEntity_self {w : World} {e : Entity}
    (hn : (w.entities.map (fun x => x.id)).Nodup) (he : e ∈ w.entities) :
    w.storeEntity e = w := by
  have h1 : ∀ x ∈ w.entities, (if x.id == e.id then e else x) = x := by
    intro x hx
    by_cases hid : x.id = e.id
    · have : x = e := List.inj_on_of_nodup_map hn hx he hid
      simp [this]
    · rw [if_neg (by simpa using hid)]
  rw [World.storeEntity]
  have h2 : w.entities.map (fun e0 => if e0.id == e.id then e else e0) = w.entities := by
    rw [List.map_congr_left h1]
    exact List.map_id w.entities
  rw [h2]

/-- Duplicate component add through the world is a silent no-op. -/
theorem World.compAdd_of_mem {w : World} {e : Entity} {c : Comp} (t : ℚ)
    (hn : (w.entities.map (fun x => x.id)).Nodup) (he : e ∈ w.entities)
    (hc : c ∈ e.components) :
    w.compAdd t e.id c = (w, []) := by
  have hf : w.entities.find? (fun e0 => e0.id == e.id) = some e :=
    find_by_key (fun x => x.id) hn he
  rw [World.compAdd, hf]
  simp only [Entity.addComponent_of_mem hc]
  exact congrArg (fun x => (x, ([] : List Event))) (World.storeEntity_self hn he)

/-- C10: `Entity.add` is idempotent per component instance: re-adding an
already-attached instance leaves the component map unchanged and notifies no
subscriber, so through the world neither indexing nor `enter`/`change` fires
and the world is untouched; hence `add c; add c` equals `add c`. -/
theorem entity_add_idempotent :
    (∀ (e : Entity) (c : Comp), c ∈ e.components → e.addComponent c = (e, false)) ∧
    (∀ (e : Entity) (c : Comp),
      ((e.addComponent c).1).addComponent c = ((e.addComponent c).1, false)) ∧
    (∀ (w : World) (t : ℚ) (e : Entity) (c : Comp),
      (w.entities.map (fun x => x.id)).Nodup → e ∈ w.entities → c ∈ e.components →
      w.compAdd t e.id c = (w, [])) :=
  ⟨fun _ _ h => Entity.addComponent_of_mem h,
   fun e c => Entity.addComponent_addComponent e c,
   fun _ t _ _ hn he hc => World.compAdd_of_mem t hn he hc⟩


/-- Witness for `entity_add_idempotent` at a concrete entity and world. -/
theorem entity_add_idempotent_witness :
    entA.addComponent compA = (entA, false) ∧ wEntA.compAdd 5 1 compA = (wEntA, []) :=
  ⟨entity_add_idempotent.1 entA compA (by decide),
   entity_add_idempotent.2.2 wEntA 5 entA compA (by decide) (by decide) (by decide)⟩




/-- Counterexample to C1: adding `sysA` to a world already containing the
active matching entity `entA` invokes `S.enter(e)` twice for this single
transition — once while indexing the entity for the new system and once in
`addSystem`'s explicit enter pass — not exactly once as claimed. -/
theorem addSystem_double_enter_cex :
    ((wEntA.addSystem 0 sysA).2).count (Event.enter 1 1) = 2 := by decide

/-- C4 at its failing input: `removeSystem` on a system object that is not
in the world is not a no-op.  `indexOf` yields `-1` and `splice(-1, 1)`
deletes the *last* registered system, so a world holding only `sysA` ends up
with no systems; likewise `removeEntity` on a never-added entity object
deletes populated query-cache lines for the types it holds and fires its
`onRemoved` hook. -/
theorem remove_absent_not_noop :
    (wSysA.removeSystemObj sysForeign).1.systems = [] ∧
    wSysA.systems ≠ [] ∧
    (wCached.removeEntityObj entForeign).map (fun r => r.1.queryCache) = some [] ∧
    wCached.queryCache ≠ [] ∧
    (wCached.removeEntityObj entForeign).map (fun r => r.2) =
      some [Event.entityRemoved 7] ∧
    entForeign ∉ wCached.entities := by decide

/-- C5 at its failing input: with a populated query cache for component type
1 (held only by `entA`), removing the component-less entity `entB` evaluates
`entity.getComponents(1)` during the cache sweep, which spreads `undefined`
and throws — `removeEntity` does not complete. -/
theorem removeEntity_cache_fault :
    wCachedB.removeEntityById 2 = none ∧ entB ∈ wCachedB.entities := by decide

/-- Counterexample to C6: a system whose declared component-type list is
empty matches every entity (the per-type loop of `_indexEntitySystem` is
vacuous): on `addEntity` the component-less entity `entB` is indexed for it
and receives `enter`. -/
theorem emptyTypes_matches_everything_cex :
    sysMatches sysEmpty entB = true ∧
    ((((World.init 0).addSystem 0 sysEmpty).1.addEntity 0 entB).2).count
      (Event.enter 3 2) = 1 ∧
    (lookupA ((((World.init 0).addSystem 0 sysEmpty).1.addEntity 0 entB).1.entitySystems) 2).map
      (fun l => l.map (fun s => s.id)) = some [3] := by decide


set_option maxRecDepth 4000 in
/-- Counterexample to C3: at the `update()` at t=1100, the pair
(`entB`, `sysWild`) has wall-clock elapsed 1100 − 600 = 500 < 1000/1 = the
interval, yet `sysWild.update` runs for `entB` (`entA` created the batch and
later entities ride along ungated), and `entB`'s wall timestamp is not
refreshed either. -/
theorem update_gating_not_per_pair_cex :
    stampOf wRider.lastUpdate 2 2 = some 600 ∧
    ((1100 : ℚ) - 600 < 1000 / sysWild.frequency) ∧
    (wRider.update 1100).map (fun r => r.2.count (Event.upd 2 2 1100 (some (11 / 10)))) =
      some 1 ∧
    (wRider.update 1100).map (fun r => stampOf r.1.lastUpdate 2 2) = some (some 600) := by
  with_unfolding_all decide





















set_option maxRecDepth 4000 in
/-- Counterexample to C9: at the second tick (t=2000, timeScale 1) the
game-clock elapsed time since (`entB`, `sysZero`)'s last update is
2000 − 0 = 2000 ms, i.e. 2 s, but `entB`'s `update` hook receives
delta = 1 s — the delta of the batch-creating pair (`entA`, `sysZero`) —
so the delta is not the per-pair game-clock elapsed time. -/
theorem update_delta_not_per_pair_cex :
    stampOf wDelta1.lastUpdateGame 2 4 = some 0 ∧
    (wDelta1.update 2000).map (fun r => r.1.gameTime) = some 2000 ∧
    (wDelta1.update 2000).map (fun r => r.2.count (Event.upd 4 2 2000 (some 1))) =
      some 1 ∧
    (((2000 : ℚ) - 0) / 1000 ≠ 1) := by with_unfolding_all decide

/-! ## Association-list lemmas -/

theorem lookupA_setA_self {α β : Type} [DecidableEq α] (l : List (α × β)) (k : α) (v : β) :
    lookupA (setA l k v) k = some v := by
  rw [setA]
  split
  case isTrue hc =>
    induction l with
    | nil => cases hc
    | cons q l ih =>
      rw [List.map_cons, lookupA]
      by_cases hq : q.1 = k
      · rw [show (if q.1 == k then (k, v) else q) = (k, v) by simp [hq]]
        simp
      · rw [show (if q.1 == k then (k, v) else q) = q by simp [hq]]
        rw [if_neg (by simpa using hq)]
        rcases List.any_eq_true.mp hc with ⟨p, hp, hpk⟩
        rcases List.mem_cons.mp hp with rfl | hp2
        · exact absurd (by simpa using hpk) hq
        · exact ih (List.any_eq_true.mpr ⟨p, hp2, hpk⟩)
  case isFalse hc =>
    induction l with
    | nil => simp [lookupA]
    | cons q l ih =>
      rw [List.cons_append, lookupA]
      have hq : ¬(q.1 = k) := fun hEq =>
        hc (List.any_eq_true.mpr ⟨q, List.mem_cons_self q l, by simpa using hEq⟩)
      rw [if_neg (by simpa using hq)]
      exact ih (fun hc2 => hc (by
        rcases List.any_eq_true.mp hc2 with ⟨p, hp, hpk⟩
        exact List.any_eq_true.mpr ⟨p, List.mem_cons_of_mem q hp, hpk⟩))

theorem lookupA_setA_other {α β : Type} [DecidableEq α] (l : List (α × β)) (k k' : α)
    (v : β) (h : k' ≠ k) : lookupA (setA l k v) k' = lookupA l k' := by
  rw [setA]
  split
  case isTrue hc =>
    clear hc
    induction l with
    | nil => rfl
    | cons q l ih =>
      rw [List.map_cons, lookupA, lookupA]
      by_cases hq : q.1 = k
      · rw [show (if q.1 == k then (k, v) else q) = (k, v) by simp [hq]]
        rw [show ((k, v).1 == k') = false by simpa using (Ne.symm h)]
        rw [show (q.1 == k') = false by simpa [hq] using (Ne.symm h)]
        simp only [Bool.false_eq_true, if_neg]
        exact ih
      · rw [show (if q.1 == k then (k, v) else q) = q by simp [hq]]
        by_cases hq' : q.1 = k'
        · rw [if_pos (by simpa using hq'), if_pos (by simpa using hq')]
        · rw [if_neg (by simpa using hq'), if_neg (by simpa using hq')]
          exact ih
  case isFalse hc =>
    clear hc
    induction l with
    | nil =>
      rw [List.nil_append, lookupA, lookupA]
      rw [if_neg (by simpa using (Ne.symm h))]
      rfl
    | cons q l ih =>
      rw [List.cons_append, lookupA, lookupA]
      by_cases hq' : q.1 = k'
      · rw [if_pos (by simpa using hq'), if_pos (by simpa using hq')]
      · rw [if_neg (by simpa using hq'), if_neg (by simpa using hq')]
        exact ih

theorem lookupA_eraseA_self {α β : Type} [DecidableEq α] (l : List (α × β)) (k : α) :
    lookupA (eraseA l k) k = none := by
  induction l with
  | nil => rfl
  | cons q l ih =>
    rw [eraseA, List.filter_cons]
    by_cases hq : q.1 = k
    · rw [if_neg (by simp [hq])]
      exact ih
    · rw [if_pos (by simpa using hq), lookupA, if_neg (by simpa using hq)]
      exact ih

theorem lookupA_eraseA_other {α β : Type} [DecidableEq α] (l : List (α × β)) (k k' : α)
    (h : k' ≠ k) : lookupA (eraseA l k) k' = lookupA l k' := by
  induction l with
  | nil => rfl
  | cons q l ih =>
    rw [eraseA, List.filter_cons]
    by_cases hq : q.1 = k
    · rw [if_neg (by simp [hq]), lookupA, if_neg (by simpa [hq] using (Ne.symm h))]
      exact ih
    · rw [if_pos (by simpa using hq), lookupA, lookupA]
      by_cases hq' : q.1 = k'
      · rw [if_pos (by simpa using hq'), if_pos (by simpa using hq')]
      · rw [if_neg (by simpa using hq'), if_neg (by simpa using hq')]
        exact ih

/-! ## Characterization of `_indexEntitySystem` -/

theorem ies_frame (w : World) (t : ℚ) (e : Entity) (s : System) :
    (w.indexEntitySystem t e s).1.systems = w.systems ∧
    (w.indexEntitySystem t e s).1.entities = w.entities ∧
    (w.indexEntitySystem t e s).1.queryCache = w.queryCache ∧
    (w.indexEntitySystem t e s).1.state = w.state ∧
    (w.indexEntitySystem t e s).1.timeScale = w.timeScale ∧
    (w.indexEntitySystem t e s).1.gameTime = w.gameTime ∧
    (w.indexEntitySystem t e s).1.lastUpdateTime = w.lastUpdateTime := by
  rw [World.indexEntitySystem]
  split_ifs <;> exact ⟨rfl, rfl, rfl, rfl, rfl, rfl, rfl⟩

theorem ies_entry {w : World} (t : ℚ) (e : Entity) (s : System) {l : List System}
    (hl : lookupA w.entitySystems e.id = some l) :
    lookupA (w.indexEntitySystem t e s).1.entitySystems e.id =
      some (stepEntry (w.systems.any (fun x => x.id == s.id)) l e s) := by
  have hflt : ¬(l.any (fun x => x.id == s.id)) = true →
      l.filter (fun x => !(x.id == s.id)) = l := by
    intro hp
    apply List.filter_eq_self.mpr
    intro x hx
    have : ¬(x.id = s.id) := fun hxe =>
      hp (List.any_eq_true.mpr ⟨x, hx, by simpa using hxe⟩)
    simpa using this
  rw [World.indexEntitySystem, stepEntry, hl]
  simp only [Option.getD_some]
  by_cases hin : (w.systems.any (fun x => x.id == s.id)) = true
  · rw [hin, if_neg (by simp [hin]), Bool.true_and]
    by_cases hm : sysMatches s e = true
    · rw [if_pos hm, if_pos hm]
      by_cases hp : (l.any (fun x => x.id == s.id)) = true
      · rw [if_pos hp, if_pos hp, hl]
      · rw [if_neg hp, if_neg hp]
        exact lookupA_setA_self _ _ _
    · rw [if_neg hm, if_neg hm]
      by_cases hp : (l.any (fun x => x.id == s.id)) = true
      · rw [if_pos hp]
        exact lookupA_setA_self _ _ _
      · rw [if_neg hp, hl, hflt hp]
  · have hin' : (w.systems.any (fun x => x.id == s.id)) = false := by simpa using hin
    rw [if_pos (show (!(w.systems.any (fun x => x.id == s.id))) = true by simp [hin'])]
    by_cases hp : (l.any (fun x => x.id == s.id)) = true
    · rw [if_pos hp, hin', Bool.false_and, if_neg (by simp)]
      exact lookupA_setA_self _ _ _
    · rw [if_neg hp, hl, hin', Bool.false_and, if_neg (by simp), hflt hp]

theorem ies_entry_other {w : World} (t : ℚ) (e : Entity) (s : System) {l : List System}
    (hl : lookupA w.entitySystems e.id = some l) (k : Nat) (hk : k ≠ e.id) :
    lookupA (w.indexEntitySystem t e s).1.entitySystems k =
      lookupA w.entitySystems k := by
  rw [World.indexEntitySystem, hl]
  simp only [Option.getD_some]
  split_ifs <;>
    first
      | rfl
      | exact lookupA_setA_other _ _ _ _ hk

theorem ies_events {w : World} (t : ℚ) (e : Entity) (s : System) {l : List System}
    (hl : lookupA w.entitySystems e.id = some l) :
    (w.indexEntitySystem t e s).2 =
      stepEvents (w.systems.any (fun x => x.id == s.id))
        (l.any (fun x => x.id == s.id)) e s := by
  rw [World.indexEntitySystem, stepEvents, hl]
  simp only [Option.getD_some]
  by_cases hin : w.systems.any (fun x => x.id == s.id)
  · rw [if_neg (by simp [hin]), if_pos hin]
    by_cases hm : sysMatches s e = true
    · rw [if_pos hm, if_pos hm]
      by_cases hp : l.any (fun x => x.id == s.id)
      · rw [if_pos hp, if_pos hp]
      · rw [if_neg hp, if_neg hp]
    · rw [if_neg hm, if_neg hm]
      by_cases hp : l.any (fun x => x.id == s.id)
      · rw [if_pos hp, if_pos hp]
      · rw [if_neg hp, if_neg hp]
  · rw [if_pos (by simpa using hin), if_neg hin]
    by_cases hp : l.any (fun x => x.id == s.id)
    · rw [if_pos hp]
    · rw [if_neg hp]

/-! ## `stepEntry` lemmas -/

theorem stepEntry_nodup {l : List System} {e : Entity} {s : System} {inSys : Bool}
    (hn : (l.map (fun x => x.id)).Nodup) :
    ((stepEntry inSys l e s).map (fun x => x.id)).Nodup := by
  rw [stepEntry]
  split_ifs with h1 h2
  · exact hn
  · have hs : s.id ∉ l.map (fun x => x.id) := by
      intro hmem
      rcases List.mem_map.mp hmem with ⟨y, hy, hyid⟩
      exact h2 (List.any_eq_true.mpr ⟨y, hy, by simpa using hyid⟩)
    rw [List.map_append]
    refine List.nodup_append.mpr ⟨hn, by simp, ?_⟩
    intro a ha hb
    have : a = s.id := by simpa using hb
    exact hs (this ▸ ha)
  · exact List.Nodup.sublist (List.Sublist.map _ (List.filter_sublist l)) hn

theorem stepEntry_subset {l S : List System} {e : Entity} {s : System} {inSys : Bool}
    (hsub : ∀ x ∈ l, x ∈ S) (hs : s ∈ S) :
    ∀ x ∈ stepEntry inSys l e s, x ∈ S := by
  intro x hx
  rw [stepEntry] at hx
  split_ifs at hx with h1 h2
  · exact hsub x hx
  · rcases List.mem_append.mp hx with hx | hx
    · exact hsub x hx
    · rw [List.mem_singleton.mp hx]
      exact hs
  · exact hsub x (List.mem_of_mem_filter hx)

theorem stepEntry_any_other {l : List System} {e : Entity} {s : System} {inSys : Bool}
    {sid : Nat} (hne : sid ≠ s.id) :
    ((stepEntry inSys l e s).any (fun y => y.id == sid)) =
      (l.any (fun y => y.id == sid)) := by
  rw [stepEntry]
  split_ifs with h1 h2
  · rfl
  · rw [List.any_append]
    have h3 : ([s].any (fun y => y.id == sid)) = false := by
      simp only [List.any_cons, List.any_nil, Bool.or_false]
      simpa using (Ne.symm hne)
    rw [h3, Bool.or_false]
  · rcases Bool.eq_false_or_eq_true (l.any (fun y => y.id == sid)) with hb | hb
    · rw [hb]
      rcases List.any_eq_true.mp hb with ⟨y, hy, hyid⟩
      have hysid : y.id = sid := by simpa using hyid
      exact List.any_eq_true.mpr
        ⟨y, List.mem_filter.mpr ⟨hy, by simpa [hysid] using hne⟩, hyid⟩
    · rw [hb]
      apply Bool.eq_false_iff.mpr
      intro hb2
      rcases List.any_eq_true.mp hb2 with ⟨y, hy, hyid⟩
      have h4 : (l.any (fun y => y.id == sid)) = true :=
        List.any_eq_true.mpr ⟨y, List.mem_of_mem_filter hy, hyid⟩
      rw [hb] at h4
      exact Bool.false_ne_true h4

theorem stepEntry_mem_other {l : List System} {e : Entity} {s : System} {inSys : Bool}
    {x : System} (hx : x.id ≠ s.id) :
    x ∈ stepEntry inSys l e s ↔ x ∈ l := by
  rw [stepEntry]
  split_ifs with h1 h2
  · exact Iff.rfl
  · rw [List.mem_append, List.mem_singleton]
    constructor
    · intro h
      rcases h with h | h
      · exact h
      · exact absurd (congrArg (fun y => y.id) h) hx
    · exact fun h => Or.inl h
  · constructor
    · exact fun h => List.mem_of_mem_filter h
    · intro h
      exact List.mem_filter.mpr ⟨h, by simpa using hx⟩

/-! ## Fold lemmas -/

theorem foldWE_acc {α : Type} (f : World → α → World × List Event) (l : List α) :
    ∀ (w : World) (evs : List Event),
      l.foldl (fun acc a =>
        let r := f acc.1 a
        (r.1, acc.2 ++ r.2)) (w, evs) = ((foldWE f w l).1, evs ++ (foldWE f w l).2) := by
  induction l with
  | nil => intro w evs; simp [foldWE]
  | cons a l ih =>
    intro w evs
    rw [foldWE, List.foldl_cons, List.foldl_cons]
    rw [ih (f w a).1 (evs ++ (f w a).2), ih (f w a).1 ([] ++ (f w a).2)]
    simp

theorem foldWE_cons {α : Type} (f : World → α → World × List Event) (w : World)
    (a : α) (l : List α) :
    foldWE f w (a :: l) =
      ((foldWE f (f w a).1 l).1, (f w a).2 ++ (foldWE f (f w a).1 l).2) := by
  rw [foldWE, List.foldl_cons]
  rw [foldWE_acc f l (f w a).1 ([] ++ (f w a).2)]
  simp

theorem flatMapCongr {α β : Type} {l : List α} {f g : α → List β}
    (h : ∀ a ∈ l, f a = g a) : l.flatMap f = l.flatMap g := by
  induction l with
  | nil => rfl
  | cons a l ih =>
    rw [List.flatMap_cons, List.flatMap_cons, h a (List.mem_cons_self a l),
      ih (fun b hb => h b (List.mem_cons_of_mem a hb))]

theorem indexFoldWE_spec (t : ℚ) (e : Entity) :
    ∀ (ss : List System) (w : World) (l0 : List System),
      (ss.map (fun s => s.id)).Nodup →
      (∀ s ∈ ss, s ∈ w.systems) →
      (w.systems.map (fun s => s.id)).Nodup →
      (l0.map (fun s => s.id)).Nodup →
      (∀ x ∈ l0, x ∈ w.systems) →
      lookupA w.entitySystems e.id = some l0 →
      ∃ lf,
        (indexFoldWE t e w ss).1.systems = w.systems ∧
        (indexFoldWE t e w ss).1.entities = w.entities ∧
        (indexFoldWE t e w ss).1.queryCache = w.queryCache ∧
        (indexFoldWE t e w ss).1.state = w.state ∧
        (indexFoldWE t e w ss).1.timeScale = w.timeScale ∧
        (indexFoldWE t e w ss).1.gameTime = w.gameTime ∧
        (indexFoldWE t e w ss).1.lastUpdateTime = w.lastUpdateTime ∧
        (∀ k, k ≠ e.id →
          lookupA (indexFoldWE t e w ss).1.entitySystems k = lookupA w.entitySystems k) ∧
        lookupA (indexFoldWE t e w ss).1.entitySystems e.id = some lf ∧
        (lf.map (fun s => s.id)).Nodup ∧
        (∀ x ∈ lf, x ∈ w.systems) ∧
        (∀ x : System, x.id ∈ ss.map (fun s => s.id) →
          (x ∈ lf ↔ (x ∈ ss ∧ sysMatches x e = true))) ∧
        (∀ x : System, x.id ∉ ss.map (fun s => s.id) → (x ∈ lf ↔ x ∈ l0)) ∧
        (indexFoldWE t e w ss).2 =
          ss.flatMap (fun s => stepEvents true (l0.any (fun y => y.id == s.id)) e s) := by
  intro ss
  induction ss with
  | nil =>
    intro w l0 _ _ _ hn0 hsub0 hl
    exact ⟨l0, rfl, rfl, rfl, rfl, rfl, rfl, rfl, fun k _ => rfl, hl, hn0, hsub0,
      fun x hx => absurd hx (by simp), fun x _ => Iff.rfl, rfl⟩
  | cons s ss ih =>
    intro w l0 hn hss hsys hn0 hsub0 hl
    obtain ⟨hsid_not, hn_rest⟩ := List.nodup_cons.mp (by rw [List.map_cons] at hn; exact hn)
    have hsmem : s ∈ w.systems := hss s (List.mem_cons_self s ss)
    have hin : (w.systems.any (fun x => x.id == s.id)) = true :=
      List.any_eq_true.mpr ⟨s, hsmem, by simp⟩
    have hfr := ies_frame w t e s
    have hentry := ies_entry t e s hl
    rw [hin] at hentry
    have hevs := ies_events t e s hl
    rw [hin] at hevs
    have huniq : ∀ x ∈ w.systems, x.id = s.id → x = s := fun x hx hxe =>
      List.inj_on_of_nodup_map hsys hx hsmem hxe
    have hss' : ∀ s1 ∈ ss, s1 ∈ (w.indexEntitySystem t e s).1.systems := by
      rw [hfr.1]
      exact fun s1 h => hss s1 (List.mem_cons_of_mem s h)
    have hsys' : ((w.indexEntitySystem t e s).1.systems.map (fun x => x.id)).Nodup := by
      rw [hfr.1]
      exact hsys
    have hsub1 : ∀ x ∈ stepEntry true l0 e s, x ∈ (w.indexEntitySystem t e s).1.systems := by
      rw [hfr.1]
      exact stepEntry_subset hsub0 hsmem
    obtain ⟨lf, c1, c2, c3, c4, c5, c6, c7, c8, c9, c10, c11, c12, c13, c14⟩ :=
      ih (w.indexEntitySystem t e s).1 (stepEntry true l0 e s) hn_rest hss' hsys'
        (stepEntry_nodup hn0) hsub1 hentry
    have hfold : indexFoldWE t e w (s :: ss) =
        ((indexFoldWE t e (w.indexEntitySystem t e s).1 ss).1,
          (w.indexEntitySystem t e s).2 ++
            (indexFoldWE t e (w.indexEntitySystem t e s).1 ss).2) := by
      rw [indexFoldWE, foldWE_cons]
      rfl
    refine ⟨lf, ?_, ?_, ?_, ?_, ?_, ?_, ?_, ?_, ?_, c10, ?_, ?_, ?_, ?_⟩
    · rw [hfold]; exact c1.trans hfr.1
    · rw [hfold]; exact c2.trans hfr.2.1
    · rw [hfold]; exact c3.trans hfr.2.2.1
    · rw [hfold]; exact c4.trans hfr.2.2.2.1
    · rw [hfold]; exact c5.trans hfr.2.2.2.2.1
    · rw [hfold]; exact c6.trans hfr.2.2.2.2.2.1
    · rw [hfold]; exact c7.trans hfr.2.2.2.2.2.2
    · intro k hk
      rw [hfold]
      exact (c8 k hk).trans (ies_entry_other t e s hl k hk)
    · rw [hfold]; exact c9
    · intro x hx
      rw [← hfr.1]
      exact c11 x hx
    · -- membership for ids occurring in s :: ss
      intro x hx
      rw [List.map_cons, List.mem_cons] at hx
      by_cases hxs : x.id = s.id
      · have hx_rest : x.id ∉ ss.map (fun s1 => s1.id) := by
          rw [hxs]; exact hsid_not
        rw [c13 x hx_rest]
        constructor
        · intro hx1
          rw [stepEntry, Bool.true_and] at hx1
          by_cases hm : sysMatches s e = true
          · rw [if_pos hm] at hx1
            by_cases hp : (l0.any (fun y => y.id == s.id)) = true
            · rw [if_pos hp] at hx1
              have hxspec : x = s := huniq x (hsub0 x hx1) hxs
              exact ⟨by rw [hxspec]; exact List.mem_cons_self s ss,
                by rw [hxspec]; exact hm⟩
            · rw [if_neg hp] at hx1
              rcases List.mem_append.mp hx1 with hx2 | hx2
              · exact absurd (List.any_eq_true.mpr ⟨x, hx2, by simpa using hxs⟩) hp
              · have hxspec : x = s := List.mem_singleton.mp hx2
                exact ⟨by rw [hxspec]; exact List.mem_cons_self s ss,
                  by rw [hxspec]; exact hm⟩
          · rw [if_neg hm] at hx1
            have := (List.mem_filter.mp hx1).2
            exact absurd hxs (by simpa using this)
        · rintro ⟨hmem, hmatch⟩
          have hxspec : x = s := by
            rcases List.mem_cons.mp hmem with h | h
            · exact h
            · have hxin : x.id ∈ List.map (fun s1 => s1.id) ss :=
                List.mem_map.mpr ⟨x, h, rfl⟩
              exact absurd hxin hx_rest
          rw [hxspec] at hmatch ⊢
          rw [stepEntry, Bool.true_and, if_pos hmatch]
          by_cases hp : (l0.any (fun y => y.id == s.id)) = true
          · rw [if_pos hp]
            rcases List.any_eq_true.mp hp with ⟨y, hy, hyid⟩
            have : y = s := huniq y (hsub0 y hy) (by simpa using hyid)
            rw [← this]
            exact hy
          · rw [if_neg hp]
            exact List.mem_append.mpr (Or.inr (List.mem_singleton.mpr rfl))
      · have hx_rest : x.id ∈ ss.map (fun s1 => s1.id) := by
          rcases hx with h | h
          · exact absurd h hxs
          · exact h
        rw [c12 x hx_rest]
        constructor
        · rintro ⟨h1, h2⟩
          exact ⟨List.mem_cons_of_mem s h1, h2⟩
        · rintro ⟨h1, h2⟩
          rcases List.mem_cons.mp h1 with h | h
          · exact absurd (congrArg (fun y => y.id) h) hxs
          · exact ⟨h, h2⟩
    · -- membership for ids not occurring in s :: ss
      intro x hx
      rw [List.map_cons, List.mem_cons] at hx
      push_neg at hx
      rw [c13 x hx.2]
      exact stepEntry_mem_other hx.1
    · -- events
      rw [hfold]
      simp only [hevs, c14, List.flatMap_cons]
      congr 1
      apply flatMapCongr
      intro s1 hs1
      have hne : s1.id ≠ s.id := by
        intro hEq
        exact hsid_not (hEq ▸ List.mem_map.mpr ⟨s1, hs1, rfl⟩)
      rw [stepEntry_any_other hne]

/-- An event-accumulating `foldl` over a list is a `flatMap`. -/
theorem foldl_append_flatMap {α : Type} (f : α → List Event) (l : List α) :
    ∀ acc : List Event,
      l.foldl (fun acc a => acc ++ f a) acc = acc ++ l.flatMap f := by
  induction l with
  | nil => intro acc; simp
  | cons a l ih =>
    intro acc
    rw [List.foldl_cons, ih (acc ++ f a), List.flatMap_cons, List.append_assoc]

/-- Characterization of the per-entity indexing fold used by `addSystem` and
`removeSystem`: each entity's entry is transformed by `stepEntry` for the
one system, and the events are `stepEvents` per entity. -/
theorem entityFoldWE_spec (t : ℚ) (s : System) :
    ∀ (es : List Entity) (w : World),
      (es.map (fun e => e.id)).Nodup →
      (foldWE (fun w1 e => w1.indexEntityOne t e s) w es).1.systems = w.systems ∧
      (foldWE (fun w1 e => w1.indexEntityOne t e s) w es).1.entities = w.entities ∧
      (foldWE (fun w1 e => w1.indexEntityOne t e s) w es).1.queryCache = w.queryCache ∧
      (foldWE (fun w1 e => w1.indexEntityOne t e s) w es).1.state = w.state ∧
      (foldWE (fun w1 e => w1.indexEntityOne t e s) w es).1.timeScale = w.timeScale ∧
      (foldWE (fun w1 e => w1.indexEntityOne t e s) w es).1.gameTime = w.gameTime ∧
      (foldWE (fun w1 e => w1.indexEntityOne t e s) w es).1.lastUpdateTime =
        w.lastUpdateTime ∧
      (∀ k, k ∉ es.map (fun e => e.id) →
        lookupA (foldWE (fun w1 e => w1.indexEntityOne t e s) w es).1.entitySystems k =
          lookupA w.entitySystems k) ∧
      (∀ e ∈ es,
        lookupA (foldWE (fun w1 e => w1.indexEntityOne t e s) w es).1.entitySystems e.id =
          some (stepEntry (w.systems.any (fun x => x.id == s.id))
            ((lookupA w.entitySystems e.id).getD []) e s)) ∧
      (foldWE (fun w1 e => w1.indexEntityOne t e s) w es).2 =
        es.flatMap (fun e => stepEvents (w.systems.any (fun x => x.id == s.id))
          (((lookupA w.entitySystems e.id).getD []).any (fun x => x.id == s.id)) e s) := by
  intro es
  induction es with
  | nil =>
    intro w _
    exact ⟨rfl, rfl, rfl, rfl, rfl, rfl, rfl, fun k _ => rfl, fun e he => absurd he
      (by simp), rfl⟩
  | cons e es ih =>
    intro w hn
    obtain ⟨heid_not, hn_rest⟩ := List.nodup_cons.mp (by rw [List.map_cons] at hn; exact hn)
    -- the head step: `indexEntityOne` ensures the entry then indexes
    have hone : ∃ l0, ((lookupA w.entitySystems e.id).getD [] = l0) ∧
        w.indexEntityOne t e s =
          ((if (lookupA w.entitySystems e.id).isSome then w
            else { w with entitySystems := setA w.entitySystems e.id [] }).indexEntitySystem
            t e s) := ⟨(lookupA w.entitySystems e.id).getD [], rfl, rfl⟩
    obtain ⟨l0, hl0, hone⟩ := hone
    -- the world with the entry ensured
    have hw1 : ∃ w1, (if (lookupA w.entitySystems e.id).isSome then w
          else { w with entitySystems := setA w.entitySystems e.id [] }) = w1 ∧
        w1.systems = w.systems ∧ w1.entities = w.entities ∧
        w1.queryCache = w.queryCache ∧ w1.state = w.state ∧
        w1.timeScale = w.timeScale ∧ w1.gameTime = w.gameTime ∧
        w1.lastUpdateTime = w.lastUpdateTime ∧
        lookupA w1.entitySystems e.id = some l0 ∧
        (∀ k, k ≠ e.id → lookupA w1.entitySystems k = lookupA w.entitySystems k) := by
      by_cases hs : (lookupA w.entitySystems e.id).isSome = true
      · refine ⟨w, by rw [if_pos hs], rfl, rfl, rfl, rfl, rfl, rfl, rfl, ?_, fun k _ => rfl⟩
        rcases Option.isSome_iff_exists.mp hs with ⟨l, hl⟩
        rw [hl] at hl0 ⊢
        rw [← hl0]
        rfl
      · refine ⟨{ w with entitySystems := setA w.entitySystems e.id [] },
          by rw [if_neg hs], rfl, rfl, rfl, rfl, rfl, rfl, rfl, ?_, ?_⟩
        · have : lookupA w.entitySystems e.id = none := by
            rcases Option.eq_none_or_eq_some (lookupA w.entitySystems e.id) with h | h
            · exact h
            · rcases h with ⟨x, hx⟩
              exact absurd (by rw [hx]; rfl) hs
          rw [this] at hl0
          rw [lookupA_setA_self, ← hl0]
          rfl
        · intro k hk
          exact lookupA_setA_other _ _ _ _ hk
    obtain ⟨w1, hw1eq, f1, f2, f3, f4, f5, f6, f7, hw1l, hw1other⟩ := hw1
    rw [hw1eq] at hone
    have hentry := ies_entry t e s hw1l
    have hevs := ies_events t e s hw1l
    rw [f1] at hentry hevs
    have hfr := ies_frame w1 t e s
    have hfold : foldWE (fun w2 e1 => w2.indexEntityOne t e1 s) w (e :: es) =
        ((foldWE (fun w2 e1 => w2.indexEntityOne t e1 s)
            (w.indexEntityOne t e s).1 es).1,
          (w.indexEntityOne t e s).2 ++
            (foldWE (fun w2 e1 => w2.indexEntityOne t e1 s)
              (w.indexEntityOne t e s).1 es).2) := by
      rw [foldWE_cons]
    obtain ⟨g1, g2, g3, g4, g5, g6, g7, g8, g9, g10⟩ :=
      ih (w.indexEntityOne t e s).1 hn_rest
    have hsys1 : (w.indexEntityOne t e s).1.systems = w.systems := by
      rw [hone]
      exact hfr.1.trans f1
    refine ⟨?_, ?_, ?_, ?_, ?_, ?_, ?_, ?_, ?_, ?_⟩
    · rw [hfold]; exact g1.trans hsys1
    · rw [hfold, g2, hone, hfr.2.1, f2]
    · rw [hfold, g3, hone, hfr.2.2.1, f3]
    · rw [hfold, g4, hone, hfr.2.2.2.1, f4]
    · rw [hfold, g5, hone, hfr.2.2.2.2.1, f5]
    · rw [hfold, g6, hone, hfr.2.2.2.2.2.1, f6]
    · rw [hfold, g7, hone, hfr.2.2.2.2.2.2, f7]
    · intro k hk
      rw [List.map_cons] at hk
      have hk1 : k ≠ e.id := fun hEq => hk (by rw [hEq]; exact List.mem_cons_self _ _)
      have hk2 : k ∉ es.map (fun e1 => e1.id) := fun hEq => hk (List.mem_cons_of_mem _ hEq)
      rw [hfold]
      rw [g8 k hk2, hone, ies_entry_other t e s hw1l k hk1]
      exact hw1other k hk1
    · intro e1 he1
      rcases List.mem_cons.mp he1 with rfl | he1
      · have he1_not : e1.id ∉ es.map (fun e2 => e2.id) := heid_not
        rw [hfold, g8 e1.id he1_not, hone, hentry, hl0]
      · have hne : e1.id ≠ e.id := by
          intro hEq
          exact heid_not (hEq ▸ List.mem_map.mpr ⟨e1, he1, rfl⟩)
        rw [hfold]
        rw [g9 e1 he1, hone]
        rw [ies_entry_other t e s hw1l e1.id hne, hw1other e1.id hne, hfr.1, f1]
    · rw [hone] at g10
      rw [hfold]
      simp only [hone, g10, hevs, List.flatMap_cons, hl0]
      congr 1
      apply flatMapCongr
      intro e1 he1
      have hne : e1.id ≠ e.id := by
        intro hEq
        exact heid_not (hEq ▸ List.mem_map.mpr ⟨e1, he1, rfl⟩)
      rw [hfr.1, f1, ies_entry_other t e s hw1l e1.id hne, hw1other e1.id hne]

/-- `addEntity` on a fresh entity: the entity is appended, its index entry
becomes exactly the matching systems, other entries are untouched, and the
events are `onAdded` followed by one indexing pass over all systems with no
pair previously present. -/
theorem addEntity_spec {w : World} (t : ℚ) (e : Entity) (hw : WorldInv w)
    (he : e.id ∉ w.entities.map (fun x => x.id)) :
    ∃ lf,
      (w.addEntity t e).1.systems = w.systems ∧
      (w.addEntity t e).1.entities = w.entities ++ [e] ∧
      (w.addEntity t e).1.queryCache = w.queryCache ∧
      (w.addEntity t e).1.state = w.state ∧
      (w.addEntity t e).1.timeScale = w.timeScale ∧
      (w.addEntity t e).1.gameTime = w.gameTime ∧
      (w.addEntity t e).1.lastUpdateTime = w.lastUpdateTime ∧
      (∀ k, k ≠ e.id →
        lookupA (w.addEntity t e).1.entitySystems k = lookupA w.entitySystems k) ∧
      lookupA (w.addEntity t e).1.entitySystems e.id = some lf ∧
      (lf.map (fun s => s.id)).Nodup ∧
      (∀ x : System, x ∈ lf ↔ (x ∈ w.systems ∧ sysMatches x e = true)) ∧
      (w.addEntity t e).2 = (if e.hasOnAdded then [Event.entityAdded e.id] else []) ++
        w.systems.flatMap (fun s => stepEvents true false e s) := by
  obtain ⟨hne, hns, hkeys, _⟩ := hw
  have hguard : (w.entities.any (fun e0 => e0.id == e.id)) = false := by
    apply Bool.eq_false_iff.mpr
    intro hb
    rcases List.any_eq_true.mp hb with ⟨e0, he0, hid⟩
    have hid2 : e0.id = e.id := by simpa using hid
    exact he (hid2 ▸ List.mem_map.mpr ⟨e0, he0, rfl⟩)
  have hnone : lookupA w.entitySystems e.id = none := by
    rcases Option.eq_none_or_eq_some (lookupA w.entitySystems e.id) with h | h
    · exact h
    · rcases h with ⟨x, hx⟩
      exact absurd (hkeys e.id (by rw [hx]; rfl)) he
  have heq : w.addEntity t e =
      ((indexFoldWE t e
          { w with
            entities := w.entities ++ [e],
            lastUpdate := setA w.lastUpdate e.id [],
            lastUpdateGame := setA w.lastUpdateGame e.id [],
            entitySystems := setA w.entitySystems e.id [] } w.systems).1,
        (if e.hasOnAdded then [Event.entityAdded e.id] else []) ++
          (indexFoldWE t e
            { w with
              entities := w.entities ++ [e],
              lastUpdate := setA w.lastUpdate e.id [],
              lastUpdateGame := setA w.lastUpdateGame e.id [],
              entitySystems := setA w.entitySystems e.id [] } w.systems).2) := by
    rw [World.addEntity, if_neg (by simp [hguard])]
    simp only [World.indexEntityAll, hnone, Option.isSome_none, Bool.false_eq_true,
      if_false, indexFoldWE]
  obtain ⟨lf, c1, c2, c3, c4, c5, c6, c7, c8, c9, c10, c11, c12, c13, c14⟩ :=
    indexFoldWE_spec t e w.systems
      { w with
        entities := w.entities ++ [e],
        lastUpdate := setA w.lastUpdate e.id [],
        lastUpdateGame := setA w.lastUpdateGame e.id [],
        entitySystems := setA w.entitySystems e.id [] } [] hns
      (fun s hs => hs) hns (by simp) (fun x hx => absurd hx (List.not_mem_nil x))
      (lookupA_setA_self _ _ _)
  refine ⟨lf, ?_, ?_, ?_, ?_, ?_, ?_, ?_, ?_, ?_, c10, ?_, ?_⟩
  · rw [heq]; exact c1
  · rw [heq]; exact c2
  · rw [heq]; exact c3
  · rw [heq]; exact c4
  · rw [heq]; exact c5
  · rw [heq]; exact c6
  · rw [heq]; exact c7
  · intro k hk
    rw [heq]
    exact (c8 k hk).trans (lookupA_setA_other _ _ _ _ hk)
  · rw [heq]; exact c9
  · intro x
    by_cases hx : x.id ∈ w.systems.map (fun s => s.id)
    · exact c12 x hx
    · rw [c13 x hx]
      constructor
      · intro hfalse
        exact absurd hfalse (List.not_mem_nil x)
      · rintro ⟨h1, _⟩
        exact absurd (List.mem_map.mpr ⟨x, h1, rfl⟩) hx
  · rw [heq]
    simp only [c14, List.any_nil]

/-- An event-accumulating guarded `foldl` is a `flatMap`. -/
theorem foldl_eventAcc_flatMap {α : Type} (F : α → List Event)
    (f : List Event → α → List Event) :
    ∀ (l : List α), (∀ acc, ∀ a ∈ l, f acc a = acc ++ F a) →
      ∀ init, l.foldl f init = init ++ l.flatMap F := by
  intro l
  induction l with
  | nil => intro _ init; simp
  | cons a l ih =>
    intro hf init
    rw [List.foldl_cons, hf init a (List.mem_cons_self a l),
      ih (fun acc b hb => hf acc b (List.mem_cons_of_mem a hb)) (init ++ F a),
      List.flatMap_cons, List.append_assoc]

/-- After indexing a pair whose system id was not indexed before, the pair is
present iff the entity matches the system. -/
theorem stepEntry_any_self {l : List System} {e : Entity} {s : System}
    (hp : (l.any (fun x => x.id == s.id)) = false) :
    ((stepEntry true l e s).any (fun x => x.id == s.id)) = sysMatches s e := by
  rw [stepEntry, Bool.true_and]
  by_cases hm : sysMatches s e = true
  · rw [if_pos hm, if_neg (by simp [hp]), List.any_append, hp, hm]
    simp
  · rw [if_neg hm]
    rw [show sysMatches s e = false from Bool.eq_false_iff.mpr hm]
    apply Bool.eq_false_iff.mpr
    intro hb
    rcases List.any_eq_true.mp hb with ⟨y, hy, hyid⟩
    have := (List.mem_filter.mp hy).2
    rw [hyid] at this
    exact absurd this (by simp)

/-- `addSystem` on a fresh system: the injected copy is appended, each
existing entity's entry is re-indexed for it alone, and the events are one
indexing pass (`enter` per matching entity), then the explicit enter pass
(`enter` again per *active* matching entity), then `onAdded`. -/
theorem addSystem_spec {w : World} (t : ℚ) (s0 : System) (hw : WorldInv w)
    (hs : s0.id ∉ w.systems.map (fun x => x.id)) :
    (w.addSystem t s0).1.systems = w.systems ++ [{ s0 with injected := true }] ∧
    (w.addSystem t s0).1.entities = w.entities ∧
    (w.addSystem t s0).1.queryCache = w.queryCache ∧
    (w.addSystem t s0).1.state = w.state ∧
    (w.addSystem t s0).1.timeScale = w.timeScale ∧
    (w.addSystem t s0).1.gameTime = w.gameTime ∧
    (w.addSystem t s0).1.lastUpdateTime = w.lastUpdateTime ∧
    (∀ k, k ∉ w.entities.map (fun e => e.id) →
      lookupA (w.addSystem t s0).1.entitySystems k = lookupA w.entitySystems k) ∧
    (∀ e ∈ w.entities, ∀ l, lookupA w.entitySystems e.id = some l →
      lookupA (w.addSystem t s0).1.entitySystems e.id =
        some (stepEntry true l e { s0 with injected := true })) ∧
    (w.addSystem t s0).2 =
      w.entities.flatMap (fun e => stepEvents true false e { s0 with injected := true }) ++
        w.entities.flatMap (fun e =>
          if e.active && sysMatches { s0 with injected := true } e && s0.hasEnter
          then [Event.enter s0.id e.id] else []) ++
        (if s0.hasOnAdded then [Event.systemAdded s0.id] else []) := by
  obtain ⟨hne, hns, hkeys, hidx⟩ := hw
  have hguard : (w.systems.any (fun s1 => s1.id == s0.id)) = false := by
    apply Bool.eq_false_iff.mpr
    intro hb
    rcases List.any_eq_true.mp hb with ⟨s1, hs1, hid⟩
    have hid2 : s1.id = s0.id := by simpa using hid
    exact hs (hid2 ▸ List.mem_map.mpr ⟨s1, hs1, rfl⟩)
  have heq : w.addSystem t s0 =
      ((foldWE (fun w1 e => w1.indexEntityOne t e { s0 with injected := true })
          { w with systems := w.systems ++ [{ s0 with injected := true }] }
          w.entities).1,
        (foldWE (fun w1 e => w1.indexEntityOne t e { s0 with injected := true })
          { w with systems := w.systems ++ [{ s0 with injected := true }] }
          w.entities).2 ++
          ((foldWE (fun w1 e => w1.indexEntityOne t e { s0 with injected := true })
            { w with systems := w.systems ++ [{ s0 with injected := true }] }
            w.entities).1.entities.foldl (fun acc e =>
              if e.active then
                match lookupA (foldWE
                    (fun w1 e => w1.indexEntityOne t e { s0 with injected := true })
                    { w with systems := w.systems ++ [{ s0 with injected := true }] }
                    w.entities).1.entitySystems e.id with
                | some l =>
                  if l.any (fun s1 => s1.id == ({ s0 with injected := true } : System).id) &&
                      ({ s0 with injected := true } : System).hasEnter then
                    acc ++ [Event.enter ({ s0 with injected := true } : System).id e.id]
                  else acc
                | none => acc
              else acc) []) ++
          (if ({ s0 with injected := true } : System).hasOnAdded then
            [Event.systemAdded ({ s0 with injected := true } : System).id] else [])) := by
    rw [World.addSystem, if_neg (by simp [hguard])]
  rw [heq]
  have hin : (({ w with systems := w.systems ++ [{ s0 with injected := true }] } :
      World).systems.any (fun x => x.id == ({ s0 with injected := true } : System).id))
      = true :=
    List.any_eq_true.mpr ⟨{ s0 with injected := true }, by simp, by simp⟩
  obtain ⟨g1, g2, g3, g4, g5, g6, g7, g8, g9, g10⟩ :=
    entityFoldWE_spec t { s0 with injected := true } w.entities
      { w with systems := w.systems ++ [{ s0 with injected := true }] } hne
  rw [hin] at g9 g10
  have hpres : ∀ e ∈ w.entities,
      ((lookupA w.entitySystems e.id).getD []).any
        (fun x => x.id == ({ s0 with injected := true } : System).id) = false := by
    intro e he
    obtain ⟨l, hl, _, hiff⟩ := hidx e he
    rw [hl]
    apply Bool.eq_false_iff.mpr
    intro hb
    rcases List.any_eq_true.mp hb with ⟨y, hy, hyid⟩
    have hymem : y ∈ w.systems := ((hiff y).mp hy).1
    exact hs ((by simpa using hyid : y.id = s0.id) ▸ List.mem_map.mpr ⟨y, hymem, rfl⟩)
  refine ⟨g1, g2, g3, g4, g5, g6, g7, ?_, ?_, ?_⟩
  · exact g8
  · intro e he l hl
    rw [g9 e he, hl]
    rfl
  · -- events
    have hfoldEvs : (foldWE (fun w1 e => w1.indexEntityOne t e
        { s0 with injected := true })
        { w with systems := w.systems ++ [{ s0 with injected := true }] }
        w.entities).2 =
        w.entities.flatMap (fun e => stepEvents true false e
          { s0 with injected := true }) := by
      rw [g10]
      apply flatMapCongr
      intro e he
      rw [hpres e he]
    have henterEvs : (foldWE (fun w1 e => w1.indexEntityOne t e
        { s0 with injected := true })
        { w with systems := w.systems ++ [{ s0 with injected := true }] }
        w.entities).1.entities.foldl (fun acc e =>
          if e.active then
            match lookupA (foldWE
                (fun w1 e => w1.indexEntityOne t e { s0 with injected := true })
                { w with systems := w.systems ++ [{ s0 with injected := true }] }
                w.entities).1.entitySystems e.id with
            | some l =>
              if l.any (fun s1 => s1.id == ({ s0 with injected := true } : System).id) &&
                  ({ s0 with injected := true } : System).hasEnter then
                acc ++ [Event.enter ({ s0 with injected := true } : System).id e.id]
              else acc
            | none => acc
          else acc) [] =
        w.entities.flatMap (fun e =>
          if e.active && sysMatches { s0 with injected := true } e && s0.hasEnter
          then [Event.enter s0.id e.id] else []) := by
      rw [g2]
      rw [foldl_eventAcc_flatMap (fun e =>
          if e.active && sysMatches { s0 with injected := true } e && s0.hasEnter
          then [Event.enter s0.id e.id] else []) _ w.entities ?_ []]
      · rw [List.nil_append]
      · intro acc e he
        obtain ⟨l, hl, _, hiff⟩ := hidx e he
        rw [g9 e he, hl]
        simp only [Option.getD_some]
        have hp0 : (l.any (fun x =>
            x.id == ({ s0 with injected := true } : System).id)) = false := by
          have := hpres e he
          rw [hl] at this
          exact this
        by_cases ha : e.active = true
        · rw [if_pos ha, stepEntry_any_self hp0, ha]
          simp only [Bool.true_and]
          split
          · rename_i h
            simp [h]
          · rename_i h
            simp [h]
        · rw [if_neg ha, show e.active = false from Bool.eq_false_iff.mpr ha]
          simp
    rw [hfoldEvs, henterEvs]

/-- With duplicate-free keys, removing the element found by key equals
filtering that key out. -/
theorem findIdx_erase {α β : Type} [DecidableEq β] (key : α → β) :
    ∀ {l : List α} {a : α}, ((l.map key).Nodup) → a ∈ l →
      ∃ i, l.findIdx? (fun x => key x == key a) = some i ∧
        l.eraseIdx i = l.filter (fun x => !(key x == key a)) := by
  intro l
  induction l with
  | nil => intro a _ ha; cases ha
  | cons b l ih =>
    intro a hn ha
    obtain ⟨hb_not, hn_rest⟩ := List.nodup_cons.mp (by rw [List.map_cons] at hn; exact hn)
    by_cases hba : key b = key a
    · refine ⟨0, ?_, ?_⟩
      · rw [List.findIdx?_cons, if_pos (by simpa using hba)]
      · rw [List.eraseIdx_cons_zero, List.filter_cons,
          if_neg (by simpa using hba)]
        symm
        apply List.filter_eq_self.mpr
        intro x hx
        have : ¬(key x = key a) := by
          intro hEq
          exact hb_not (by rw [hba, ← hEq]; exact List.mem_map.mpr ⟨x, hx, rfl⟩)
        simpa using this
    · have ha2 : a ∈ l := by
        rcases List.mem_cons.mp ha with rfl | h
        · exact absurd rfl hba
        · exact h
      obtain ⟨i, hfind, herase⟩ := ih hn_rest ha2
      refine ⟨i + 1, ?_, ?_⟩
      · rw [List.findIdx?_cons, if_neg (by simpa using hba), List.findIdx?_succ, hfind]
        rfl
      · rw [List.eraseIdx_cons_succ, herase, List.filter_cons,
          if_pos (by simpa using hba)]

/-- When the sought key is absent, `findIdx?` finds nothing. -/
theorem findIdx_none {α β : Type} [DecidableEq β] (key : α → β) :
    ∀ {l : List α} {b : β}, b ∉ l.map key →
      l.findIdx? (fun x => key x == b) = none := by
  intro l
  induction l with
  | nil => intro b _; rfl
  | cons a l ih =>
    intro b hb
    rw [List.map_cons] at hb
    have h1 : ¬(key a = b) := fun hEq => hb (hEq ▸ List.mem_cons_self _ _)
    rw [List.findIdx?_cons, if_neg (by simpa using h1), List.findIdx?_succ,
      ih (fun h => hb (List.mem_cons_of_mem _ h))]
    rfl

/-- The cache sweep of `removeEntity` succeeds iff the entity holds every
cached component type. -/
theorem cacheSweep_isSome_iff (e : Entity) :
    ∀ qc : List (CompType × List Nat),
      ((cacheSweep e qc).isSome = true) ↔ (∀ p ∈ qc, e.hasType p.1 = true) := by
  intro qc
  induction qc with
  | nil => simp [cacheSweep]
  | cons p rest ih =>
    rw [cacheSweep]
    by_cases hty : e.hasType p.1 = true
    · rw [Entity.getComponents, if_pos hty]
      constructor
      · intro hs q hq
        rcases List.mem_cons.mp hq with rfl | hq
        · exact hty
        · rcases Option.eq_none_or_eq_some (cacheSweep e rest) with h | ⟨r, h⟩
          · rw [h] at hs
            cases hs
          · exact (ih.mp (by rw [h]; rfl)) q hq
      · intro hall
        have := ih.mpr (fun q hq => hall q (List.mem_cons_of_mem p hq))
        rcases Option.isSome_iff_exists.mp this with ⟨r, hr⟩
        rw [hr]
        rfl
    · rw [Entity.getComponents, if_neg hty]
      constructor
      · intro hs
        cases hs
      · intro hall
        exact absurd (hall p (List.mem_cons_self p rest)) hty

/-- A successful cache sweep collects exactly the cached keys. -/
theorem cacheSweep_keys (e : Entity) :
    ∀ {qc : List (CompType × List Nat)} {rc : List CompType},
      cacheSweep e qc = some rc → rc = qc.map (fun p => p.1) := by
  intro qc
  induction qc with
  | nil =>
    intro rc h
    rw [cacheSweep] at h
    simp only [List.map_nil]
    exact (Option.some_inj.mp h).symm
  | cons p rest ih =>
    intro rc h
    rw [cacheSweep] at h
    by_cases hty : e.hasType p.1 = true
    · rw [Entity.getComponents, if_pos hty] at h
      rcases Option.eq_none_or_eq_some (cacheSweep e rest) with h2 | ⟨r, h2⟩
      · rw [h2] at h
        cases h
      · rw [h2] at h
        have hlen : (e.components.filter (fun c => c.type == p.1)).length > 0 := by
          rcases List.any_eq_true.mp hty with ⟨c, hc, hct⟩
          have : c ∈ e.components.filter (fun c => c.type == p.1) :=
            List.mem_filter.mpr ⟨hc, hct⟩
          exact List.length_pos.mpr (fun hnil => by rw [hnil] at this; cases this)
        have h3 : some (if (e.components.filter (fun c => c.type == p.1)).length > 0
            then p.1 :: r else r) = some rc := h
        rw [if_pos hlen] at h3
        rw [List.map_cons, ← Option.some_inj.mp h3, ih h2]
    · rw [Entity.getComponents, if_neg hty] at h
      cases h

/-- Erasing every key of an association list empties it. -/
theorem foldl_eraseA_all {α : Type} :
    ∀ (ks : List CompType) (qc : List (CompType × α)),
      (∀ p ∈ qc, p.1 ∈ ks) →
      ks.foldl (fun acc k => eraseA acc k) qc = [] := by
  intro ks
  induction ks with
  | nil =>
    intro qc h
    cases qc with
    | nil => rfl
    | cons p rest => exact absurd (h p (List.mem_cons_self p rest)) (by simp)
  | cons k ks ih =>
    intro qc h
    rw [List.foldl_cons]
    apply ih
    intro p hp
    have hp0 : p ∈ qc := List.mem_of_mem_filter hp
    have hpk : ¬(p.1 = k) := by
      have := (List.mem_filter.mp hp).2
      simpa using this
    rcases List.mem_cons.mp (h p hp0) with h1 | h1
    · exact absurd h1 hpk
    · exact h1

/-- `removeEntity` on a present entity with a successful cache sweep: the
whole query cache is dropped (a successful sweep means the entity held every
cached type, so every line is marked), the entity and all its per-entity
state are removed, and the events are `exit` per indexed system (with an
exit hook) followed by `onRemoved`. -/
theorem removeEntityObj_spec {w : World} {e : Entity} (hw : WorldInv w)
    (he : e ∈ w.entities) {l : List System}
    (hl : lookupA w.entitySystems e.id = some l)
    (hsweep : (cacheSweep e w.queryCache).isSome = true) :
    ∃ w2,
      w.removeEntityObj e = some (w2,
        l.flatMap (fun s => if s.hasExit then [Event.exit s.id e.id] else []) ++
          (if e.hasOnRemoved then [Event.entityRemoved e.id] else [])) ∧
      w2.systems = w.systems ∧
      w2.entities = w.entities.filter (fun x => !(x.id == e.id)) ∧
      w2.queryCache = [] ∧
      w2.state = w.state ∧
      w2.timeScale = w.timeScale ∧
      w2.gameTime = w.gameTime ∧
      w2.lastUpdateTime = w.lastUpdateTime ∧
      w2.entitySystems = eraseA w.entitySystems e.id ∧
      w2.lastUpdate = eraseA w.lastUpdate e.id ∧
      w2.lastUpdateGame = eraseA w.lastUpdateGame e.id := by
  obtain ⟨hne, _, _, _⟩ := hw
  rcases Option.isSome_iff_exists.mp hsweep with ⟨rc, hrc⟩
  have hkeys : rc = w.queryCache.map (fun p => p.1) := cacheSweep_keys e hrc
  have hqc : rc.foldl (fun qc ty => eraseA qc ty) w.queryCache = [] := by
    rw [hkeys]
    exact foldl_eraseA_all _ _ (fun p hp => List.mem_map.mpr ⟨p, hp, rfl⟩)
  obtain ⟨i, hfind, herase⟩ := findIdx_erase (fun x : Entity => x.id) hne he
  refine ⟨{ w with
      entities := w.entities.filter (fun x => !(x.id == e.id)),
      queryCache := [],
      entitySystems := eraseA w.entitySystems e.id,
      lastUpdate := eraseA w.lastUpdate e.id,
      lastUpdateGame := eraseA w.lastUpdateGame e.id },
    ?_, rfl, rfl, rfl, rfl, rfl, rfl, rfl, rfl, rfl, rfl⟩
  simp only [World.removeEntityObj, hrc, hqc]
  rw [hfind]
  simp only [herase, hl, Option.getD_some]
  rw [foldl_eventAcc_flatMap (fun s => if s.hasExit then [Event.exit s.id e.id]
    else []) _ l ?_ []]
  · rw [List.nil_append]
  · intro acc s _
    by_cases hx : s.hasExit = true <;> simp [hx]

/-- Filtering an id out makes the id test fail. -/
theorem any_filter_self_false (l : List System) (k : Nat) :
    ((l.filter (fun x => !(x.id == k))).any (fun x => x.id == k)) = false := by
  apply Bool.eq_false_iff.mpr
  intro hb
  rcases List.any_eq_true.mp hb with ⟨y, hy, hyid⟩
  have := (List.mem_filter.mp hy).2
  rw [hyid] at this
  exact absurd this (by simp)

/-- An unregistered system fires no indexing events. -/
theorem stepEvents_false (p : Bool) (e : Entity) (s : System) :
    stepEvents false p e s = [] := by
  rw [stepEvents]
  simp

/-- `removeSystem` on a present system: fires `exit` for each active entity
whose entry holds the system, then `destroy`/`onRemoved` when the system is
injected, removes it from the system list and from every entity's entry,
and the cleanup re-index pass fires nothing. -/
theorem removeSystemObj_spec {w : World} {s : System} (hw : WorldInv w)
    (hs : s ∈ w.systems) :
    (w.removeSystemObj s).1.systems = w.systems.filter (fun x => !(x.id == s.id)) ∧
    (w.removeSystemObj s).1.entities = w.entities ∧
    (w.removeSystemObj s).1.queryCache = w.queryCache ∧
    (w.removeSystemObj s).1.state = w.state ∧
    (w.removeSystemObj s).1.timeScale = w.timeScale ∧
    (w.removeSystemObj s).1.gameTime = w.gameTime ∧
    (w.removeSystemObj s).1.lastUpdateTime = w.lastUpdateTime ∧
    (∀ k, k ∉ w.entities.map (fun e => e.id) →
      lookupA (w.removeSystemObj s).1.entitySystems k = lookupA w.entitySystems k) ∧
    (∀ e ∈ w.entities, ∀ l, lookupA w.entitySystems e.id = some l →
      lookupA (w.removeSystemObj s).1.entitySystems e.id =
        some (l.filter (fun x => !(x.id == s.id)))) ∧
    (w.removeSystemObj s).2 =
      w.entities.flatMap (fun e =>
        if e.active && sysMatches s e && s.hasExit then [Event.exit s.id e.id]
        else []) ++
        (if s.injected then [Event.systemDestroyed s.id] ++
          (if s.hasOnRemoved then [Event.systemRemoved s.id] else []) else []) := by
  obtain ⟨hne, hns, hkeys, hidx⟩ := hw
  have huniq : ∀ x ∈ w.systems, x.id = s.id → x = s := fun x hx hxe =>
    List.inj_on_of_nodup_map hns hx hs hxe
  have hany : ∀ e ∈ w.entities, ∀ l, lookupA w.entitySystems e.id = some l →
      (l.any (fun x => x.id == s.id)) = sysMatches s e := by
    intro e he l hl
    obtain ⟨l2, hl2, _, hiff⟩ := hidx e he
    rw [hl] at hl2
    obtain rfl := Option.some_inj.mp hl2
    by_cases hm : sysMatches s e = true
    · rw [hm]
      exact List.any_eq_true.mpr ⟨s, (hiff s).mpr ⟨hs, hm⟩, by simp⟩
    · rw [Bool.eq_false_iff.mpr hm]
      apply Bool.eq_false_iff.mpr
      intro hb
      rcases List.any_eq_true.mp hb with ⟨y, hy, hyid⟩
      have hmem := (hiff y).mp hy
      have : y = s := huniq y hmem.1 (by simpa using hyid)
      rw [this] at hmem
      exact hm hmem.2
  obtain ⟨i, hfind, herase⟩ := findIdx_erase (fun x : System => x.id) hns hs
  have hexit : (w.entities.foldl (fun acc e =>
      if e.active then
        match lookupA w.entitySystems e.id with
        | some l =>
          if l.any (fun s1 => s1.id == s.id) && s.hasExit then
            acc ++ [Event.exit s.id e.id]
          else acc
        | none => acc
      else acc) []) =
      w.entities.flatMap (fun e =>
        if e.active && sysMatches s e && s.hasExit then [Event.exit s.id e.id]
        else []) := by
    rw [foldl_eventAcc_flatMap (fun e =>
        if e.active && sysMatches s e && s.hasExit then [Event.exit s.id e.id]
        else []) _ w.entities ?_ []]
    · rw [List.nil_append]
    · intro acc e he
      obtain ⟨l, hl, _, _⟩ := hidx e he
      rw [hl]
      by_cases ha : e.active = true
      · rw [if_pos ha]
        change (if ((l.any fun s1 => s1.id == s.id) && s.hasExit) = true
            then acc ++ [Event.exit s.id e.id] else acc) = _
        rw [hany e he l hl]
        simp only [ha, Bool.true_and]
        split
        · rename_i h
          simp [h]
        · rename_i h
          simp [h]
      · rw [if_neg ha]
        simp [Bool.eq_false_iff.mpr ha]
  have heq : w.removeSystemObj s =
      ((foldWE (fun w1 e => w1.indexEntityOne 0 e s)
          { w with systems := w.systems.filter (fun x => !(x.id == s.id)) }
          w.entities).1,
        (w.entities.foldl (fun acc e =>
          if e.active then
            match lookupA w.entitySystems e.id with
            | some l =>
              if l.any (fun s1 => s1.id == s.id) && s.hasExit then
                acc ++ [Event.exit s.id e.id]
              else acc
            | none => acc
          else acc) []) ++
          (if s.injected then [Event.systemDestroyed s.id] ++
            (if s.hasOnRemoved then [Event.systemRemoved s.id] else []) else []) ++
          (foldWE (fun w1 e => w1.indexEntityOne 0 e s)
            { w with systems := w.systems.filter (fun x => !(x.id == s.id)) }
            w.entities).2) := by
    rw [World.removeSystemObj, hfind]
    rw [show (match some i with
        | some j => w.systems.eraseIdx j
        | none => w.systems.dropLast) = w.systems.eraseIdx i from rfl, herase]
  obtain ⟨g1, g2, g3, g4, g5, g6, g7, g8, g9, g10⟩ :=
    entityFoldWE_spec 0 s w.entities
      { w with systems := w.systems.filter (fun x => !(x.id == s.id)) } hne
  have hinF : (({ w with systems := w.systems.filter (fun x => !(x.id == s.id)) } :
      World).systems.any (fun x => x.id == s.id)) = false :=
    any_filter_self_false w.systems s.id
  rw [hinF] at g9 g10
  refine ⟨?_, ?_, ?_, ?_, ?_, ?_, ?_, ?_, ?_, ?_⟩
  · rw [heq]; exact g1
  · rw [heq]; exact g2
  · rw [heq]; exact g3
  · rw [heq]; exact g4
  · rw [heq]; exact g5
  · rw [heq]; exact g6
  · rw [heq]; exact g7
  · intro k hk
    rw [heq]
    exact g8 k hk
  · intro e he l hl
    rw [heq, g9 e he, hl]
    simp only [Option.getD_some]
    rw [stepEntry]
    simp
  · rw [heq, g10, hexit]
    have : w.entities.flatMap (fun e => stepEvents false
        (((lookupA w.entitySystems e.id).getD []).any (fun x => x.id == s.id)) e s) =
        w.entities.flatMap (fun e => ([] : List Event)) := by
      apply flatMapCongr
      intro e _
      exact stepEvents_false _ e s
    rw [this]
    simp

/-- Under the invariant, a pair is indexed iff it matches (for a registered
system). -/
theorem entry_any_eq_matches {w : World} (hw : WorldInv w) {e : Entity}
    (he : e ∈ w.entities) {l : List System}
    (hl : lookupA w.entitySystems e.id = some l) {s : System} (hs : s ∈ w.systems) :
    (l.any (fun x => x.id == s.id)) = sysMatches s e := by
  obtain ⟨_, hns, _, hidx⟩ := hw
  obtain ⟨l2, hl2, _, hiff⟩ := hidx e he
  rw [hl] at hl2
  obtain rfl := Option.some_inj.mp hl2
  by_cases hm : sysMatches s e = true
  · rw [hm]
    exact List.any_eq_true.mpr ⟨s, (hiff s).mpr ⟨hs, hm⟩, by simp⟩
  · rw [Bool.eq_false_iff.mpr hm]
    apply Bool.eq_false_iff.mpr
    intro hb
    rcases List.any_eq_true.mp hb with ⟨y, hy, hyid⟩
    have hmem := (hiff y).mp hy
    have : y = s := List.inj_on_of_nodup_map hns hmem.1 hs (by simpa using hyid)
    rw [this] at hmem
    exact hm hmem.2

/-- `_onEntityUpdate` fires only `change` events. -/
theorem onEntityUpdate_change_only (w : World) (e : Entity)
    (ado rmo : Option Comp) :
    ∀ x ∈ w.onEntityUpdate e ado rmo, ∃ a b ao ro, x = Event.change a b ao ro := by
  intro x hx
  rw [World.onEntityUpdate] at hx
  rcases hl : lookupA w.entitySystems e.id with _ | l
  · rw [hl] at hx
    cases hx
  · rw [hl] at hx
    rcases List.mem_map.mp hx with ⟨s, _, heq⟩
    exact ⟨s.id, e.id, _, _, heq.symm⟩

/-- `entity.add(c)` for a fresh component instance on an entity in the
world: the stored entity gains the component, its entry is re-indexed
against the new component set, and the events are the `change`
notifications followed by one indexing pass in which each registered
system's prior presence equals its match against the OLD component set. -/
theorem compAdd_spec {w : World} (t : ℚ) {e : Entity} (c : Comp) (hw : WorldInv w)
    (he : e ∈ w.entities) (hc : c ∉ e.components) :
    ∃ lf cevs,
      (w.compAdd t e.id c).1.systems = w.systems ∧
      (w.compAdd t e.id c).1.entities =
        w.entities.map (fun x => if x.id == e.id then
          { e with components := e.components ++ [c] } else x) ∧
      (w.compAdd t e.id c).1.queryCache = w.queryCache ∧
      (w.compAdd t e.id c).1.state = w.state ∧
      (w.compAdd t e.id c).1.timeScale = w.timeScale ∧
      (w.compAdd t e.id c).1.gameTime = w.gameTime ∧
      (w.compAdd t e.id c).1.lastUpdateTime = w.lastUpdateTime ∧
      (∀ k, k ≠ e.id →
        lookupA (w.compAdd t e.id c).1.entitySystems k = lookupA w.entitySystems k) ∧
      lookupA (w.compAdd t e.id c).1.entitySystems e.id = some lf ∧
      (lf.map (fun s => s.id)).Nodup ∧
      (∀ x : System, x ∈ lf ↔ (x ∈ w.systems ∧
        sysMatches x { e with components := e.components ++ [c] } = true)) ∧
      (w.compAdd t e.id c).2 = cevs ++ w.systems.flatMap (fun s =>
        stepEvents true (sysMatches s e)
          { e with components := e.components ++ [c] } s) ∧
      (∀ x ∈ cevs, ∃ a b ao ro, x = Event.change a b ao ro) := by
  obtain ⟨hne, hns, hkeys, hidx⟩ := hw
  obtain ⟨l, hl, hlnd, hliff⟩ := hidx e he
  have hfind : w.entities.find? (fun x => x.id == e.id) = some e :=
    find_by_key (fun x : Entity => x.id) hne he
  have haddc : e.addComponent c =
      ({ e with components := e.components ++ [c] }, true) := by
    rw [Entity.addComponent, if_neg (by simpa using hc)]
  have hl1 : lookupA (w.storeEntity
      { e with components := e.components ++ [c] }).entitySystems e.id = some l := hl
  have heq : w.compAdd t e.id c =
      ((indexFoldWE t { e with components := e.components ++ [c] }
          (w.storeEntity { e with components := e.components ++ [c] })
          w.systems).1,
        (w.storeEntity { e with components := e.components ++ [c] }).onEntityUpdate
          { e with components := e.components ++ [c] } (some c) none ++
          (indexFoldWE t { e with components := e.components ++ [c] }
            (w.storeEntity { e with components := e.components ++ [c] })
            w.systems).2) := by
    rw [World.compAdd, hfind]
    simp only [haddc, if_true, World.indexEntityAll, hl1, Option.isSome_some,
      indexFoldWE]
    rfl
  have hsys1 : (w.storeEntity
      { e with components := e.components ++ [c] }).systems = w.systems := rfl
  obtain ⟨lf, c1, c2, c3, c4, c5, c6, c7, c8, c9, c10, c11, c12, c13, c14⟩ :=
    indexFoldWE_spec t { e with components := e.components ++ [c] } w.systems
      (w.storeEntity { e with components := e.components ++ [c] }) l hns
      (fun s hs => hs) hns hlnd (fun x hx => ((hliff x).mp hx).1) hl1
  refine ⟨lf, (w.storeEntity { e with components := e.components ++ [c] }).onEntityUpdate
      { e with components := e.components ++ [c] } (some c) none,
    ?_, ?_, ?_, ?_, ?_, ?_, ?_, ?_, ?_, c10, ?_, ?_,
    onEntityUpdate_change_only _ _ _ _⟩
  · rw [heq]; exact c1
  · rw [heq, c2]
    rfl
  · rw [heq]; exact c3
  · rw [heq]; exact c4
  · rw [heq]; exact c5
  · rw [heq]; exact c6
  · rw [heq]; exact c7
  · intro k hk
    rw [heq]
    exact c8 k hk
  · rw [heq]; exact c9
  · intro x
    by_cases hx : x.id ∈ w.systems.map (fun s => s.id)
    · exact c12 x hx
    · rw [c13 x hx]
      constructor
      · intro hmem
        exact absurd (List.mem_map.mpr ⟨x, ((hliff x).mp hmem).1, rfl⟩) hx
      · rintro ⟨h1, _⟩
        exact absurd (List.mem_map.mpr ⟨x, h1, rfl⟩) hx
  · rw [heq]
    simp only [c14]
    congr 1
    apply flatMapCongr
    intro s hsmem
    congr 1
    exact entry_any_eq_matches ⟨hne, hns, hkeys, hidx⟩ he hl hsmem

/-- `entity.remove(c)` for an attached component instance on an entity in
the world: mirror image of `compAdd_spec`. -/
theorem compRemove_spec {w : World} (t : ℚ) {e : Entity} (c : Comp) (hw : WorldInv w)
    (he : e ∈ w.entities) (hc : c ∈ e.components) :
    ∃ lf cevs,
      (w.compRemove t e.id c).1.systems = w.systems ∧
      (w.compRemove t e.id c).1.entities =
        w.entities.map (fun x => if x.id == e.id then
          { e with components := e.components.erase c } else x) ∧
      (w.compRemove t e.id c).1.queryCache = w.queryCache ∧
      (w.compRemove t e.id c).1.state = w.state ∧
      (w.compRemove t e.id c).1.timeScale = w.timeScale ∧
      (w.compRemove t e.id c).1.gameTime = w.gameTime ∧
      (w.compRemove t e.id c).1.lastUpdateTime = w.lastUpdateTime ∧
      (∀ k, k ≠ e.id →
        lookupA (w.compRemove t e.id c).1.entitySystems k = lookupA w.entitySystems k) ∧
      lookupA (w.compRemove t e.id c).1.entitySystems e.id = some lf ∧
      (lf.map (fun s => s.id)).Nodup ∧
      (∀ x : System, x ∈ lf ↔ (x ∈ w.systems ∧
        sysMatches x { e with components := e.components.erase c } = true)) ∧
      (w.compRemove t e.id c).2 = cevs ++ w.systems.flatMap (fun s =>
        stepEvents true (sysMatches s e)
          { e with components := e.components.erase c } s) ∧
      (∀ x ∈ cevs, ∃ a b ao ro, x = Event.change a b ao ro) := by
  obtain ⟨hne, hns, hkeys, hidx⟩ := hw
  obtain ⟨l, hl, hlnd, hliff⟩ := hidx e he
  have hfind : w.entities.find? (fun x => x.id == e.id) = some e :=
    find_by_key (fun x : Entity => x.id) hne he
  have hremc : e.removeComponent c =
      ({ e with components := e.components.erase c }, true) := by
    rw [Entity.removeComponent, if_pos (by simpa using hc)]
  have hl1 : lookupA (w.storeEntity
      { e with components := e.components.erase c }).entitySystems e.id = some l := hl
  have heq : w.compRemove t e.id c =
      ((indexFoldWE t { e with components := e.components.erase c }
          (w.storeEntity { e with components := e.components.erase c })
          w.systems).1,
        (w.storeEntity { e with components := e.components.erase c }).onEntityUpdate
          { e with components := e.components.erase c } none (some c) ++
          (indexFoldWE t { e with components := e.components.erase c }
            (w.storeEntity { e with components := e.components.erase c })
            w.systems).2) := by
    rw [World.compRemove, hfind]
    simp only [hremc, if_true, World.indexEntityAll, hl1, Option.isSome_some,
      indexFoldWE]
    rfl
  obtain ⟨lf, c1, c2, c3, c4, c5, c6, c7, c8, c9, c10, c11, c12, c13, c14⟩ :=
    indexFoldWE_spec t { e with components := e.components.erase c } w.systems
      (w.storeEntity { e with components := e.components.erase c }) l hns
      (fun s hs => hs) hns hlnd (fun x hx => ((hliff x).mp hx).1) hl1
  refine ⟨lf, (w.storeEntity { e with components := e.components.erase c }).onEntityUpdate
      { e with components := e.components.erase c } none (some c),
    ?_, ?_, ?_, ?_, ?_, ?_, ?_, ?_, ?_, c10, ?_, ?_,
    onEntityUpdate_change_only _ _ _ _⟩
  · rw [heq]; exact c1
  · rw [heq, c2]
    rfl
  · rw [heq]; exact c3
  · rw [heq]; exact c4
  · rw [heq]; exact c5
  · rw [heq]; exact c6
  · rw [heq]; exact c7
  · intro k hk
    rw [heq]
    exact c8 k hk
  · rw [heq]; exact c9
  · intro x
    by_cases hx : x.id ∈ w.systems.map (fun s => s.id)
    · exact c12 x hx
    · rw [c13 x hx]
      constructor
      · intro hmem
        exact absurd (List.mem_map.mpr ⟨x, ((hliff x).mp hmem).1, rfl⟩) hx
      · rintro ⟨h1, _⟩
        exact absurd (List.mem_map.mpr ⟨x, h1, rfl⟩) hx
  · rw [heq]
    simp only [c14]
    congr 1
    apply flatMapCongr
    intro s hsmem
    congr 1
    exact entry_any_eq_matches ⟨hne, hns, hkeys, hidx⟩ he hl hsmem

/-- The invariant only depends on the three index-relevant fields. -/
theorem WorldInv_congr {w1 w2 : World} (hs : w2.systems = w1.systems)
    (he : w2.entities = w1.entities) (hi : w2.entitySystems = w1.entitySystems)
    (hw : WorldInv w1) : WorldInv w2 := by
  obtain ⟨h1, h2, h3, h4⟩ := hw
  exact ⟨by rw [he]; exact h1, by rw [hs]; exact h2,
    fun k hk => by rw [he]; exact h3 k (by rw [← hi]; exact hk),
    fun e hemem => by
      obtain ⟨l, hl, hnd, hiff⟩ := h4 e (by rw [← he]; exact hemem)
      exact ⟨l, by rw [hi]; exact hl, hnd,
        fun s => by rw [hs]; exact hiff s⟩⟩

/-- `addEntity` preserves the index invariant. -/
theorem inv_addEntity {w : World} (hw : WorldInv w) (t : ℚ) (e : Entity) :
    WorldInv (w.addEntity t e).1 := by
  by_cases hmem : e.id ∈ w.entities.map (fun x => x.id)
  · have : (w.entities.any (fun e0 => e0.id == e.id)) = true := by
      rcases List.mem_map.mp hmem with ⟨x, hx, hxe⟩
      exact List.any_eq_true.mpr ⟨x, hx, by simpa using hxe⟩
    rw [World.addEntity, if_pos this]
    exact hw
  · obtain ⟨lf, c1, c2, c3, _, _, _, _, c8, c9, c10, c11, _⟩ :=
      addEntity_spec t e hw hmem
    obtain ⟨hne, hns, hkeys, hidx⟩ := hw
    refine ⟨?_, ?_, ?_, ?_⟩
    · rw [c2, List.map_append]
      refine List.nodup_append.mpr ⟨hne, by simp, ?_⟩
      intro a ha hb
      have : a = e.id := by simpa using hb
      exact hmem (this ▸ ha)
    · rw [c1]; exact hns
    · intro k hk
      rw [c2, List.map_append]
      by_cases hke : k = e.id
      · rw [hke]
        simp
      · rw [c8 k hke] at hk
        exact List.mem_append.mpr (Or.inl (hkeys k hk))
    · intro e0 he0
      rw [c2] at he0
      rcases List.mem_append.mp he0 with he0 | he0
      · have hne0 : e0.id ≠ e.id := by
          intro hEq
          exact hmem (hEq ▸ List.mem_map.mpr ⟨e0, he0, rfl⟩)
        obtain ⟨l, hl, hnd, hiff⟩ := hidx e0 he0
        exact ⟨l, by rw [c8 e0.id hne0]; exact hl, hnd,
          fun s => by rw [c1]; exact hiff s⟩
      · have he0e : e0 = e := List.mem_singleton.mp he0
        subst he0e
        exact ⟨lf, c9, c10, fun s => by rw [c1]; exact c11 s⟩

/-- `removeEntityObj` on a present entity preserves the index invariant. -/
theorem inv_removeEntityObj {w : World} {e : Entity} {w2 : World} {evs : List Event}
    (hw : WorldInv w) (he : e ∈ w.entities)
    (h : w.removeEntityObj e = some (w2, evs)) : WorldInv w2 := by
  have hsweep : (cacheSweep e w.queryCache).isSome = true := by
    rcases Option.eq_none_or_eq_some (cacheSweep e w.queryCache) with hs | ⟨rc, hs⟩
    · rw [World.removeEntityObj, hs] at h
      cases h
    · rw [hs]; rfl
  obtain ⟨l, hl, _, _⟩ := hw.2.2.2 e he
  obtain ⟨w2b, heq, d1, d2, d3, d4, d5, d6, d7, d8, d9, d10⟩ :=
    removeEntityObj_spec hw he hl hsweep
  rw [heq] at h
  obtain rfl : w2b = w2 := congrArg (fun p => p.1) (Option.some_inj.mp h)
  obtain ⟨hne, hns, hkeys, hidx⟩ := hw
  refine ⟨?_, ?_, ?_, ?_⟩
  · rw [d2]
    exact List.Nodup.sublist (List.Sublist.map _ (List.filter_sublist _)) hne
  · rw [d1]; exact hns
  · intro k hk
    rw [d8] at hk
    have hkne : k ≠ e.id := by
      intro hEq
      rw [hEq, lookupA_eraseA_self] at hk
      cases hk
    rw [lookupA_eraseA_other _ _ _ hkne] at hk
    have := hkeys k hk
    rw [d2]
    rcases List.mem_map.mp this with ⟨x, hx, hxk⟩
    exact List.mem_map.mpr ⟨x, List.mem_filter.mpr ⟨hx, by
      rw [hxk]; simpa using hkne⟩, hxk⟩
  · intro e0 he0
    rw [d2] at he0
    have hx := List.mem_filter.mp he0
    have hne0 : e0.id ≠ e.id := by simpa using hx.2
    obtain ⟨l0, hl0, hnd0, hiff0⟩ := hidx e0 hx.1
    exact ⟨l0, by rw [d8, lookupA_eraseA_other _ _ _ hne0]; exact hl0, hnd0,
      fun s => by rw [d1]; exact hiff0 s⟩

/-- Membership in `stepEntry` for the indexed system's own id. -/
theorem stepEntry_mem_self {l : List System} {e : Entity} {s : System}
    (hp : (l.any (fun x => x.id == s.id)) = false) {x : System} (hx : x.id = s.id) :
    x ∈ stepEntry true l e s ↔ (x = s ∧ sysMatches s e = true) := by
  rw [stepEntry, Bool.true_and]
  have hxl : x ∉ l := by
    intro hmem
    have hb : (l.any (fun y => y.id == s.id)) = true :=
      List.any_eq_true.mpr ⟨x, hmem, by simpa using hx⟩
    rw [hp] at hb
    exact Bool.false_ne_true hb
  by_cases hm : sysMatches s e = true
  · rw [if_pos hm, if_neg (by simp [hp]), List.mem_append, List.mem_singleton]
    constructor
    · intro h
      rcases h with h | h
      · exact absurd h hxl
      · exact ⟨h, hm⟩
    · rintro ⟨rfl, _⟩
      exact Or.inr rfl
  · rw [if_neg hm]
    constructor
    · intro h
      exact absurd (List.mem_of_mem_filter h) hxl
    · rintro ⟨_, h⟩
      exact absurd h hm

/-- `addSystem` preserves the index invariant. -/
theorem inv_addSystem {w : World} (hw : WorldInv w) (t : ℚ) (s0 : System) :
    WorldInv (w.addSystem t s0).1 := by
  by_cases hmem : s0.id ∈ w.systems.map (fun x => x.id)
  · have : (w.systems.any (fun s1 => s1.id == s0.id)) = true := by
      rcases List.mem_map.mp hmem with ⟨x, hx, hxe⟩
      exact List.any_eq_true.mpr ⟨x, hx, by simpa using hxe⟩
    rw [World.addSystem, if_pos this]
    exact hw
  · obtain ⟨c1, c2, c3, _, _, _, _, c8, c9, _⟩ := addSystem_spec t s0 hw hmem
    obtain ⟨hne, hns, hkeys, hidx⟩ := hw
    refine ⟨by rw [c2]; exact hne, ?_, ?_, ?_⟩
    · rw [c1, List.map_append]
      refine List.nodup_append.mpr ⟨hns, by simp, ?_⟩
      intro a ha hb
      have : a = s0.id := by simpa using hb
      exact hmem (this ▸ ha)
    · intro k hk
      rw [c2]
      by_cases hke : k ∈ w.entities.map (fun e => e.id)
      · exact hke
      · rw [c8 k hke] at hk
        exact hkeys k hk
    · intro e0 he0
      rw [c2] at he0
      obtain ⟨l, hl, hnd, hiff⟩ := hidx e0 he0
      have hp : (l.any (fun x => x.id ==
          ({ s0 with injected := true } : System).id)) = false := by
        apply Bool.eq_false_iff.mpr
        intro hb
        rcases List.any_eq_true.mp hb with ⟨y, hy, hyid⟩
        exact hmem ((by simpa using hyid : y.id = s0.id) ▸
          List.mem_map.mpr ⟨y, ((hiff y).mp hy).1, rfl⟩)
      refine ⟨stepEntry true l e0 { s0 with injected := true },
        c9 e0 he0 l hl, stepEntry_nodup hnd, ?_⟩
      intro x
      rw [c1]
      by_cases hx : x.id = ({ s0 with injected := true } : System).id
      · rw [stepEntry_mem_self hp hx]
        constructor
        · rintro ⟨rfl, hm⟩
          exact ⟨List.mem_append.mpr (Or.inr (List.mem_singleton.mpr rfl)), hm⟩
        · rintro ⟨hmem1, hm⟩
          rcases List.mem_append.mp hmem1 with h | h
          · exact absurd (List.mem_map.mpr ⟨x, h, by simpa using hx⟩) hmem
          · have := List.mem_singleton.mp h
            exact ⟨this, by rw [← this]; exact hm⟩
      · rw [stepEntry_mem_other hx, hiff x]
        constructor
        · rintro ⟨h1, h2⟩
          exact ⟨List.mem_append.mpr (Or.inl h1), h2⟩
        · rintro ⟨h1, h2⟩
          rcases List.mem_append.mp h1 with h | h
          · exact ⟨h, h2⟩
          · exact absurd (congrArg (fun y => y.id) (List.mem_singleton.mp h)) hx

/-- `removeSystemObj` on a present system preserves the index invariant. -/
theorem inv_removeSystemObj {w : World} {s : System} (hw : WorldInv w)
    (hs : s ∈ w.systems) : WorldInv (w.removeSystemObj s).1 := by
  obtain ⟨c1, c2, c3, _, _, _, _, c8, c9, _⟩ := removeSystemObj_spec hw hs
  obtain ⟨hne, hns, hkeys, hidx⟩ := hw
  refine ⟨by rw [c2]; exact hne, ?_, ?_, ?_⟩
  · rw [c1]
    exact List.Nodup.sublist (List.Sublist.map _ (List.filter_sublist _)) hns
  · intro k hk
    rw [c2]
    by_cases hke : k ∈ w.entities.map (fun e => e.id)
    · exact hke
    · rw [c8 k hke] at hk
      exact hkeys k hk
  · intro e0 he0
    rw [c2] at he0
    obtain ⟨l, hl, hnd, hiff⟩ := hidx e0 he0
    refine ⟨l.filter (fun x => !(x.id == s.id)), c9 e0 he0 l hl,
      List.Nodup.sublist (List.Sublist.map _ (List.filter_sublist _)) hnd, ?_⟩
    intro x
    rw [c1]
    constructor
    · intro hx
      have h1 := List.mem_filter.mp hx
      have h2 := (hiff x).mp h1.1
      exact ⟨List.mem_filter.mpr ⟨h2.1, h1.2⟩, h2.2⟩
    · rintro ⟨h1, h2⟩
      have h3 := List.mem_filter.mp h1
      exact List.mem_filter.mpr ⟨(hiff x).mpr ⟨h3.1, h2⟩, h3.2⟩

/-- `compAdd` preserves the index invariant. -/
theorem inv_compAdd {w : World} (hw : WorldInv w) (t : ℚ) (eid : Nat) (c : Comp) :
    WorldInv (w.compAdd t eid c).1 := by
  rcases hfind : w.entities.find? (fun e0 => e0.id == eid) with _ | e
  · rw [World.compAdd, hfind]
    exact hw
  · have he : e ∈ w.entities := List.mem_of_find?_eq_some hfind
    have heid : e.id = eid := by
      have := List.find?_some hfind
      simpa using this
    subst heid
    by_cases hc : c ∈ e.components
    · rw [World.compAdd_of_mem t hw.1 he hc]
      exact hw
    · obtain ⟨lf, cevs, c1, c2, c3, _, _, _, _, c8, c9, c10, c11, _⟩ :=
        compAdd_spec t c hw he hc
      obtain ⟨hne, hns, hkeys, hidx⟩ := hw
      have hids : ((w.compAdd t e.id c).1.entities.map (fun x => x.id)) =
          w.entities.map (fun x => x.id) := by
        rw [c2, List.map_map]
        apply List.map_congr_left
        intro x _
        by_cases hxe : x.id = e.id
        · simp [hxe]
        · simp [hxe]
      refine ⟨by rw [hids]; exact hne, by rw [c1]; exact hns, ?_, ?_⟩
      · intro k hk
        rw [hids]
        by_cases hke : k = e.id
        · rw [hke]
          exact List.mem_map.mpr ⟨e, he, rfl⟩
        · rw [c8 k hke] at hk
          exact hkeys k hk
      · intro e0 he0
        rw [c2] at he0
        rcases List.mem_map.mp he0 with ⟨y, hy, hye⟩
        by_cases hyid : y.id = e.id
        · have he0e : e0 = { e with components := e.components ++ [c] } := by
            rw [← hye, if_pos (by simpa using hyid)]
          subst he0e
          exact ⟨lf, c9, c10, fun s => by rw [c1]; exact c11 s⟩
        · have he0y : e0 = y := by
            rw [← hye, if_neg (by simpa using hyid)]
          subst he0y
          obtain ⟨l, hl, hnd, hiff⟩ := hidx e0 hy
          exact ⟨l, by rw [c8 e0.id hyid]; exact hl, hnd,
            fun s => by rw [c1]; exact hiff s⟩

/-- `compRemove` preserves the index invariant. -/
theorem inv_compRemove {w : World} (hw : WorldInv w) (t : ℚ) (eid : Nat) (c : Comp) :
    WorldInv (w.compRemove t eid c).1 := by
  rcases hfind : w.entities.find? (fun e0 => e0.id == eid) with _ | e
  · rw [World.compRemove, hfind]
    exact hw
  · have he : e ∈ w.entities := List.mem_of_find?_eq_some hfind
    have heid : e.id = eid := by
      have := List.find?_some hfind
      simpa using this
    subst heid
    by_cases hc : c ∈ e.components
    · obtain ⟨lf, cevs, c1, c2, c3, _, _, _, _, c8, c9, c10, c11, _⟩ :=
        compRemove_spec t c hw he hc
      obtain ⟨hne, hns, hkeys, hidx⟩ := hw
      have hids : ((w.compRemove t e.id c).1.entities.map (fun x => x.id)) =
          w.entities.map (fun x => x.id) := by
        rw [c2, List.map_map]
        apply List.map_congr_left
        intro x _
        by_cases hxe : x.id = e.id
        · simp [hxe]
        · simp [hxe]
      refine ⟨by rw [hids]; exact hne, by rw [c1]; exact hns, ?_, ?_⟩
      · intro k hk
        rw [hids]
        by_cases hke : k = e.id
        · rw [hke]
          exact List.mem_map.mpr ⟨e, he, rfl⟩
        · rw [c8 k hke] at hk
          exact hkeys k hk
      · intro e0 he0
        rw [c2] at he0
        rcases List.mem_map.mp he0 with ⟨y, hy, hye⟩
        by_cases hyid : y.id = e.id
        · have he0e : e0 = { e with components := e.components.erase c } := by
            rw [← hye, if_pos (by simpa using hyid)]
          subst he0e
          exact ⟨lf, c9, c10, fun s => by rw [c1]; exact c11 s⟩
        · have he0y : e0 = y := by
            rw [← hye, if_neg (by simpa using hyid)]
          subst he0y
          obtain ⟨l, hl, hnd, hiff⟩ := hidx e0 hy
          exact ⟨l, by rw [c8 e0.id hyid]; exact hl, hnd,
            fun s => by rw [c1]; exact hiff s⟩
    · have hrem : e.removeComponent c = (e, false) := by
        rw [Entity.removeComponent, if_neg (by simpa using hc)]
      have heq : w.compRemove t e.id c = (w.storeEntity e, []) := by
        rw [World.compRemove, hfind]
        simp only [hrem, Bool.false_eq_true, if_false]
      rw [heq, World.storeEntity_self hw.1 he]
      exact hw

/-- The per-entity system scan of `update()` only touches the timestamp
tables and the batch table. -/
theorem sysScan_frame (t : ℚ) (e : Entity) :
    ∀ (acts : List System) (w : World) (batches : List (Nat × Batch)),
      (sysScan t e w acts batches).1.systems = w.systems ∧
      (sysScan t e w acts batches).1.entities = w.entities ∧
      (sysScan t e w acts batches).1.entitySystems = w.entitySystems ∧
      (sysScan t e w acts batches).1.queryCache = w.queryCache ∧
      (sysScan t e w acts batches).1.state = w.state ∧
      (sysScan t e w acts batches).1.timeScale = w.timeScale ∧
      (sysScan t e w acts batches).1.gameTime = w.gameTime ∧
      (sysScan t e w acts batches).1.lastUpdateTime = w.lastUpdateTime := by
  intro acts
  induction acts with
  | nil => intro w batches; exact ⟨rfl, rfl, rfl, rfl, rfl, rfl, rfl, rfl⟩
  | cons s acts ih =>
    intro w batches
    have hstep : ∃ w1 b1, (sysScan t e w (s :: acts) batches) = sysScan t e w1 acts b1 ∧
        w1.systems = w.systems ∧ w1.entities = w.entities ∧
        w1.entitySystems = w.entitySystems ∧ w1.queryCache = w.queryCache ∧
        w1.state = w.state ∧ w1.timeScale = w.timeScale ∧
        w1.gameTime = w.gameTime ∧ w1.lastUpdateTime = w.lastUpdateTime := by
      rw [sysScan, List.foldl_cons]
      by_cases hu : s.hasUpdate = true
      · simp only [hu, if_true]
        rcases hb : lookupA batches s.id with _ | batch
        · simp only [hb]
          by_cases hf : s.frequency > 0
          · rw [if_pos hf]
            by_cases hskip : (match (stampOf w.lastUpdate e.id s.id).map
                (fun x => t - x) with
                | some el => decide (el < 1000 / s.frequency)
                | none => false) = true
            · rw [if_pos hskip]
              exact ⟨w, batches, rfl, rfl, rfl, rfl, rfl, rfl, rfl, rfl, rfl⟩
            · rw [if_neg hskip]
              refine ⟨_, _, rfl, rfl, rfl, rfl, rfl, rfl, rfl, rfl, rfl⟩
          · rw [if_neg hf]
            refine ⟨_, _, rfl, rfl, rfl, rfl, rfl, rfl, rfl, rfl, rfl⟩
        · simp only [hb]
          exact ⟨w, _, rfl, rfl, rfl, rfl, rfl, rfl, rfl, rfl, rfl⟩
      · simp only [hu]
        exact ⟨w, batches, by simp [sysScan], rfl, rfl, rfl, rfl, rfl, rfl, rfl, rfl⟩
    obtain ⟨w1, b1, hstep, f1, f2, f3, f4, f5, f6, f7, f8⟩ := hstep
    obtain ⟨g1, g2, g3, g4, g5, g6, g7, g8⟩ := ih w1 b1
    rw [hstep]
    exact ⟨g1.trans f1, g2.trans f2, g3.trans f3, g4.trans f4, g5.trans f5,
      g6.trans f6, g7.trans f7, g8.trans f8⟩

/-- The entity scan of `update()` preserves the index invariant. -/
theorem entityScan_inv (t : ℚ) :
    ∀ (fuel k : Nat) (w : World) (batches : List (Nat × Batch)) (evs : List Event)
      (r : World × List (Nat × Batch) × List Event),
      WorldInv w → entityScan t fuel k w batches evs = some r → WorldInv r.1 := by
  intro fuel
  induction fuel with
  | zero =>
    intro k w batches evs r hw h
    rw [entityScan] at h
    obtain rfl := Option.some_inj.mp h
    exact hw
  | succ fuel ih =>
    intro k w batches evs r hw h
    rw [entityScan] at h
    by_cases hk : k < w.entities.length
    · rw [dif_pos hk] at h
      by_cases ha : (w.entities.get ⟨k, hk⟩).active = true
      · rw [if_pos ha] at h
        rcases hl : lookupA w.entitySystems (w.entities.get ⟨k, hk⟩).id with _ | l
        · rw [hl] at h
          exact ih _ _ _ _ _ hw h
        · rw [hl] at h
          refine ih _ _ _ _ _ ?_ h
          obtain ⟨f1, f2, f3, _, _, _, _, _⟩ := sysScan_frame t
            (w.entities.get ⟨k, hk⟩)
            (w.systems.filter (fun s => s.states.contains anyState ||
              s.states.contains w.state)) w batches
          exact WorldInv_congr f1 f2 f3 hw
      · rw [if_neg ha] at h
        rcases hrem : w.removeEntityObj (w.entities.get ⟨k, hk⟩) with _ | p
        · rw [hrem] at h
          cases h
        · rw [hrem] at h
          exact ih _ _ _ _ _
            (inv_removeEntityObj hw (w.entities.get_mem k hk) hrem) h
    · rw [dif_neg hk] at h
      exact ih _ _ _ _ _ hw h

/-- `update` preserves the index invariant. -/
theorem inv_update {w : World} (hw : WorldInv w) (t : ℚ) {w2 : World}
    {evs : List Event} (h : w.update t = some (w2, evs)) : WorldInv w2 := by
  rw [World.update] at h
  rcases hscan : entityScan t
      ({ w with
        gameTime := w.gameTime + (t - w.lastUpdateTime) * w.timeScale,
        lastUpdateTime := t } : World).entities.length 0
      { w with
        gameTime := w.gameTime + (t - w.lastUpdateTime) * w.timeScale,
        lastUpdateTime := t } [] [] with _ | r
  · rw [hscan] at h
    cases h
  · rw [hscan] at h
    have hinv0 : WorldInv { w with
        gameTime := w.gameTime + (t - w.lastUpdateTime) * w.timeScale,
        lastUpdateTime := t } := WorldInv_congr rfl rfl rfl hw
    have := entityScan_inv t _ 0 _ [] [] r hinv0 hscan
    rcases r with ⟨wr, br, er⟩
    obtain rfl : wr = w2 := congrArg (fun p => p.1) (Option.some_inj.mp h)
    exact this

/-- Event counts distribute over `flatMap`, and vanish when every piece
lacks the event. -/
theorem count_flatMap_zero {α : Type} {l : List α} {f : α → List Event} {ev : Event}
    (h : ∀ a ∈ l, (f a).count ev = 0) : (l.flatMap f).count ev = 0 := by
  induction l with
  | nil => rfl
  | cons a l ih =>
    rw [List.flatMap_cons, List.count_append, h a (List.mem_cons_self a l),
      ih (fun b hb => h b (List.mem_cons_of_mem a hb))]

/-- With duplicate-free keys, a `flatMap` event count concentrates on the
one element whose key can emit the event. -/
theorem count_flatMap_key {α β : Type} [DecidableEq β] (key : α → β) :
    ∀ {l : List α}, ((l.map key).Nodup) → ∀ {a : α}, a ∈ l →
      ∀ (f : α → List Event) (ev : Event),
      (∀ x ∈ l, key x ≠ key a → (f x).count ev = 0) →
      (l.flatMap f).count ev = (f a).count ev := by
  intro l
  induction l with
  | nil => intro _ a ha; cases ha
  | cons b l ih =>
    intro hn a ha f ev hzero
    obtain ⟨hb_not, hn_rest⟩ := List.nodup_cons.mp (by rw [List.map_cons] at hn; exact hn)
    rw [List.flatMap_cons, List.count_append]
    rcases List.mem_cons.mp ha with rfl | ha2
    · have hrest : ((l.flatMap f).count ev) = 0 := by
        apply count_flatMap_zero
        intro x hx
        apply hzero x (List.mem_cons_of_mem a hx)
        intro hEq
        exact hb_not (hEq ▸ List.mem_map.mpr ⟨x, hx, rfl⟩)
      rw [hrest, Nat.add_zero]
    · have hbz : (f b).count ev = 0 := by
        apply hzero b (List.mem_cons_self b l)
        intro hEq
        exact hb_not (hEq ▸ List.mem_map.mpr ⟨a, ha2, rfl⟩)
      rw [hbz, ih hn_rest ha2 f ev
        (fun x hx hne => hzero x (List.mem_cons_of_mem b hx) hne), Nat.zero_add]

/-- `stepEvents` counts for the indexed system itself. -/
theorem stepEvents_count_enter (p : Bool) (e : Entity) (s : System) :
    (stepEvents true p e s).count (Event.enter s.id e.id) =
      if !p && sysMatches s e && s.hasEnter then 1 else 0 := by
  rw [stepEvents, if_pos rfl]
  by_cases hm : sysMatches s e = true <;> by_cases hp : p = true <;>
    by_cases hhe : s.hasEnter = true <;> by_cases hhx : s.hasExit = true <;>
      simp [hm, hp, hhe, hhx]

/-- `stepEvents` counts for `exit` of the indexed system itself. -/
theorem stepEvents_count_exit (p : Bool) (e : Entity) (s : System) :
    (stepEvents true p e s).count (Event.exit s.id e.id) =
      if p && !(sysMatches s e) && s.hasExit then 1 else 0 := by
  rw [stepEvents, if_pos rfl]
  by_cases hm : sysMatches s e = true <;> by_cases hp : p = true <;>
    by_cases hhe : s.hasEnter = true <;> by_cases hhx : s.hasExit = true <;>
      simp [hm, hp, hhe, hhx]

/-- `stepEvents` of one system never mentions another system id. -/
theorem stepEvents_count_sid_other {b p : Bool} {e : Entity} {s : System}
    {sid eid : Nat} (hne : s.id ≠ sid) :
    ((stepEvents b p e s).count (Event.enter sid eid) = 0 ∧
      (stepEvents b p e s).count (Event.exit sid eid) = 0) := by
  rw [stepEvents]
  split_ifs <;> simp [List.count_eq_zero] <;> omega

/-- `stepEvents` for one entity never mentions another entity id. -/
theorem stepEvents_count_eid_other {b p : Bool} {e : Entity} {s : System}
    {sid eid : Nat} (hne : e.id ≠ eid) :
    ((stepEvents b p e s).count (Event.enter sid eid) = 0 ∧
      (stepEvents b p e s).count (Event.exit sid eid) = 0) := by
  rw [stepEvents]
  split_ifs <;> simp [List.count_eq_zero] <;> omega

/-- The freshly constructed world satisfies the index invariant. -/
theorem WorldInv_init (t : ℚ) : WorldInv (World.init t) := by
  refine ⟨List.nodup_nil, List.nodup_nil, ?_, ?_⟩
  · intro k hk
    simp [World.init, lookupA] at hk
  · intro e he
    simp [World.init] at he

/-- `removeEntity(id)` preserves the index invariant when it returns. -/
theorem inv_removeEntityById {w : World} (hw : WorldInv w) (i : Nat) {w2 : World}
    {evs : List Event} (h : w.removeEntityById i = some (w2, evs)) : WorldInv w2 := by
  rw [World.removeEntityById] at h
  rcases hfind : w.entities.find? (fun e0 => e0.id == i) with _ | e
  · rw [hfind] at h
    cases h
    exact hw
  · rw [hfind] at h
    exact inv_removeEntityObj hw (List.mem_of_find?_eq_some hfind) h

/-- `removeSystem(id)` preserves the index invariant. -/
theorem inv_removeSystemById {w : World} (hw : WorldInv w) (i : Nat) :
    WorldInv (w.removeSystemById i).1 := by
  rw [World.removeSystemById]
  rcases hfind : w.systems.find? (fun s0 => s0.id == i) with _ | s <;> rw [hfind]
  · exact hw
  · exact inv_removeSystemObj hw (List.mem_of_find?_eq_some hfind)

/-- Every operation preserves the index invariant. -/
theorem inv_execOp {w : World} (hw : WorldInv w) {op : Op} {w2 : World}
    {evs : List Event} (h : execOp w op = some (w2, evs)) : WorldInv w2 := by
  cases op with
  | addEnt t e =>
    have h2 : w2 = (w.addEntity t e).1 := by
      rw [Option.some_inj.mp h]
    rw [h2]
    exact inv_addEntity hw t e
  | remEnt i => exact inv_removeEntityById hw i h
  | addSys t s =>
    have h2 : w2 = (w.addSystem t s).1 := by
      rw [Option.some_inj.mp h]
    rw [h2]
    exact inv_addSystem hw t s
  | remSys i =>
    have h2 : w2 = (w.removeSystemById i).1 := by
      rw [Option.some_inj.mp h]
    rw [h2]
    exact inv_removeSystemById hw i
  | cAdd t eid c =>
    have h2 : w2 = (w.compAdd t eid c).1 := by
      rw [Option.some_inj.mp h]
    rw [h2]
    exact inv_compAdd hw t eid c
  | cRem t eid c =>
    have h2 : w2 = (w.compRemove t eid c).1 := by
      rw [Option.some_inj.mp h]
    rw [h2]
    exact inv_compRemove hw t eid c
  | tick t => exact inv_update hw t h

/-- Any run of operations preserves the index invariant. -/
theorem inv_runOps {w : World} (hw : WorldInv w) {ops : List Op} {w2 : World}
    {evs : List Event} (h : runOps w ops = some (w2, evs)) : WorldInv w2 := by
  induction ops generalizing w evs with
  | nil =>
    cases h
    exact hw
  | cons op rest ih =>
    rw [runOps] at h
    rcases h1 : execOp w op with _ | ⟨w1, evs1⟩ <;> rw [h1] at h
    · exact (by cases (show (none : Option (World × List Event)) = some (w2, evs) from h))
    · have hm : (match runOps w1 rest with
          | none => none
          | some (w2, evs2) => some (w2, evs1 ++ evs2)) = some (w2, evs) := h
      rcases h2 : runOps w1 rest with _ | ⟨wr, evsr⟩ <;> rw [h2] at hm
      · exact (by cases (show (none : Option (World × List Event)) = some (w2, evs) from hm))
      · have hp : (wr, evs1 ++ evsr) = (w2, evs) := Option.some_inj.mp hm
        have hw2 : wr = w2 := congrArg Prod.fst hp
        rw [hw2] at h2
        exact ih (inv_execOp hw h1) h2

set_option maxRecDepth 4000 in
/-- C2: for traces built from `addEntity`, `removeEntity(id)`, `addSystem`,
`removeSystem(id)`, component add/remove and `update`, the settled index
equals a from-scratch recomputation — every entity in the world has an
entry, a (entity, system) pair is indexed iff every required type of the
system is the wildcard −1 or held by the entity (so an empty requirement
list matches every entity), each system appears at most once per entry,
and entries exist only for entities in the world.  (Amended from the
original claim: object-form removal of a foreign system breaks this via
`splice(-1, 1)`, and the match test is per required type, not
"superset or declares wildcard".) -/
theorem index_equals_recomputation (t0 : ℚ) (ops : List Op) (w : World)
    (evs : List Event) (h : runOps (World.init t0) ops = some (w, evs)) :
    (∀ e ∈ w.entities, ∃ l, lookupA w.entitySystems e.id = some l ∧
      (l.map (fun s => s.id)).Nodup ∧
      (∀ s : System, s ∈ l ↔ (s ∈ w.systems ∧
        ∀ ct ∈ s.componentTypes, (ct == -1 || e.hasType ct) = true))) ∧
    (∀ k, (lookupA w.entitySystems k).isSome = true →
      k ∈ w.entities.map (fun e => e.id)) := by
  obtain ⟨hne, hns, hkeys, hidx⟩ := inv_runOps (WorldInv_init t0) h
  refine ⟨?_, hkeys⟩
  intro e he
  obtain ⟨l, hl, hnd, hiff⟩ := hidx e he
  refine ⟨l, hl, hnd, ?_⟩
  intro s
  rw [hiff s]
  constructor
  · rintro ⟨h1, h2⟩
    exact ⟨h1, fun ct hct => by
      have := List.all_eq_true.mp h2 ct hct
      simpa [typeSatisfied] using this⟩
  · rintro ⟨h1, h2⟩
    refine ⟨h1, ?_⟩
    apply List.all_eq_true.mpr
    intro ct hct
    simpa [typeSatisfied] using h2 ct hct

set_option maxRecDepth 4000 in
/-- After `opsC2`, `entA`'s index entry exists and holds exactly the
registered systems whose requirements it meets. -/
theorem index_equals_recomputation_witness :
    ∃ l, lookupA wC2.entitySystems entA.id = some l ∧
      (l.map (fun s => s.id)).Nodup ∧
      (∀ s : System, s ∈ l ↔ (s ∈ wC2.systems ∧
        ∀ ct ∈ s.componentTypes, (ct == -1 || entA.hasType ct) = true)) :=
  (index_equals_recomputation 0 opsC2 wC2 evsC2 (by rfl)).1 entA
    (by with_unfolding_all decide)

set_option maxRecDepth 4000 in
/-- Counterexample to C2 as stated: in `wOrphan`, entity 3's index entry
still holds the system with id 5, yet the system list is empty and the
entity holds no components at all, so the settled index does not equal a
from-scratch recomputation and the iff of the claim fails for this pair. -/
theorem index_recompute_orphan_cex :
    (lookupA wOrphan.entitySystems 3).map (fun l => l.map (fun s => s.id)) =
      some [5] ∧
    wOrphan.systems = [] ∧
    wOrphan.entities.map (fun e => (e.id, e.components)) = [(3, [])] := by
  with_unfolding_all decide

/-- A `stepEvents` list with `present = false` holds no `exit` event. -/
theorem stepEvents_no_exit (p : Bool) (e : Entity) (s : System) (sid eid : Nat)
    (hp : p = false) : (stepEvents true p e s).count (Event.exit sid eid) = 0 := by
  rw [stepEvents, hp]
  split_ifs <;> simp_all [List.count_eq_zero]

/-- `addEntity` fires `enter` exactly once per registered matching system
with an `enter` hook, and no `exit` at all. -/
theorem addEntity_count {w : World} (t : ℚ) (e : Entity) (s : System)
    (hw : WorldInv w) (he : e.id ∉ w.entities.map (fun x => x.id))
    (hs : s ∈ w.systems) :
    (w.addEntity t e).2.count (Event.enter s.id e.id) =
      (if sysMatches s e && s.hasEnter then 1 else 0) ∧
    (w.addEntity t e).2.count (Event.exit s.id e.id) = 0 := by
  obtain ⟨lf, h⟩ := addEntity_spec t e hw he
  have hev := h.2.2.2.2.2.2.2.2.2.2.2
  rw [hev]
  have hadded : ∀ ev : Event,
      ((if e.hasOnAdded then [Event.entityAdded e.id] else []).count
        (Event.enter s.id e.id) = 0) ∧
      ((if e.hasOnAdded then [Event.entityAdded e.id] else []).count
        (Event.exit s.id e.id) = 0) := by
    intro _
    constructor <;> (split_ifs <;> simp [List.count_eq_zero])
  constructor
  · rw [List.count_append, (hadded (Event.enter s.id e.id)).1,
      count_flatMap_key (fun x : System => x.id) hw.2.1 hs _ _
        (fun x _ hne => (stepEvents_count_sid_other hne).1),
      stepEvents_count_enter false e s]
    simp
  · rw [List.count_append, (hadded (Event.exit s.id e.id)).2,
      count_flatMap_zero (fun x _ => stepEvents_no_exit false e x s.id e.id rfl)]

/-- `addSystem` fires `enter` twice for an active matching entity, once for
an inactive matching entity, never `exit`. -/
theorem addSystem_count {w : World} (t : ℚ) (s0 : System) (e : Entity)
    (hw : WorldInv w) (hs : s0.id ∉ w.systems.map (fun x => x.id))
    (he : e ∈ w.entities) :
    (w.addSystem t s0).2.count (Event.enter s0.id e.id) =
      (if sysMatches s0 e && s0.hasEnter then (if e.active then 2 else 1) else 0) ∧
    (w.addSystem t s0).2.count (Event.exit s0.id e.id) = 0 := by
  obtain ⟨_, _, _, _, _, _, _, _, _, hev⟩ := addSystem_spec t s0 hw hs
  rw [hev]
  have hm : sysMatches { s0 with injected := true } e = sysMatches s0 e := rfl
  have hc1 : (w.entities.flatMap (fun x =>
      stepEvents true false x { s0 with injected := true })).count
        (Event.enter s0.id e.id) =
      (if sysMatches s0 e && s0.hasEnter then 1 else 0) := by
    rw [count_flatMap_key (fun x : Entity => x.id) hw.1 he _ _
      (fun x _ hne => (stepEvents_count_eid_other hne).1)]
    rw [show (Event.enter s0.id e.id) =
      (Event.enter (System.id { s0 with injected := true }) e.id) from rfl]
    rw [stepEvents_count_enter false e { s0 with injected := true }, hm]
    simp
  have hc2 : (w.entities.flatMap (fun x =>
      if x.active && sysMatches { s0 with injected := true } x && s0.hasEnter
      then [Event.enter s0.id x.id] else [])).count (Event.enter s0.id e.id) =
      (if e.active && sysMatches s0 e && s0.hasEnter then 1 else 0) := by
    rw [count_flatMap_key (fun x : Entity => x.id) hw.1 he _ _ ?_]
    · rw [hm]
      split_ifs <;> simp_all
    · intro x _ hne
      have hne2 : x.id ≠ e.id := hne
      split_ifs <;> simp [List.count_eq_zero] <;> omega
  constructor
  · rw [List.count_append, List.count_append, hc1, hc2]
    have hadd : (if s0.hasOnAdded then [Event.systemAdded s0.id] else []).count
        (Event.enter s0.id e.id) = 0 := by
      split_ifs <;> simp [List.count_eq_zero]
    rw [hadd, Nat.add_zero]
    by_cases h1 : sysMatches s0 e = true <;> by_cases h2 : s0.hasEnter = true <;>
      by_cases h3 : e.active = true <;> simp_all
  · have hz2 : ((w.entities.flatMap (fun x =>
        if x.active && sysMatches { s0 with injected := true } x && s0.hasEnter
        then [Event.enter s0.id x.id] else [])).count
          (Event.exit s0.id e.id)) = 0 := by
      apply count_flatMap_zero
      intro x _
      split_ifs <;> simp [List.count_eq_zero]
    rw [List.count_append, List.count_append,
      count_flatMap_zero (fun x _ =>
        stepEvents_no_exit false x { s0 with injected := true } s0.id e.id rfl),
      hz2]
    split_ifs <;> simp [List.count_eq_zero]

/-- A list of `change` events holds no `enter`/`exit`. -/
theorem change_events_count_zero {cevs : List Event}
    (h : ∀ x ∈ cevs, ∃ a b ao ro, x = Event.change a b ao ro) (sid eid : Nat) :
    cevs.count (Event.enter sid eid) = 0 ∧ cevs.count (Event.exit sid eid) = 0 := by
  constructor <;>
    (apply List.count_eq_zero.mpr; intro hmem;
     obtain ⟨a, b, ao, ro, hx⟩ := h _ hmem; cases hx)

/-- Adding a component fires `enter` exactly once per system whose match is
established by the addition, `exit` exactly once per system whose match is
broken, never more, never both. -/
theorem compAdd_count {w : World} (t : ℚ) {e : Entity} (c : Comp) (s : System)
    (hw : WorldInv w) (he : e ∈ w.entities) (hc : c ∉ e.components)
    (hs : s ∈ w.systems) :
    (w.compAdd t e.id c).2.count (Event.enter s.id e.id) =
      (if !(sysMatches s e) &&
          sysMatches s { e with components := e.components ++ [c] } &&
          s.hasEnter then 1 else 0) ∧
    (w.compAdd t e.id c).2.count (Event.exit s.id e.id) =
      (if sysMatches s e &&
          !(sysMatches s { e with components := e.components ++ [c] }) &&
          s.hasExit then 1 else 0) := by
  obtain ⟨lf, cevs, h⟩ := compAdd_spec t c hw he hc
  have hev := h.2.2.2.2.2.2.2.2.2.2.2.1
  have hcevs := h.2.2.2.2.2.2.2.2.2.2.2.2
  rw [hev]
  constructor
  · rw [List.count_append, (change_events_count_zero hcevs s.id e.id).1,
      count_flatMap_key (fun x : System => x.id) hw.2.1 hs _ _
        (fun x _ hne => (stepEvents_count_sid_other hne).1), Nat.zero_add]
    exact stepEvents_count_enter (sysMatches s e)
      { e with components := e.components ++ [c] } s
  · rw [List.count_append, (change_events_count_zero hcevs s.id e.id).2,
      count_flatMap_key (fun x : System => x.id) hw.2.1 hs _ _
        (fun x _ hne => (stepEvents_count_sid_other hne).2), Nat.zero_add]
    exact stepEvents_count_exit (sysMatches s e)
      { e with components := e.components ++ [c] } s

/-- Removing a component fires `enter`/`exit` exactly once per match
transition it causes, never more, never both. -/
theorem compRemove_count {w : World} (t : ℚ) {e : Entity} (c : Comp) (s : System)
    (hw : WorldInv w) (he : e ∈ w.entities) (hc : c ∈ e.components)
    (hs : s ∈ w.systems) :
    (w.compRemove t e.id c).2.count (Event.enter s.id e.id) =
      (if !(sysMatches s e) &&
          sysMatches s { e with components := e.components.erase c } &&
          s.hasEnter then 1 else 0) ∧
    (w.compRemove t e.id c).2.count (Event.exit s.id e.id) =
      (if sysMatches s e &&
          !(sysMatches s { e with components := e.components.erase c }) &&
          s.hasExit then 1 else 0) := by
  obtain ⟨lf, cevs, h⟩ := compRemove_spec t c hw he hc
  have hev := h.2.2.2.2.2.2.2.2.2.2.2.1
  have hcevs := h.2.2.2.2.2.2.2.2.2.2.2.2
  rw [hev]
  constructor
  · rw [List.count_append, (change_events_count_zero hcevs s.id e.id).1,
      count_flatMap_key (fun x : System => x.id) hw.2.1 hs _ _
        (fun x _ hne => (stepEvents_count_sid_other hne).1), Nat.zero_add]
    exact stepEvents_count_enter (sysMatches s e)
      { e with components := e.components.erase c } s
  · rw [List.count_append, (change_events_count_zero hcevs s.id e.id).2,
      count_flatMap_key (fun x : System => x.id) hw.2.1 hs _ _
        (fun x _ hne => (stepEvents_count_sid_other hne).2), Nat.zero_add]
    exact stepEvents_count_exit (sysMatches s e)
      { e with components := e.components.erase c } s

/-- `removeEntity` fires `exit` exactly once per registered matching system
with an `exit` hook, and no `enter`. -/
theorem removeEntity_count {w : World} {e : Entity} (s : System)
    (hw : WorldInv w) (he : e ∈ w.entities) (hs : s ∈ w.systems)
    (hsweep : (cacheSweep e w.queryCache).isSome = true) :
    ∃ w2 evs, w.removeEntityObj e = some (w2, evs) ∧
      evs.count (Event.exit s.id e.id) =
        (if sysMatches s e && s.hasExit then 1 else 0) ∧
      evs.count (Event.enter s.id e.id) = 0 := by
  obtain ⟨l, hl, hlnd, hliff⟩ := hw.2.2.2 e he
  obtain ⟨w2, h⟩ := removeEntityObj_spec hw he hl hsweep
  refine ⟨w2, _, h.1, ?_, ?_⟩
  · rw [List.count_append]
    have htl : (if e.hasOnRemoved then [Event.entityRemoved e.id] else []).count
        (Event.exit s.id e.id) = 0 := by
      split_ifs <;> simp [List.count_eq_zero]
    rw [htl, Nat.add_zero]
    by_cases hm : sysMatches s e = true
    · have hsl : s ∈ l := (hliff s).mpr ⟨hs, hm⟩
      rw [count_flatMap_key (fun x : System => x.id) hlnd hsl _ _ ?_]
      · simp only [hm, Bool.true_and]
        split_ifs <;> simp
      · intro x _ hne
        have hne2 : x.id ≠ s.id := hne
        split_ifs <;> simp [List.count_eq_zero] <;> omega
    · rw [count_flatMap_zero ?_]
      · simp [hm]
      · intro x hx
        obtain ⟨hxs, hxm⟩ := (hliff x).mp hx
        by_cases hxe : x.id = s.id
        · have hxeq : x = s := List.inj_on_of_nodup_map hw.2.1 hxs hs hxe
          rw [hxeq] at hxm
          exact absurd hxm hm
        · split_ifs <;> simp [List.count_eq_zero] <;> omega
  · rw [List.count_append]
    have htl : (if e.hasOnRemoved then [Event.entityRemoved e.id] else []).count
        (Event.enter s.id e.id) = 0 := by
      split_ifs <;> simp [List.count_eq_zero]
    rw [htl, Nat.add_zero]
    apply count_flatMap_zero
    intro x _
    split_ifs <;> simp [List.count_eq_zero]

/-- `removeSystem` on a present system fires `exit` once per active matching
entity with an `exit` hook, none for inactive entities, and no `enter`. -/
theorem removeSystem_count {w : World} {s : System} (e : Entity)
    (hw : WorldInv w) (hs : s ∈ w.systems) (he : e ∈ w.entities) :
    (w.removeSystemObj s).2.count (Event.exit s.id e.id) =
      (if e.active && sysMatches s e && s.hasExit then 1 else 0) ∧
    (w.removeSystemObj s).2.count (Event.enter s.id e.id) = 0 := by
  obtain ⟨_, _, _, _, _, _, _, _, _, hev⟩ := removeSystemObj_spec hw hs
  rw [hev]
  have htl : ∀ ev : Event, (∀ a b : Nat, ev ≠ Event.systemDestroyed a) →
      (∀ a : Nat, ev ≠ Event.systemRemoved a) →
      ((if s.injected then [Event.systemDestroyed s.id] ++
        (if s.hasOnRemoved then [Event.systemRemoved s.id] else []) else []).count
          ev = 0) := by
    intro ev h1 h2
    split_ifs <;> simp_all [List.count_eq_zero, List.count_cons]
  constructor
  · rw [List.count_append,
      htl (Event.exit s.id e.id) (fun a b => by simp) (fun a => by simp),
      Nat.add_zero,
      count_flatMap_key (fun x : Entity => x.id) hw.1 he _ _ ?_]
    · split_ifs <;> simp_all
    · intro x _ hne
      have hne2 : x.id ≠ e.id := hne
      split_ifs <;> simp [List.count_eq_zero] <;> omega
  · rw [List.count_append,
      htl (Event.enter s.id e.id) (fun a b => by simp) (fun a => by simp),
      Nat.add_zero]
    apply count_flatMap_zero
    intro x _
    split_ifs <;> simp [List.count_eq_zero]

/-- C1 (amended): per transition, lifecycle notifications are exactly-once
counted per (system, entity) pair — `addEntity` fires `enter` exactly once
per registered matching system with the hook and no `exit`; a component
add/remove fires `enter` (resp. `exit`) exactly once iff it establishes
(resp. breaks) the match, never both; `removeEntity` fires `exit` exactly
once per matching system and no `enter`.  Amended from the original claim:
`addSystem` fires `enter` TWICE for each active matching entity (the
indexing pass and the explicit enter pass both fire) and once for an
inactive matching entity, and `removeSystem` fires `exit` only for active
entities — an inactive matching entity gets zero `exit` there. -/
theorem enter_exit_exactly_once :
    (∀ (w : World) (t : ℚ) (e : Entity) (s : System), WorldInv w →
      e.id ∉ w.entities.map (fun x => x.id) → s ∈ w.systems →
      (w.addEntity t e).2.count (Event.enter s.id e.id) =
        (if sysMatches s e && s.hasEnter then 1 else 0) ∧
      (w.addEntity t e).2.count (Event.exit s.id e.id) = 0) ∧
    (∀ (w : World) (t : ℚ) (s0 : System) (e : Entity), WorldInv w →
      s0.id ∉ w.systems.map (fun x => x.id) → e ∈ w.entities →
      (w.addSystem t s0).2.count (Event.enter s0.id e.id) =
        (if sysMatches s0 e && s0.hasEnter then (if e.active then 2 else 1)
         else 0) ∧
      (w.addSystem t s0).2.count (Event.exit s0.id e.id) = 0) ∧
    (∀ (w : World) (t : ℚ) (e : Entity) (c : Comp) (s : System), WorldInv w →
      e ∈ w.entities → c ∉ e.components → s ∈ w.systems →
      (w.compAdd t e.id c).2.count (Event.enter s.id e.id) =
        (if !(sysMatches s e) &&
            sysMatches s { e with components := e.components ++ [c] } &&
            s.hasEnter then 1 else 0) ∧
      (w.compAdd t e.id c).2.count (Event.exit s.id e.id) =
        (if sysMatches s e &&
            !(sysMatches s { e with components := e.components ++ [c] }) &&
            s.hasExit then 1 else 0)) ∧
    (∀ (w : World) (t : ℚ) (e : Entity) (c : Comp) (s : System), WorldInv w →
      e ∈ w.entities → c ∈ e.components → s ∈ w.systems →
      (w.compRemove t e.id c).2.count (Event.enter s.id e.id) =
        (if !(sysMatches s e) &&
            sysMatches s { e with components := e.components.erase c } &&
            s.hasEnter then 1 else 0) ∧
      (w.compRemove t e.id c).2.count (Event.exit s.id e.id) =
        (if sysMatches s e &&
            !(sysMatches s { e with components := e.components.erase c }) &&
            s.hasExit then 1 else 0)) ∧
    (∀ (w : World) (e : Entity) (s : System), WorldInv w →
      e ∈ w.entities → s ∈ w.systems →
      (cacheSweep e w.queryCache).isSome = true →
      ∃ w2 evs, w.removeEntityObj e = some (w2, evs) ∧
        evs.count (Event.exit s.id e.id) =
          (if sysMatches s e && s.hasExit then 1 else 0) ∧
        evs.count (Event.enter s.id e.id) = 0) ∧
    (∀ (w : World) (s : System) (e : Entity), WorldInv w →
      s ∈ w.systems → e ∈ w.entities →
      (w.removeSystemObj s).2.count (Event.exit s.id e.id) =
        (if e.active && sysMatches s e && s.hasExit then 1 else 0) ∧
      (w.removeSystemObj s).2.count (Event.enter s.id e.id) = 0) :=
  ⟨fun _ t e s hw he hs => addEntity_count t e s hw he hs,
   fun _ t s0 e hw hs he => addSystem_count t s0 e hw hs he,
   fun _ t _ c s hw he hc hs => compAdd_count t c s hw he hc hs,
   fun _ t _ c s hw he hc hs => compRemove_count t c s hw he hc hs,
   fun _ _ s hw he hs hsweep => removeEntity_count s hw he hs hsweep,
   fun _ _ e hw hs he => removeSystem_count e hw hs he⟩

set_option maxRecDepth 4000 in
/-- Adding `entA` to the world that already registered `sysA`: the stored
system copy matches `entA`, so `enter` is counted exactly once and `exit`
zero times. -/
theorem enter_exit_exactly_once_witness :
    (wSysA.addEntity 0 entA).2.count
        (Event.enter (System.id { sysA with injected := true }) entA.id) =
      (if sysMatches { sysA with injected := true } entA &&
          System.hasEnter { sysA with injected := true } then 1 else 0) ∧
    (wSysA.addEntity 0 entA).2.count
        (Event.exit (System.id { sysA with injected := true }) entA.id) = 0 :=
  enter_exit_exactly_once.1 wSysA 0 entA { sysA with injected := true }
    (inv_addSystem (WorldInv_init 0) 0 sysA)
    (by with_unfolding_all decide) (by with_unfolding_all decide)

/-- C6 (amended): a system whose declared component-type list is empty
matches EVERY entity — the per-type loop of `_indexEntitySystem` is
vacuously satisfied — so on `addEntity` such a registered system always
lands in the new entity's index entry; indexing it is total and never
faults.  (The original claim said an empty list matches no entity.) -/
theorem empty_types_matches_every_entity :
    (∀ (s : System) (e : Entity), s.componentTypes = [] →
      sysMatches s e = true) ∧
    (∀ (w : World) (t : ℚ) (e : Entity) (s : System), WorldInv w →
      e.id ∉ w.entities.map (fun x => x.id) → s ∈ w.systems →
      s.componentTypes = [] →
      ∃ l, lookupA (w.addEntity t e).1.entitySystems e.id = some l ∧ s ∈ l) := by
  constructor
  · intro s e h
    rw [sysMatches, h]
    rfl
  · intro w t e s hw he hs hempty
    obtain ⟨lf, h⟩ := addEntity_spec t e hw he
    refine ⟨lf, h.2.2.2.2.2.2.2.2.1, ?_⟩
    apply (h.2.2.2.2.2.2.2.2.2.2.1 s).mpr
    exact ⟨hs, by rw [sysMatches, hempty]; rfl⟩

set_option maxRecDepth 4000 in
/-- After registering `sysEmpty` (no required types) and adding the
component-less `entB`, the pair is indexed. -/
theorem empty_types_matches_every_entity_witness :
    ∃ l, lookupA (wSysEmpty.addEntity 0 entB).1.entitySystems entB.id =
        some l ∧ { sysEmpty with injected := true } ∈ l :=
  empty_types_matches_every_entity.2 wSysEmpty 0 entB
    { sysEmpty with injected := true }
    (inv_addSystem (WorldInv_init 0) 0 sysEmpty)
    (by with_unfolding_all decide) (by with_unfolding_all decide) rfl

/-- C8: a `queryEntitiesByComponent` result is cached only when non-empty;
a cached entry is returned stale without touching the world; `removeEntity`
completes exactly when the entity holds every cached type, and then every
cache entry is deleted; adding an entity or a component never modifies the
cache, so a stale entry persists until the next invalidating removal. -/
theorem query_cache_lifecycle :
    (∀ (w : World) (ty : CompType), lookupA w.queryCache ty = none →
      lookupA (w.queryEntitiesByComponent ty).1.queryCache ty =
        (if ((w.entities.filter (fun e => typeSatisfied e ty)).map
            (fun e => e.id)).length > 0
         then some ((w.entities.filter (fun e => typeSatisfied e ty)).map
            (fun e => e.id))
         else none)) ∧
    (∀ (w : World) (ty : CompType) (cached : List Nat),
      lookupA w.queryCache ty = some cached →
      w.queryEntitiesByComponent ty = (w, cached)) ∧
    (∀ (w : World) (e : Entity),
      (w.removeEntityObj e).isSome = true ↔
        ∀ ty ∈ w.queryCache.map (fun p => p.1), e.hasType ty = true) ∧
    (∀ (w : World) (e : Entity) (w2 : World) (evs : List Event), WorldInv w →
      e ∈ w.entities → w.removeEntityObj e = some (w2, evs) →
      w2.queryCache = []) ∧
    (∀ (w : World) (t : ℚ) (e : Entity), WorldInv w →
      e.id ∉ w.entities.map (fun x => x.id) →
      (w.addEntity t e).1.queryCache = w.queryCache) ∧
    (∀ (w : World) (t : ℚ) (e : Entity) (c : Comp), WorldInv w →
      e ∈ w.entities → c ∉ e.components →
      (w.compAdd t e.id c).1.queryCache = w.queryCache) := by
  refine ⟨?_, ?_, ?_, ?_, ?_, ?_⟩
  · intro w ty h
    rw [World.queryEntitiesByComponent, h]
    simp only
    split_ifs with hlen
    · exact lookupA_setA_self w.queryCache ty _
    · exact h
  · intro w ty cached h
    rw [World.queryEntitiesByComponent, h]
  · intro w e
    rw [World.removeEntityObj]
    rcases hsw : cacheSweep e w.queryCache with _ | rc
    · constructor
      · intro h
        cases h
      · intro h
        have := (cacheSweep_isSome_iff e w.queryCache).mpr
          (fun p hp => h p.1 (List.mem_map.mpr ⟨p, hp, rfl⟩))
        rw [hsw] at this
        cases this
    · constructor
      · intro _
        intro ty hty
        rcases List.mem_map.mp hty with ⟨p, hp, hpe⟩
        have := (cacheSweep_isSome_iff e w.queryCache).mp (by rw [hsw]; rfl) p hp
        rw [← hpe]
        exact this
      · intro _
        rfl
  · intro w e w2 evs hw he h
    have hsweep : (cacheSweep e w.queryCache).isSome = true := by
      rcases hsw : cacheSweep e w.queryCache with _ | rc
      · rw [World.removeEntityObj, hsw] at h
        cases h
      · rfl
    obtain ⟨l, hl, _, _⟩ := hw.2.2.2 e he
    obtain ⟨w2x, hx⟩ := removeEntityObj_spec hw he hl hsweep
    have hsame : w2 = w2x := by
      have h2 := hx.1
      rw [h] at h2
      exact congrArg Prod.fst (Option.some_inj.mp h2)
    rw [hsame]
    exact hx.2.2.2.1
  · intro w t e hw he
    obtain ⟨lf, hh⟩ := addEntity_spec t e hw he
    exact hh.2.2.1
  · intro w t e c hw he hc
    obtain ⟨lf, cevs, hh⟩ := compAdd_spec t c hw he hc
    exact hh.2.2.1

set_option maxRecDepth 4000 in
/-- The populated cache line of `wCached` (type 1 ↦ entity 1) is returned
stale, with the world untouched. -/
theorem query_cache_lifecycle_witness :
    wCached.queryEntitiesByComponent 1 = (wCached, [1]) :=
  query_cache_lifecycle.2.1 wCached 1 [1] (by with_unfolding_all decide)

set_option maxRecDepth 4000 in
/-- C3 (amended): the frequency gate and both timestamp refreshes happen
once per (system, batch), keyed by the first eligible entity the scan
meets: for that batch-creating pair the code behaves as the claim says —
with a recorded wall stamp `x`, the pair is skipped iff `t − x <
1000/frequency`, and when it runs its wall stamp becomes `t − ((t − x) mod
interval)` and its game stamp becomes the current game clock — but any
later entity reaching an already-created batch joins it with NO gating and
NO stamp refresh, sharing the creator's delta.  The claim's concrete
consequence survives: the wildcard frequency-1 pair ticked at t=1100 and
t=1600 receives exactly one `update` across both ticks. -/
theorem update_gating_per_batch :
    (∀ (t x : ℚ) (e : Entity) (w : World) (s : System),
      s.hasUpdate = true → s.frequency > 0 →
      stampOf w.lastUpdate e.id s.id = some x →
      t - x < 1000 / s.frequency →
      sysScan t e w [s] [] = (w, [])) ∧
    (∀ (t x : ℚ) (e : Entity) (w : World) (s : System),
      s.hasUpdate = true → s.frequency > 0 →
      stampOf w.lastUpdate e.id s.id = some x →
      ¬(t - x < 1000 / s.frequency) →
      sysScan t e w [s] [] =
        ({ w with
            lastUpdate := setStamp w.lastUpdate e.id s.id
              (some (t - jsMod (t - x) (1000 / s.frequency))),
            lastUpdateGame := setStamp w.lastUpdateGame e.id s.id
              (some w.gameTime) },
          [(s.id,
            { sys := s,
              delta := ((stampOf w.lastUpdateGame e.id s.id).map
                  (fun g => w.gameTime - g)).map (fun z => z / 1000),
              eids := [e.id] })])) ∧
    (∀ (t : ℚ) (e : Entity) (w : World) (s : System)
        (b : List (Nat × Batch)) (batch : Batch),
      s.hasUpdate = true → lookupA b s.id = some batch →
      sysScan t e w [s] b =
        (w, setA b s.id { batch with eids := batch.eids ++ [e.id] })) ∧
    (evsFreq1 ++ evsFreq2).countP (fun ev =>
      match ev with
      | Event.upd sid eid _ _ => sid == 2 && eid == 2
      | _ => false) = 1 := by
  refine ⟨?_, ?_, ?_, by with_unfolding_all decide⟩
  · intro t x e w s h1 h2 h3 h4
    simp only [sysScan, List.foldl, lookupA, h1, h3, if_true, if_pos h2]
    simp [h4]
  · intro t x e w s h1 h2 h3 h4
    simp only [sysScan, List.foldl, lookupA, h1, h3, if_true, if_pos h2]
    simp [h4, insertBatch]
  · intro t e w s b batch h1 h2
    simp only [sysScan, List.foldl, h1, h2, if_true]

set_option maxRecDepth 4000 in
/-- At the t=1600 tick the (entB, sysWild) pair's recorded wall stamp is
1000, the elapsed 600 ms is below the 1000 ms interval, so the scan skips
the pair and leaves the world untouched. -/
theorem update_gating_per_batch_witness :
    sysScan 1600 entB wFreqT1 [{ sysWild with injected := true }] [] =
      (wFreqT1, []) :=
  update_gating_per_batch.1 1600 1000 entB wFreqT1
    { sysWild with injected := true } rfl
    (by with_unfolding_all decide)
    (by with_unfolding_all decide)
    (by with_unfolding_all decide)

/-- Association-list lookup commutes with mapping over values. -/
theorem lookupA_map {α β γ : Type} [DecidableEq α] (f : β → γ) :
    ∀ (l : List (α × β)) (x : α),
      lookupA (l.map (fun p => (p.1, f p.2))) x = (lookupA l x).map f := by
  intro l
  induction l with
  | nil => intro x; rfl
  | cons p rest ih =>
    intro x
    rw [List.map_cons, lookupA, lookupA]
    by_cases h : (p.1 == x) = true
    · simp [h]
    · simp only [h]
      simp only [Bool.false_eq_true, if_false]
      exact ih x

/-- Association-list assignment commutes with mapping over values. -/
theorem setA_map {α β γ : Type} [DecidableEq α] (f : β → γ)
    (l : List (α × β)) (x : α) (v : β) :
    setA (l.map (fun p => (p.1, f p.2))) x (f v) =
      (setA l x v).map (fun p => (p.1, f p.2)) := by
  rw [setA, setA]
  have hany : ((l.map (fun p => (p.1, f p.2))).any (fun p => p.1 == x)) =
      (l.any (fun p => p.1 == x)) := by
    induction l with
    | nil => rfl
    | cons p rest ih => simp [ih]
  rw [hany]
  split_ifs with h
  · rw [List.map_map, List.map_map]
    apply List.map_congr_left
    intro p _
    by_cases hp : (p.1 == x) = true <;> simp [Function.comp, hp]
  · rw [List.map_append]
    rfl

/-- Association-list deletion commutes with mapping over values. -/
theorem eraseA_map {α β γ : Type} [DecidableEq α] (f : β → γ)
    (l : List (α × β)) (x : α) :
    eraseA (l.map (fun p => (p.1, f p.2))) x =
      (eraseA l x).map (fun p => (p.1, f p.2)) := by
  rw [eraseA, eraseA, List.filter_map]
  rfl

/-- Reading a stamp from a scaled table scales the stamp. -/
theorem stampOf_scale (k : ℚ) (tb : StampTable) (eid sid : Nat) :
    stampOf (scaleTable k tb) eid sid = scaleOpt k (stampOf tb eid sid) := by
  rw [stampOf, stampOf, scaleTable, lookupA_map (scaleRow k)]
  cases h : lookupA tb eid with
  | none => rfl
  | some inner =>
    simp only [Option.map_some']
    have h3 : lookupA (scaleRow k inner) sid =
        (lookupA inner sid).map (scaleOpt k) := lookupA_map (scaleOpt k) inner sid
    rw [h3]
    cases h2 : lookupA inner sid with
    | none => rfl
    | some v => rfl

/-- Writing a scaled stamp into a scaled table scales the written table. -/
theorem setStamp_scale (k : ℚ) (tb : StampTable) (eid sid : Nat)
    (v : Option ℚ) :
    setStamp (scaleTable k tb) eid sid (scaleOpt k v) =
      scaleTable k (setStamp tb eid sid v) := by
  rw [setStamp, setStamp, scaleTable, lookupA_map (scaleRow k)]
  cases h : lookupA tb eid with
  | none =>
    simp only [Option.map_none']
    have h2 : setA (List.map (fun p => (p.1, scaleRow k p.2)) tb) eid
        [(sid, scaleOpt k v)] =
        (setA tb eid [(sid, v)]).map (fun p => (p.1, scaleRow k p.2)) :=
      setA_map (scaleRow k) tb eid [(sid, v)]
    rw [h2]
    rfl
  | some inner =>
    simp only [Option.map_some']
    have h1 : setA (scaleRow k inner) sid (scaleOpt k v) =
        scaleRow k (setA inner sid v) := setA_map (scaleOpt k) inner sid v
    rw [h1]
    have h2 : setA (List.map (fun p => (p.1, scaleRow k p.2)) tb) eid
        (scaleRow k (setA inner sid v)) =
        (setA tb eid (setA inner sid v)).map (fun p => (p.1, scaleRow k p.2)) :=
      setA_map (scaleRow k) tb eid (setA inner sid v)
    rw [h2]
    rfl

/-- Erasing a row from a scaled table scales the erased table. -/
theorem eraseA_scaleTable (k : ℚ) (tb : StampTable) (eid : Nat) :
    eraseA (scaleTable k tb) eid = scaleTable k (eraseA tb eid) := by
  rw [scaleTable, scaleTable]
  exact eraseA_map (fun r => scaleRow k r) tb eid

/-- Batch insertion commutes with scaling the table. -/
theorem insertBatch_scale (k : ℚ) (sid : Nat) (b : Batch) :
    ∀ l : List (Nat × Batch),
      insertBatch sid (scaleBatch k b) (scaleBatches k l) =
        scaleBatches k (insertBatch sid b l) := by
  intro l
  induction l with
  | nil => rfl
  | cons p rest ih =>
    rw [scaleBatches, List.map_cons, insertBatch, insertBatch]
    by_cases h : sid < p.1
    · rw [if_pos h, if_pos h]
      rfl
    · rw [if_neg h, if_neg h, scaleBatches, List.map_cons]
      rw [show List.map (fun p => (p.1, scaleBatch k p.2)) rest =
        scaleBatches k rest from rfl, ih]
      rfl

/-- Batch-table lookup on a scaled table. -/
theorem lookupA_scaleBatches (k : ℚ) (b : List (Nat × Batch)) (sid : Nat) :
    lookupA (scaleBatches k b) sid = (lookupA b sid).map (scaleBatch k) :=
  lookupA_map (scaleBatch k) b sid

/-- The scaled-side delta computed by the scan is the scaled plain delta. -/
theorem delta_scale (k : ℚ) (w : World) (e : Entity) (s : System) :
    Option.map (fun x => x / 1000)
      (Option.map (fun x => (scaleWorld k w).gameTime - x)
        (stampOf (scaleWorld k w).lastUpdateGame e.id s.id)) =
    scaleOpt k (Option.map (fun x => x / 1000)
      (Option.map (fun x => w.gameTime - x)
        (stampOf w.lastUpdateGame e.id s.id))) := by
  rw [show stampOf (scaleWorld k w).lastUpdateGame e.id s.id =
    scaleOpt k (stampOf w.lastUpdateGame e.id s.id) from
      stampOf_scale k w.lastUpdateGame e.id s.id]
  cases stampOf w.lastUpdateGame e.id s.id with
  | none => rfl
  | some g0 =>
    show some ((k * w.gameTime - k * g0) / 1000) =
      some (k * ((w.gameTime - g0) / 1000))
    rw [show k * w.gameTime - k * g0 = k * (w.gameTime - g0) from by ring,
      mul_div_assoc]

/-- Building a batch from a scaled delta builds the scaled batch. -/
theorem scaleBatch_mk (k : ℚ) (s : System) (d : Option ℚ) (eids : List Nat) :
    ({ sys := s, delta := scaleOpt k d, eids := eids } : Batch) =
      scaleBatch k { sys := s, delta := d, eids := eids } := rfl

/-- Appending a rider entity to a scaled batch scales the appended batch. -/
theorem scaleBatch_push (k : ℚ) (batch : Batch) (eid : Nat) :
    ({ sys := (scaleBatch k batch).sys, delta := (scaleBatch k batch).delta, eids := (scaleBatch k batch).eids ++ [eid] } : Batch) =
      scaleBatch k { sys := batch.sys, delta := batch.delta, eids := batch.eids ++ [eid] } := rfl

/-- Overwriting a scaled batch table with a scaled batch scales the result. -/
theorem setA_scaleBatches (k : ℚ) (batches : List (Nat × Batch)) (sid : Nat)
    (b : Batch) :
    setA (scaleBatches k batches) sid (scaleBatch k b) =
      scaleBatches k (setA batches sid b) :=
  setA_map (scaleBatch k) batches sid b

/-- The per-entity system scan commutes with scaling the game clock:
the wall-clock gate and stamps are unchanged, every game stamp and every
batch delta is multiplied by `k`. -/
theorem sysScan_scale (k t : ℚ) (e : Entity) :
    ∀ (acts : List System) (w : World) (batches : List (Nat × Batch)),
      sysScan t e (scaleWorld k w) acts (scaleBatches k batches) =
        (scaleWorld k (sysScan t e w acts batches).1,
          scaleBatches k (sysScan t e w acts batches).2) := by
  intro acts
  induction acts with
  | nil =>
    intro w batches
    rfl
  | cons s acts ih =>
    intro w batches
    have hlu : (scaleWorld k w).lastUpdate = w.lastUpdate := rfl
    by_cases hu : s.hasUpdate = true
    · rcases hb : lookupA batches s.id with _ | batch
      · have hbs : lookupA (scaleBatches k batches) s.id = none := by
          rw [lookupA_scaleBatches, hb]
          rfl
        by_cases hf : s.frequency > 0
        · by_cases hskip : (match (stampOf w.lastUpdate e.id s.id).map
              (fun x => t - x) with
              | some el => decide (el < 1000 / s.frequency)
              | none => false) = true
          · have hplain : sysScan t e w (s :: acts) batches =
                sysScan t e w acts batches := by
              rw [sysScan, List.foldl_cons]
              simp only [hu, if_true, hb, if_pos hf, if_pos hskip]
              rfl
            have hscaled : sysScan t e (scaleWorld k w) (s :: acts)
                (scaleBatches k batches) =
                sysScan t e (scaleWorld k w) acts (scaleBatches k batches) := by
              rw [sysScan, List.foldl_cons]
              simp only [hu, if_true, hbs, hlu, if_pos hf, if_pos hskip]
              rfl
            rw [hplain, hscaled]
            exact ih w batches
          · have hplain : sysScan t e w (s :: acts) batches =
                sysScan t e
                  { w with
                    lastUpdate := setStamp w.lastUpdate e.id s.id
                      (((stampOf w.lastUpdate e.id s.id).map
                        (fun x => t - x)).map
                          (fun el => t - jsMod el (1000 / s.frequency))),
                    lastUpdateGame := setStamp w.lastUpdateGame e.id s.id
                      (some w.gameTime) }
                  acts
                  (insertBatch s.id
                    { sys := s,
                      delta := ((stampOf w.lastUpdateGame e.id s.id).map
                        (fun x => w.gameTime - x)).map (fun x => x / 1000),
                      eids := [e.id] } batches) := by
              rw [sysScan, List.foldl_cons]
              simp only [hu, if_true, hb, if_pos hf, if_neg hskip]
              rfl
            have hscaled : sysScan t e (scaleWorld k w) (s :: acts)
                (scaleBatches k batches) =
                sysScan t e
                  (scaleWorld k
                    { w with
                      lastUpdate := setStamp w.lastUpdate e.id s.id
                        (((stampOf w.lastUpdate e.id s.id).map
                          (fun x => t - x)).map
                            (fun el => t - jsMod el (1000 / s.frequency))),
                      lastUpdateGame := setStamp w.lastUpdateGame e.id s.id
                        (some w.gameTime) })
                  acts
                  (scaleBatches k (insertBatch s.id
                    { sys := s,
                      delta := ((stampOf w.lastUpdateGame e.id s.id).map
                        (fun x => w.gameTime - x)).map (fun x => x / 1000),
                      eids := [e.id] } batches)) := by
              rw [sysScan, List.foldl_cons]
              simp only [hu, if_true, hbs, hlu, if_pos hf, if_neg hskip]
              rw [sysScan]
              congr 1
              have e1 : setStamp (scaleWorld k w).lastUpdateGame e.id s.id
                  (some (scaleWorld k w).gameTime) =
                  scaleTable k (setStamp w.lastUpdateGame e.id s.id
                    (some w.gameTime)) :=
                setStamp_scale k w.lastUpdateGame e.id s.id (some w.gameTime)
              rw [e1, delta_scale k w e s]
              rw [scaleBatch_mk]
              rw [insertBatch_scale k s.id _ batches]
              rfl
            rw [hplain, hscaled]
            exact ih _ _
        · have hplain : sysScan t e w (s :: acts) batches =
              sysScan t e
                { w with
                  lastUpdate := setStamp w.lastUpdate e.id s.id (some t),
                  lastUpdateGame := setStamp w.lastUpdateGame e.id s.id
                    (some w.gameTime) }
                acts
                (insertBatch s.id
                  { sys := s,
                    delta := ((stampOf w.lastUpdateGame e.id s.id).map
                      (fun x => w.gameTime - x)).map (fun x => x / 1000),
                    eids := [e.id] } batches) := by
            rw [sysScan, List.foldl_cons]
            simp only [hu, if_true, hb, if_neg hf]
            rfl
          have hscaled : sysScan t e (scaleWorld k w) (s :: acts)
              (scaleBatches k batches) =
              sysScan t e
                (scaleWorld k
                  { w with
                    lastUpdate := setStamp w.lastUpdate e.id s.id (some t),
                    lastUpdateGame := setStamp w.lastUpdateGame e.id s.id
                      (some w.gameTime) })
                acts
                (scaleBatches k (insertBatch s.id
                  { sys := s,
                    delta := ((stampOf w.lastUpdateGame e.id s.id).map
                      (fun x => w.gameTime - x)).map (fun x => x / 1000),
                    eids := [e.id] } batches)) := by
            rw [sysScan, List.foldl_cons]
            simp only [hu, if_true, hbs, hlu, if_neg hf]
            rw [sysScan]
            congr 1
            have e1 : setStamp (scaleWorld k w).lastUpdateGame e.id s.id
                (some (scaleWorld k w).gameTime) =
                scaleTable k (setStamp w.lastUpdateGame e.id s.id
                  (some w.gameTime)) :=
              setStamp_scale k w.lastUpdateGame e.id s.id (some w.gameTime)
            rw [e1, delta_scale k w e s]
            rw [scaleBatch_mk]
            rw [insertBatch_scale k s.id _ batches]
            rfl
          rw [hplain, hscaled]
          exact ih _ _
      · have hbs : lookupA (scaleBatches k batches) s.id =
            some (scaleBatch k batch) := by
          rw [lookupA_scaleBatches, hb]
          rfl
        have hplain : sysScan t e w (s :: acts) batches =
            sysScan t e w acts
              (setA batches s.id
                { batch with eids := batch.eids ++ [e.id] }) := by
          rw [sysScan, List.foldl_cons]
          simp only [hu, if_true, hb]
          rfl
        have hscaled : sysScan t e (scaleWorld k w) (s :: acts)
            (scaleBatches k batches) =
            sysScan t e (scaleWorld k w) acts
              (scaleBatches k
                (setA batches s.id
                  { batch with eids := batch.eids ++ [e.id] })) := by
          rw [sysScan, List.foldl_cons]
          simp only [hu, if_true, hbs]
          rw [sysScan]
          congr 1
          rw [scaleBatch_push, setA_scaleBatches]
        rw [hplain, hscaled]
        exact ih _ _
    · have hplain : sysScan t e w (s :: acts) batches =
          sysScan t e w acts batches := by
        rw [sysScan, List.foldl_cons]
        simp only [hu]
        rfl
      have hscaled : sysScan t e (scaleWorld k w) (s :: acts)
          (scaleBatches k batches) =
          sysScan t e (scaleWorld k w) acts (scaleBatches k batches) := by
        rw [sysScan, List.foldl_cons]
        simp only [hu]
        rfl
      rw [hplain, hscaled]
      exact ih w batches

/-- `removeEntity` ignores the game clock: it commutes with scaling, and
its events are unchanged. -/
theorem removeEntityObj_scale (k : ℚ) (w : World) (e : Entity) :
    (scaleWorld k w).removeEntityObj e =
      (w.removeEntityObj e).map (fun r => (scaleWorld k r.1, r.2)) := by
  rw [World.removeEntityObj, World.removeEntityObj]
  have hqc : (scaleWorld k w).queryCache = w.queryCache := rfl
  have hent : (scaleWorld k w).entities = w.entities := rfl
  have hes : (scaleWorld k w).entitySystems = w.entitySystems := rfl
  simp only [hqc, hent, hes]
  rcases hs : cacheSweep e w.queryCache with _ | rc <;>
    simp only [hs, Option.map_none', Option.map_some']
  rcases hidx : w.entities.findIdx? (fun e0 => e0.id == e.id) with _ | i <;>
    simp only [hidx]
  · rw [show (scaleWorld k w).lastUpdateGame = scaleTable k w.lastUpdateGame
      from rfl, eraseA_scaleTable]
    rfl
  · rw [show (scaleWorld k w).lastUpdateGame = scaleTable k w.lastUpdateGame
      from rfl, eraseA_scaleTable]
    rfl

/-- The `exit` event fold of `removeEntity` is untouched by `scaleEvent`. -/
theorem exitFold_fixed (k : ℚ) (eid : Nat) :
    ∀ (l : List System) (acc : List Event), acc.map (scaleEvent k) = acc →
      ((l.foldl (fun acc s => if s.hasExit then acc ++ [Event.exit s.id eid]
          else acc) acc).map (scaleEvent k) =
        l.foldl (fun acc s => if s.hasExit then acc ++ [Event.exit s.id eid]
          else acc) acc) := by
  intro l
  induction l with
  | nil => intro acc h; exact h
  | cons s l ih =>
    intro acc h
    rw [List.foldl_cons]
    by_cases hx : s.hasExit = true <;> simp only [hx, if_true,
      Bool.false_eq_true, if_false]
    · apply ih
      rw [List.map_append, h]
      rfl
    · exact ih acc h

/-- The events `removeEntity` fires are untouched by `scaleEvent`. -/
theorem removeEntityObj_events_fixed (k : ℚ) {w : World} {e : Entity}
    {r : World × List Event} (h : w.removeEntityObj e = some r) :
    r.2.map (scaleEvent k) = r.2 := by
  rw [World.removeEntityObj] at h
  rcases hs : cacheSweep e w.queryCache with _ | rc
  · rw [hs] at h
    cases h
  · rw [hs] at h
    have h2 := congrArg Prod.snd (Option.some_inj.mp h)
    rw [← h2]
    rw [List.map_append]
    rw [exitFold_fixed k e.id _ [] rfl]
    by_cases hr : e.hasOnRemoved = true <;> simp [hr, scaleEvent]

/-- The entity scan only appends `exit`/`entityRemoved` events, which
`scaleEvent` leaves alone. -/
theorem entityScan_evs_fixed (k t : ℚ) :
    ∀ (fuel i : Nat) (w : World) (batches : List (Nat × Batch))
      (evs : List Event), evs.map (scaleEvent k) = evs →
      ∀ r, entityScan t fuel i w batches evs = some r →
        r.2.2.map (scaleEvent k) = r.2.2 := by
  intro fuel
  induction fuel with
  | zero =>
    intro i w batches evs hevs r h
    rw [entityScan] at h
    obtain rfl := Option.some_inj.mp h
    exact hevs
  | succ fuel ih =>
    intro i w batches evs hevs r h
    rw [entityScan] at h
    by_cases hi : i < w.entities.length
    · rw [dif_pos hi] at h
      by_cases hact : (w.entities.get ⟨i, hi⟩).active = true
      · simp only [hact, if_true] at h
        rcases hesys : lookupA w.entitySystems (w.entities.get ⟨i, hi⟩).id
            with _ | l <;> rw [hesys] at h
        · exact ih (i + 1) w batches evs hevs r h
        · exact ih (i + 1) _ _ evs hevs r h
      · simp only [hact, Bool.false_eq_true, if_false] at h
        rcases hrem : w.removeEntityObj (w.entities.get ⟨i, hi⟩)
            with _ | r0 <;> rw [hrem] at h
        · cases h
        · apply ih (i + 1) _ _ _ _ r h
          rw [List.map_append, hevs, removeEntityObj_events_fixed k hrem]
    · rw [dif_neg hi] at h
      exact ih (i + 1) w batches evs hevs r h

/-- The entity scan commutes with scaling the game clock. -/
theorem entityScan_scale (k t : ℚ) :
    ∀ (fuel i : Nat) (w : World) (batches : List (Nat × Batch))
      (evs : List Event),
      entityScan t fuel i (scaleWorld k w) (scaleBatches k batches) evs =
        (entityScan t fuel i w batches evs).map
          (fun r => (scaleWorld k r.1, scaleBatches k r.2.1, r.2.2)) := by
  intro fuel
  induction fuel with
  | zero =>
    intro i w batches evs
    rfl
  | succ fuel ih =>
    intro i w batches evs
    rw [entityScan, entityScan]
    by_cases hi : i < w.entities.length
    · have hi2 : i < (scaleWorld k w).entities.length := hi
      rw [dif_pos hi2, dif_pos hi]
      have hget : (scaleWorld k w).entities.get ⟨i, hi2⟩ =
          w.entities.get ⟨i, hi⟩ := rfl
      simp only [hget]
      by_cases hact : (w.entities.get ⟨i, hi⟩).active = true
      · simp only [hact, if_true]
        have hes : (scaleWorld k w).entitySystems = w.entitySystems := rfl
        simp only [hes]
        rcases hesys : lookupA w.entitySystems (w.entities.get ⟨i, hi⟩).id
            with _ | l <;> simp only [hesys]
        · exact ih (i + 1) w batches evs
        · have hsys : (scaleWorld k w).systems = w.systems := rfl
          have hst : (scaleWorld k w).state = w.state := rfl
          simp only [hsys, hst]
          rw [sysScan_scale]
          exact ih (i + 1) _ _ evs
      · simp only [hact, Bool.false_eq_true, if_false]
        rw [removeEntityObj_scale]
        rcases hrem : w.removeEntityObj (w.entities.get ⟨i, hi⟩)
            with _ | r0 <;> simp only [hrem, Option.map_none', Option.map_some']
        exact ih (i + 1) _ _ _
    · have hi2 : ¬i < (scaleWorld k w).entities.length := hi
      rw [dif_neg hi2, dif_neg hi]
      exact ih (i + 1) w batches evs

/-- The update-phase events of a scaled batch table are the scaled events. -/
theorem batchEvents_scale (k g : ℚ) :
    ∀ batches : List (Nat × Batch),
      batchEvents (k * g) (scaleBatches k batches) =
        (batchEvents g batches).map (scaleEvent k) := by
  intro batches
  induction batches with
  | nil => rfl
  | cons p rest ih =>
    rw [show scaleBatches k (p :: rest) =
      (p.1, scaleBatch k p.2) :: scaleBatches k rest from rfl]
    rw [batchEvents, batchEvents, List.flatMap_cons, List.flatMap_cons,
      List.map_append]
    congr 1
    · by_cases hbf : p.2.sys.hasBefore = true <;>
        by_cases hup : p.2.sys.hasUpdate = true <;>
        by_cases haf : p.2.sys.hasAfter = true <;>
        simp [scaleBatch, hbf, hup, haf, scaleEvent, List.map_map,
          Function.comp]

/-- `removeEntity` never touches the three clock fields. -/
theorem removeEntityObj_time_frame {w : World} {e : Entity}
    {r : World × List Event} (h : w.removeEntityObj e = some r) :
    r.1.gameTime = w.gameTime ∧ r.1.timeScale = w.timeScale ∧
      r.1.lastUpdateTime = w.lastUpdateTime := by
  rw [World.removeEntityObj] at h
  rcases hs : cacheSweep e w.queryCache with _ | rc
  · rw [hs] at h
    cases h
  · simp only [hs] at h
    rcases hidx : w.entities.findIdx? (fun e0 => e0.id == e.id) with _ | i <;>
      simp only [hidx] at h <;>
      (have h2 := congrArg Prod.fst (Option.some_inj.mp h); rw [← h2];
       exact ⟨rfl, rfl, rfl⟩)

/-- The entity scan never touches the three clock fields. -/
theorem entityScan_time_frame (t : ℚ) :
    ∀ (fuel i : Nat) (w : World) (batches : List (Nat × Batch))
      (evs : List Event) (r : World × List (Nat × Batch) × List Event),
      entityScan t fuel i w batches evs = some r →
      r.1.gameTime = w.gameTime ∧ r.1.timeScale = w.timeScale ∧
        r.1.lastUpdateTime = w.lastUpdateTime := by
  intro fuel
  induction fuel with
  | zero =>
    intro i w batches evs r h
    rw [entityScan] at h
    obtain rfl := Option.some_inj.mp h
    exact ⟨rfl, rfl, rfl⟩
  | succ fuel ih =>
    intro i w batches evs r h
    rw [entityScan] at h
    by_cases hi : i < w.entities.length
    · rw [dif_pos hi] at h
      by_cases hact : (w.entities.get ⟨i, hi⟩).active = true
      · simp only [hact, if_true] at h
        rcases hesys : lookupA w.entitySystems (w.entities.get ⟨i, hi⟩).id
            with _ | l <;> rw [hesys] at h
        · exact ih (i + 1) w batches evs r h
        · obtain ⟨f1, f2, f3⟩ := ih (i + 1) _ _ evs r h
          obtain ⟨_, _, _, _, _, g6, g7, g8⟩ :=
            sysScan_frame t (w.entities.get ⟨i, hi⟩)
              (w.systems.filter (fun s =>
                s.states.contains anyState || s.states.contains w.state))
              w batches
          exact ⟨f1.trans g7, f2.trans g6, f3.trans g8⟩
      · simp only [hact, Bool.false_eq_true, if_false] at h
        rcases hrem : w.removeEntityObj (w.entities.get ⟨i, hi⟩)
            with _ | r0 <;> rw [hrem] at h
        · cases h
        · obtain ⟨f1, f2, f3⟩ := ih (i + 1) _ _ _ r h
          obtain ⟨g1, g2, g3⟩ := removeEntityObj_time_frame hrem
          exact ⟨f1.trans g1, f2.trans g2, f3.trans g3⟩
    · rw [dif_neg hi] at h
      exact ih (i + 1) w batches evs r h

/-- One tick advances the game clock by wall-elapsed × timeScale. -/
theorem update_gameTime {w : World} {t : ℚ} {w2 : World} {evs : List Event}
    (h : w.update t = some (w2, evs)) :
    w2.gameTime = w.gameTime + (t - w.lastUpdateTime) * w.timeScale := by
  rw [World.update] at h
  rcases hscan : entityScan t
      ({ w with
        gameTime := w.gameTime + (t - w.lastUpdateTime) * w.timeScale,
        lastUpdateTime := t } : World).entities.length 0
      { w with
        gameTime := w.gameTime + (t - w.lastUpdateTime) * w.timeScale,
        lastUpdateTime := t } [] [] with _ | r
  · rw [hscan] at h
    cases h
  · rw [hscan] at h
    rcases r with ⟨w1, batches, evs0⟩
    have h2 := congrArg Prod.fst (Option.some_inj.mp h)
    obtain ⟨f1, _, _⟩ := entityScan_time_frame t _ 0 _ [] [] _ hscan
    rw [show w2 = (w2, evs).1 from rfl, ← h2]
    exact f1

/-- `update()` commutes with scaling the game clock: the scaled run makes
the same gating decisions and removals, and every game instant and delta
it hands to hooks is multiplied by `k`. -/
theorem update_scale (k : ℚ) (w : World) (t : ℚ) :
    (scaleWorld k w).update t =
      (w.update t).map (fun r => (scaleWorld k r.1, r.2.map (scaleEvent k))) := by
  rw [World.update, World.update]
  have hadv : ({ scaleWorld k w with
      gameTime := (scaleWorld k w).gameTime +
        (t - (scaleWorld k w).lastUpdateTime) * (scaleWorld k w).timeScale,
      lastUpdateTime := t } : World) =
      scaleWorld k
        { w with
          gameTime := w.gameTime + (t - w.lastUpdateTime) * w.timeScale,
          lastUpdateTime := t } := by
    simp only [scaleWorld]
    congr 1
    ring
  rw [hadv]
  have hlen : (scaleWorld k
      { w with
        gameTime := w.gameTime + (t - w.lastUpdateTime) * w.timeScale,
        lastUpdateTime := t }).entities.length =
      ({ w with
        gameTime := w.gameTime + (t - w.lastUpdateTime) * w.timeScale,
        lastUpdateTime := t } : World).entities.length := rfl
  rw [hlen]
  conv_lhs => rw [show ([] : List (Nat × Batch)) = scaleBatches k [] from rfl,
    entityScan_scale]
  rcases hscan : entityScan t
      ({ w with
        gameTime := w.gameTime + (t - w.lastUpdateTime) * w.timeScale,
        lastUpdateTime := t } : World).entities.length 0
      { w with
        gameTime := w.gameTime + (t - w.lastUpdateTime) * w.timeScale,
        lastUpdateTime := t } [] [] with _ | r
  · rfl
  · rcases r with ⟨w1, batches, evs0⟩
    simp only [Option.map_some']
    have hfix : evs0.map (scaleEvent k) = evs0 :=
      entityScan_evs_fixed k t _ 0 _ [] [] rfl _ hscan
    rw [List.map_append, hfix]
    rw [show (scaleWorld k w1).gameTime = k * w1.gameTime from rfl]
    rw [batchEvents_scale]

/-- C9 (amended): each tick advances the game clock by wall-clock elapsed
time × `timeScale`; scaling `timeScale`, the game clock and every recorded
game stamp by `k` commutes with `update()`, multiplying every game instant
and every delta handed to the hooks by `k` while the wall-clock gating is
unchanged — so `timeScale = 2` yields exactly double each delta of
`timeScale = 1`, and with `timeScale = 0` every delta an `update` hook
receives is 0 (or `NaN`, modelled `none`, for a pair whose game stamp was
never recorded).  The delta is NOT the per-pair game-clock elapsed time
claimed originally: riders of a batch inherit the batch creator's delta. -/
theorem game_clock_scaling :
    (∀ (w : World) (t : ℚ) (w2 : World) (evs : List Event),
      w.update t = some (w2, evs) →
      w2.gameTime = w.gameTime + (t - w.lastUpdateTime) * w.timeScale) ∧
    (∀ (k : ℚ) (w : World) (t : ℚ),
      (scaleWorld k w).update t =
        (w.update t).map (fun r => (scaleWorld k r.1, r.2.map (scaleEvent k)))) ∧
    (∀ (w : World) (t : ℚ) (w2 : World) (evs : List Event),
      (scaleWorld 0 w).update t = some (w2, evs) →
      ∀ sid eid g d, Event.upd sid eid g d ∈ evs → d = none ∨ d = some 0) := by
  refine ⟨fun w t w2 evs h => update_gameTime h, update_scale, ?_⟩
  intro w t w2 evs h sid eid g d hmem
  rw [update_scale] at h
  rcases hup : w.update t with _ | r
  · rw [hup] at h
    cases h
  · rw [hup] at h
    have hevs := congrArg Prod.snd (Option.some_inj.mp h)
    rw [show evs = (w2, evs).2 from rfl, ← hevs] at hmem
    rcases List.mem_map.mp hmem with ⟨ev, _, hevEq⟩
    cases ev <;> cases hevEq
    rename_i d2 hm
    cases d2 with
    | none => left; rfl
    | some v =>
      right
      show some (0 * v) = some 0
      rw [zero_mul]

set_option maxRecDepth 4000 in
/-- The tick of `wDeltaBase` at t=1000 (timeScale 1, game clock 0, last
wall instant 0) advances the game clock to 0 + (1000 − 0) · 1 = 1000. -/
theorem game_clock_scaling_witness :
    wDelta1.gameTime = wDeltaBase.gameTime +
      (1000 - wDeltaBase.lastUpdateTime) * wDeltaBase.timeScale :=
  game_clock_scaling.1 wDeltaBase 1000 wDelta1
    ((wDeltaBase.update 1000).getD (wDeltaBase, [])).2 (by with_unfolding_all rfl)
